import Mathlib

/-!
Stack_Analyser (`stack_analyzer.cc`): a shallow embedding

The user-space side of the stack profiler reads four kernel tables (count table, stack-trace
table, pid→tgid table, pid→name table), sorts the counts (`sortD`), and exports either a
folded-stack text (`flame_save`) or a nested JSON report (`data_save`); `test` drives one run.

Conventions of the embedding:
* a kernel table is the list of its entries in the order the kernel iterates them;
* machine integers are `Int`/`Nat`, with explicit wrap-around where the code relies on it;
* a loop over `bpf_map_get_next_key` carries fuel; `none` stands for a loop that did not end.
-/

namespace StackAnalyzer

/-! ## Kernel tables -/

/-- Key of the count table: `psid` (pid, kernel stack id, user stack id). -/
structure psid where
  pid : Int
  ksid : Int
  usid : Int
deriving DecidableEq, Repr

/-- A kernel table seen from user space: its entries, in kernel iteration order. -/
abbrev BpfMap (K V : Type) := List (K × V)

/-- The keys of a table, in iteration order. -/
def BpfMap.keys {K V : Type} (m : BpfMap K V) : List K := m.map Prod.fst

/-- `bpf_map_lookup_elem(fd, &key, &value)`: the value stored under `key`, `none` when the
call fails because the key is absent (the output buffer is then left untouched). -/
def bpf_map_lookup_elem {K V : Type} [DecidableEq K] : BpfMap K V → K → Option V
  | [], _ => none
  | (k, v) :: rest, key => if k = key then some v else bpf_map_lookup_elem rest key

/-- Looks `prev` up in a key list: `none` when it does not occur, otherwise the key that
follows its first occurrence, if there is one. -/
def key_after {K : Type} [DecidableEq K] : List K → K → Option (Option K)
  | [], _ => none
  | k :: rest, prev => if k = prev then some rest.head? else key_after rest prev

/-- `bpf_map_get_next_key(fd, &prev, &next)`: when `prev` is not a key of the table the first
key is returned; when it is, the key following it is returned; the call fails (`none`,
a non-zero return value) when there is no such key. -/
def bpf_map_get_next_key {K V : Type} [DecidableEq K] (m : BpfMap K V) (prev : K) : Option K :=
  match key_after m.keys prev with
  | none => m.keys.head?
  | some next => next

/-- The keys met by `for (prev = start; !bpf_map_get_next_key(fd, &prev, &id); prev = id)`,
in order; `none` when the fuel runs out before the call fails. -/
def next_keys {K V : Type} [DecidableEq K] (m : BpfMap K V) : Nat → K → Option (List K)
  | 0, _ => none
  | fuel + 1, prev =>
    match bpf_map_get_next_key m prev with
    | none => some []
    | some id => (next_keys m fuel id).map (fun ks => id :: ks)

/-- The keys a full iteration from `start` meets. -/
def iter_keys {K V : Type} [DecidableEq K] (m : BpfMap K V) (start : K) : Option (List K) :=
  next_keys m (m.length + 1) start

/-! ## `sortD` -/

/-- One record of the sorted aggregate: `pksid_count`. -/
structure pksid_count where
  pid : Int
  ksid : Int
  usid : Int
  count : Nat
deriving DecidableEq, Repr

/-- `pksid_count::operator<`: compares the counts only. -/
def pksid_count.lt (a b : pksid_count) : Bool := decide (a.count < b.count)

/-- The binary search of `std::lower_bound(first, first + len, d)` over `D`. -/
def lower_bound_loop (D : List pksid_count) (d : pksid_count) : Nat → Nat → Nat → Nat
  | 0, first, _ => first
  | fuel + 1, first, len =>
    if len = 0 then first
    else
      let half := len / 2
      let middle := first + half
      match D.get? middle with
      | some e =>
        if e.lt d then lower_bound_loop D d fuel (middle + 1) (len - half - 1)
        else lower_bound_loop D d fuel first half
      | none => first

/-- `std::lower_bound(D->begin(), D->end(), d)` as an index into `D`. -/
def lower_bound (D : List pksid_count) (d : pksid_count) : Nat :=
  lower_bound_loop D d D.length 0 D.length

/-- `D->insert(D->begin() + i, d)`. -/
def vector_insert (D : List pksid_count) (i : Nat) (d : pksid_count) : List pksid_count :=
  D.take i ++ d :: D.drop i

/-- The zero key `psid prev = {0}` the iterations start from. -/
def psid_zero : psid := ⟨0, 0, 0⟩

/-- State of the `sortD` loop: the vector `D` and the local `count`, which a failed lookup
leaves as it was. -/
structure SortState where
  D : List pksid_count
  count : Nat
deriving DecidableEq, Repr

/-- Body of the `sortD` loop for one key. -/
def sortD_step (count_map : BpfMap psid Nat) (s : SortState) (id : psid) : SortState :=
  let count := (bpf_map_lookup_elem count_map id).getD s.count
  let d : pksid_count := ⟨id.pid, id.ksid, id.usid, count⟩
  ⟨vector_insert s.D (lower_bound s.D d) d, count⟩

/-- `sortD()`: outer `none` is a loop that did not end, `some none` the `NULL` returned for an
unopened count table, `some (some D)` the vector. `count0` is the indeterminate initial
value of the local `count`. -/
def sortD (count_fd : Int) (count_map : BpfMap psid Nat) (count0 : Nat) :
    Option (Option (List pksid_count)) :=
  if count_fd < 0 then some none
  else
    match iter_keys count_map psid_zero with
    | none => none
    | some ks => some (some (ks.foldl (sortD_step count_map) ⟨[], count0⟩).D)

/-- Closed form of the keys after the first occurrence of `prev`. -/
def keys_after {K : Type} [DecidableEq K] : List K → K → List K
  | [], _ => []
  | k :: rest, prev => if k = prev then rest else keys_after rest prev

/-- Closed form of the keys an iteration from `start` meets in a table with distinct keys:
all of them when `start` is not a key, otherwise only those after `start`. -/
def visited {K V : Type} [DecidableEq K] (m : BpfMap K V) (start : K) : List K :=
  if start ∈ m.keys then keys_after m.keys start else m.keys

/-- The record `sortD` builds for a key and its stored count. -/
def record_of (e : psid × Nat) : pksid_count := ⟨e.1.pid, e.1.ksid, e.1.usid, e.2⟩

/-- Non-decreasing order of the counts. -/
def sorted_by_count (D : List pksid_count) : Prop :=
  D.Pairwise (fun a b => a.count ≤ b.count)

/-- The record `sortD` builds for a key of the count table. -/
def record_at (count_map : BpfMap psid Nat) (id : psid) : pksid_count :=
  ⟨id.pid, id.ksid, id.usid, (bpf_map_lookup_elem count_map id).getD 0⟩

/-! ## `bpf_loader::test` -/

/-- Ways a call stops without returning: a loop that does not end, a failed assertion of
the JSON library, a null pointer used as an object or as a file, a write to a pipe that
nobody reads (SIGPIPE, for which the program sets no handler). -/
inductive Fault where
  | no_termination
  | json_assert
  | null_deref
  | null_file
  | sigpipe
deriving DecidableEq, Repr

/-- The member functions a run can call. -/
inductive Call where
  | load
  | attach
  | count_log
  | detach
  | flame_save
  | data_save
  | unload
deriving DecidableEq, Repr

/-- The virtual methods of a mode driver and the inherited steps `test` calls, as
transformers of the state `σ` of the process: each gives the value it returns, or the way it
stopped the process, and the state it leaves. -/
structure Loader (σ : Type) where
  load : σ → Except Fault Int × σ
  attach : σ → Except Fault Int × σ
  detach : σ → Except Fault Unit × σ
  unload : σ → Except Fault Unit × σ
  count_log : Int → σ → Except Fault Int × σ
  flame_save : σ → Except Fault Int × σ
  data_save : σ → Except Fault Int × σ

/-- A run of `test`: the member `err` at its end, which is the value `test` returns when it
returns, the final state, the calls made in order, and the way the run stopped when a call
did not return. -/
structure TestRun (σ : Type) where
  ret : Int
  state : σ
  calls : List Call
  fault : Option Fault

/-- The `do { ... } while (false)` block of `test`: `err`, the state, the calls made, and
the fault of the last call if it did not return. -/
def test_lifecycle {σ : Type} (L : Loader σ) (run_time : Int) (s : σ) : TestRun σ :=
  match L.load s with
  | (Except.error e, s1) => ⟨0, s1, [Call.load], some e⟩
  | (Except.ok err1, s1) =>
    if err1 ≠ 0 then ⟨err1, s1, [Call.load], none⟩
    else
      match L.attach s1 with
      | (Except.error e, s2) => ⟨err1, s2, [Call.load, Call.attach], some e⟩
      | (Except.ok err2, s2) =>
        if err2 ≠ 0 then ⟨err2, s2, [Call.load, Call.attach], none⟩
        else
          match L.count_log run_time s2 with
          | (Except.error e, s3) =>
            ⟨err2, s3, [Call.load, Call.attach, Call.count_log], some e⟩
          | (Except.ok _, s3) => ⟨err2, s3, [Call.load, Call.attach, Call.count_log], none⟩

/-- The export `test` calls: `flame_save` when `env::fla` is set, `data_save` otherwise. -/
def export_call (fla : Bool) : Call := if fla then Call.flame_save else Call.data_save

/-- `bpf_loader::test()`; `fla` is `env::fla`, `run_time` is `env::run_time`. The line
`// unload();` of the source is a comment: no call is made there. A call that does not
return ends the run. -/
def test {σ : Type} (L : Loader σ) (fla : Bool) (run_time : Int) (s : σ) : TestRun σ :=
  let r := test_lifecycle L run_time s
  match r.fault with
  | some _ => r
  | none =>
    match L.detach r.state with
    | (Except.error e, s1) => ⟨r.ret, s1, r.calls ++ [Call.detach], some e⟩
    | (Except.ok _, s1) =>
      match (if fla then L.flame_save s1 else L.data_save s1) with
      | (Except.error e, s2) => ⟨r.ret, s2, r.calls ++ [Call.detach, export_call fla], some e⟩
      | (Except.ok err, s2) => ⟨err, s2, r.calls ++ [Call.detach, export_call fla], none⟩

/-- A driver whose steps return fixed values and keep no state. -/
def fixed_loader (load_ret attach_ret flame_ret data_ret : Int) : Loader Unit where
  load := fun s => (Except.ok load_ret, s)
  attach := fun s => (Except.ok attach_ret, s)
  detach := fun s => (Except.ok (), s)
  unload := fun s => (Except.ok (), s)
  count_log := fun t s => (Except.ok t, s)
  flame_save := fun s => (Except.ok flame_ret, s)
  data_save := fun s => (Except.ok data_ret, s)

/-! ## Symbol parser (`g_symbol_parser`) -/

/-- The `symbol` record handed to the symbol parser. -/
structure symbol where
  start : Nat
  ip : Nat
  name : String
deriving DecidableEq, Repr

/-- The value of a freshly declared `symbol sym;`. -/
def symbol.init : symbol := ⟨0, 0, ""⟩

/-- Modelled from the spec: `sym.reset(va)` of symbol.h, which the sources at hand do not
include; it points the record at address `va` and forgets the start of the last symbol. -/
def symbol.reset (sym : symbol) (va : Nat) : symbol := { sym with start := 0, ip := va }

/-- Modelled from the spec: the resolvers behind `g_symbol_parser` (symbol.h is not among the
sources at hand). `resolveKernel address` is the optional name and start of a kernel symbol,
`resolveUser pid address` the optional name and start of a symbol of process `pid`. -/
structure SymbolDb where
  resolveKernel : Nat → Option (String × Nat)
  resolveUser : Int → Nat → Option (String × Nat)

/-- The calls made to `g_symbol_parser`. -/
inductive SymCall where
  | find_kernel_symbol (ip : Nat)
  | find_symbol_in_cache (pid : Int) (ip : Nat)
  | get_symbol_info (pid : Int) (ip : Nat)
  | putin_symbol_cache (pid : Int) (ip : Nat) (name : String)
deriving DecidableEq, Repr

/-- Modelled from the spec: the state of `g_symbol_parser`, an append-only cache from
(pid, address) to a display string, together with the calls received so far. -/
structure SymbolParser where
  cache : BpfMap (Int × Nat) String
  calls : List SymCall
deriving DecidableEq, Repr

/-- Modelled from the spec: `find_kernel_symbol(sym)`; on success the record gets the name
and the start of the symbol. -/
def SymbolParser.find_kernel_symbol (db : SymbolDb) (g : SymbolParser) (sym : symbol) :
    Bool × symbol × SymbolParser :=
  let g1 : SymbolParser := { g with calls := g.calls ++ [SymCall.find_kernel_symbol sym.ip] }
  match db.resolveKernel sym.ip with
  | some r => (true, { sym with name := r.1, start := r.2 }, g1)
  | none => (false, sym, g1)

/-- Modelled from the spec: `find_symbol_in_cache(pid, ip, out)`; the found string, if any. -/
def SymbolParser.find_symbol_in_cache (g : SymbolParser) (pid : Int) (ip : Nat) :
    Option String × SymbolParser :=
  (bpf_map_lookup_elem g.cache (pid, ip),
    { g with calls := g.calls ++ [SymCall.find_symbol_in_cache pid ip] })

/-- Modelled from the spec: `get_symbol_info(pid, sym, file) && find_elf_symbol(sym, file,
pid, pid)`; on success the record gets the name and the start of the symbol. -/
def SymbolParser.resolve_user (db : SymbolDb) (g : SymbolParser) (pid : Int) (sym : symbol) :
    Bool × symbol × SymbolParser :=
  let g1 : SymbolParser := { g with calls := g.calls ++ [SymCall.get_symbol_info pid sym.ip] }
  match db.resolveUser pid sym.ip with
  | some r => (true, { sym with name := r.1, start := r.2 }, g1)
  | none => (false, sym, g1)

/-- Modelled from the spec: `putin_symbol_cache(pid, ip, name)`; the cache is append-only, an
entry already present is kept. -/
def SymbolParser.putin_symbol_cache (g : SymbolParser) (pid : Int) (ip : Nat)
    (name : String) : SymbolParser :=
  { cache := match bpf_map_lookup_elem g.cache (pid, ip) with
      | some _ => g.cache
      | none => g.cache ++ [((pid, ip), name)]
    calls := g.calls ++ [SymCall.putin_symbol_cache pid ip name] }

/-! ## Formatting -/

/-- `sprintf(a, "0x%016llx", p)`: `0x` and at least 16 lowercase hex digits. -/
def sprintf_0x016llx (p : Nat) : String :=
  "0x" ++ String.mk (List.replicate (16 - (Nat.toDigits 16 p).length) '0' ++ Nat.toDigits 16 p)

/-- `sprintf(offs, "%x", offset)` for an `unsigned offset = p - start`. -/
def sprintf_x (p start : Nat) : String :=
  String.mk (Nat.toDigits 16 ((p + 2 ^ 32 - start % 2 ^ 32) % 2 ^ 32))

/-- The leading non-zero addresses of a trace buffer: what `for (auto p : ip)` with
`if (!p) break;` runs over. -/
def live_frames (ip : List Nat) : List Nat := ip.takeWhile (fun p => decide (p ≠ 0))

/-- The value an `int` holds after a 64-bit count was stored into it (low 32 bits, signed). -/
def to_int32 (c : Nat) : Int :=
  if c % 2 ^ 32 < 2 ^ 31 then ((c % 2 ^ 32 : Nat) : Int) else ((c % 2 ^ 32 : Nat) : Int) - 2 ^ 32

/-! ## Loader state and kernel tables -/

/-- The members of `bpf_loader`. -/
structure bpf_loader where
  pid : Int
  cpu : Int
  err : Int
  count_fd : Int
  tgid_fd : Int
  comm_fd : Int
  trace_fd : Int
  ustack : Bool
  kstack : Bool
deriving DecidableEq, Repr

/-- The four kernel tables: count table, pid→tgid, pid→name, stack id→trace. -/
structure Tables where
  count : BpfMap psid Nat
  tgid : BpfMap Int Int
  comm : BpfMap Int String
  trace : BpfMap Int (List Nat)
deriving DecidableEq, Repr

/-- What the exporters find outside the process: whether `fopen` and `popen` succeed, which
pids exist (`kill(pid, 0) == 0`), and whether the shell started for the renderer still reads
the pipe when the text is written to it (it does not when the renderer is missing or has
exited; the write then raises SIGPIPE). -/
structure World where
  fopen_ok : Bool
  popen_ok : Bool
  alive : Int → Bool
  renderer_reads : Bool

/-- Indeterminate initial contents of locals that are read before they are written when a
table lookup fails. -/
structure Stale where
  ip_deep : List Nat
  ip_main : List Nat
  cmd : String
  count : Int
  count64 : Nat
  tgid : Int
deriving DecidableEq, Repr

/-! ## `flame_save` -/

/-- State of the depth pre-pass: `max_deep` and the buffer `ip`. -/
structure DeepPass where
  max_deep : Int
  ip : List Nat
deriving DecidableEq, Repr

/-- Body of the pre-pass for one key: the user stack is looked up and its depth counted. -/
def flame_deep_step (T : Tables) (s : DeepPass) (key : psid) : DeepPass :=
  let ip := (bpf_map_lookup_elem T.trace key.usid).getD s.ip
  let deep : Int := ((live_frames ip).length : Int)
  ⟨if s.max_deep < deep then deep else s.max_deep, ip⟩

/-- Locals of the kernel-frame loop: the line, `sym`, and the symbol parser. -/
structure FlameLine where
  line : String
  sym : symbol
  parser : SymbolParser
deriving DecidableEq, Repr

/-- One kernel frame of `flame_save`; `pid` is the member `pid` of the loader. -/
def flame_kernel_frame (db : SymbolDb) (pid : Int) (st : FlameLine) (p : Nat) : FlameLine :=
  let r := st.parser.find_kernel_symbol db (st.sym.reset p)
  if r.1 then ⟨r.2.1.name ++ ";" ++ st.line, r.2.1, r.2.2⟩
  else
    ⟨sprintf_0x016llx p ++ ";" ++ st.line, r.2.1,
      r.2.2.putin_symbol_cache pid p (sprintf_0x016llx p)⟩

/-- What the pointer `std::string *s` of the user-frame loop points to. -/
inductive StrRef where
  | null
  | symbol
  | sym_name
deriving DecidableEq, Repr

/-- Locals of the user-frame loop of `flame_save`; `s` and `symbol` are declared before the
loop and keep their values from frame to frame. -/
structure FlameUser where
  line : String
  sym : symbol
  parser : SymbolParser
  s : StrRef
  symbol : String
  deep : Nat
deriving DecidableEq, Repr

/-- The lookups of one user frame: cache first, resolver on a miss. -/
def flame_user_lookup (db : SymbolDb) (idpid : Int) (st : FlameUser) (p : Nat) : FlameUser :=
  let c := st.parser.find_symbol_in_cache idpid p
  match c.1 with
  | some name => { st with sym := st.sym.reset p, parser := c.2, s := StrRef.symbol,
                           symbol := name }
  | none =>
    let r := c.2.resolve_user db idpid (st.sym.reset p)
    if r.1 then
      { st with sym := r.2.1, parser := r.2.2.putin_symbol_cache idpid p r.2.1.name,
                s := StrRef.sym_name }
    else { st with sym := r.2.1, parser := r.2.2 }

/-- One user frame of `flame_save`; `pid` is the member `pid` of the loader, `idpid` the pid
of the key. -/
def flame_user_frame (db : SymbolDb) (pid idpid : Int) (st : FlameUser) (p : Nat) :
    FlameUser :=
  let st1 := flame_user_lookup db idpid st p
  match st1.s with
  | StrRef.null =>
    { st1 with line := sprintf_0x016llx p ++ ";" ++ st1.line,
               parser := st1.parser.putin_symbol_cache pid p (sprintf_0x016llx p),
               deep := st1.deep + 1 }
  | StrRef.symbol => { st1 with line := st1.symbol ++ ";" ++ st1.line, deep := st1.deep + 1 }
  | StrRef.sym_name =>
    { st1 with line := st1.sym.name ++ ";" ++ st1.line, deep := st1.deep + 1 }

/-- `deep = max_deep - deep;` in `unsigned` arithmetic: the number of placeholder frames. -/
def flame_pad_count (max_deep : Int) (deep : Nat) : Nat :=
  ((max_deep - (deep : Int)) % 2 ^ 32).toNat

/-- `for (i = 0; i < deep; i++) line = ".;" + line;` -/
def flame_pad : Nat → String → String
  | 0, line => line
  | n + 1, line => flame_pad n (".;" ++ line)

/-- State carried from one key of the main loop to the next: the chunks written to `tex`,
the symbol parser, and the stale contents of `ip`, `cmd` and `count`. -/
structure FlameLoop where
  tex : List String
  parser : SymbolParser
  ip : List Nat
  cmd : String
  count : Int
deriving DecidableEq, Repr

/-- The kernel section of the line of one key, with the buffer it leaves. -/
def flame_kernel_section (db : SymbolDb) (L : bpf_loader) (T : Tables) (lp : FlameLoop)
    (id : psid) : FlameLine × List Nat :=
  if 0 ≤ id.ksid then
    let ip := (bpf_map_lookup_elem T.trace id.ksid).getD lp.ip
    ((live_frames ip).foldl (flame_kernel_frame db L.pid) ⟨"", symbol.init, lp.parser⟩, ip)
  else (⟨"[MISSING KERNEL STACK];" ++ "", symbol.init, lp.parser⟩, lp.ip)

/-- The locals at the start of the user-frame loop: `s = 0`, `symbol` empty, `deep = 0`. -/
def flame_user_start (k : FlameLine) (line : String) : FlameUser :=
  ⟨line, k.sym, k.parser, StrRef.null, "", 0⟩

/-- The user section of the line of one key, put in front of `line`. -/
def flame_user_section (db : SymbolDb) (L : bpf_loader) (T : Tables) (k : FlameLine)
    (ip : List Nat) (line : String) (id : psid) : FlameUser × List Nat :=
  if 0 ≤ id.usid then
    let ipu := (bpf_map_lookup_elem T.trace id.usid).getD ip
    ((live_frames ipu).foldl (flame_user_frame db L.pid id.pid) (flame_user_start k line), ipu)
  else (⟨"[MISSING USER STACK];" ++ line, k.sym, k.parser, StrRef.null, "", 1⟩, ip)

/-- Body of the main loop of `flame_save` for one key. -/
def flame_key (db : SymbolDb) (L : bpf_loader) (T : Tables) (max_deep : Int)
    (lp : FlameLoop) (id : psid) : FlameLoop :=
  let k := flame_kernel_section db L T lp id
  let line := "----------------;" ++ k.1.line
  let u := flame_user_section db L T k.1 k.2 line id
  let line := flame_pad (flame_pad_count max_deep u.1.deep) u.1.line
  let cmd := (bpf_map_lookup_elem T.comm id.pid).getD lp.cmd
  let line := cmd ++ ":" ++ toString id.pid ++ ";" ++ line
  let count := ((bpf_map_lookup_elem T.count id).map to_int32).getD lp.count
  let line := line ++ (" " ++ toString count ++ "\n")
  ⟨lp.tex ++ [line], u.1.parser, u.2, cmd, count⟩

/-- What `flame_save` returns and leaves behind: the return value (`none` when the process
is killed by SIGPIPE while the text goes to the pipe), the content written to `flatex.log`,
the bytes piped to the renderer, the symbol parser. -/
structure FlameResult where
  ret : Option Int
  flatex : Option String
  piped : Option String
  parser : SymbolParser
deriving DecidableEq, Repr

/-- The pre-pass of `flame_save` over the keys `ks`. -/
def flame_max_deep (T : Tables) (junk : Stale) (ks : List psid) : Int :=
  (ks.foldl (flame_deep_step T) ⟨0, junk.ip_deep⟩).max_deep

/-- The main loop of `flame_save` over the keys `ks`. -/
def flame_lines (db : SymbolDb) (L : bpf_loader) (T : Tables) (g : SymbolParser)
    (junk : Stale) (ks : List psid) : FlameLoop :=
  ks.foldl (flame_key db L T (flame_max_deep T junk ks)) ⟨[], g, junk.ip_main, junk.cmd, junk.count⟩

/-- `flame_save()`. `CHECK_ERR(cond, ...)` makes the function return -1 when `cond` holds.
The text is written to `flatex.log` and the file closed before the pipe to the renderer is
opened; the text written to the pipe (at `fwrite` or when `pclose` flushes it) reaches the
shell of the renderer, or raises SIGPIPE when that shell no longer reads. -/
def flame_save (db : SymbolDb) (w : World) (L : bpf_loader) (T : Tables) (g : SymbolParser)
    (junk : Stale) : Except Fault FlameResult :=
  if L.count_fd < 0 then Except.ok ⟨some (-1), none, none, g⟩
  else if L.trace_fd < 0 then Except.ok ⟨some (-1), none, none, g⟩
  else if L.comm_fd < 0 then Except.ok ⟨some (-1), none, none, g⟩
  else
    match iter_keys T.count psid_zero with
    | none => Except.error Fault.no_termination
    | some ks =>
      let lp := flame_lines db L T g junk ks
      let tex_s := String.join lp.tex
      if ¬ w.fopen_ok then Except.ok ⟨some (-1), none, none, lp.parser⟩
      else if ¬ w.popen_ok then Except.ok ⟨some (-1), some tex_s, none, lp.parser⟩
      else if tex_s ≠ "" ∧ ¬ w.renderer_reads then
        Except.ok ⟨none, some tex_s, none, lp.parser⟩
      else Except.ok ⟨some 0, some tex_s, some tex_s, lp.parser⟩

/-! ## `data_save` -/

/-- A `rapidjson::Value` as `data_save` builds it; an object keeps its members in insertion
order and may hold several members of one name. -/
inductive Json where
  | null
  | uint (n : Nat)
  | str (s : String)
  | arr (items : List Json)
  | obj (members : List (String × Json))
deriving Repr

/-- `v.AddMember(name, x, alc)`: appends a member, whatever names are present; `none` when
`v` is not an object (the library asserts). -/
def Json.add_member (v : Json) (name : String) (x : Json) : Option Json :=
  match v with
  | Json.obj ms => some (Json.obj (ms ++ [(name, x)]))
  | _ => none

/-- The first member called `name`. -/
def find_member : List (String × Json) → String → Option Json
  | [], _ => none
  | (n, x) :: rest, name => if n = name then some x else find_member rest name

/-- `v[name]` read: the first member called `name`; `none` when `v` is not an object or has
no such member (the library asserts). -/
def Json.get (v : Json) (name : String) : Option Json :=
  match v with
  | Json.obj ms => find_member ms name
  | _ => none

/-- In-place update of the first member called `name`. -/
def modify_member : List (String × Json) → String → (Json → Option Json) →
    Option (List (String × Json))
  | [], _, _ => none
  | (n, x) :: rest, name, f =>
    if n = name then (f x).map (fun y => (n, y) :: rest)
    else (modify_member rest name f).map (fun r => (n, x) :: r)

/-- `f` applied in place to `v[name]`; `none` when the access asserts or `f` does. -/
def Json.modify (v : Json) (name : String) (f : Json → Option Json) : Option Json :=
  match v with
  | Json.obj ms => (modify_member ms name f).map Json.obj
  | _ => none

/-- `trace->PV(s)` for each string of `frames`, in order. -/
def Json.push_back_all (v : Json) (frames : List String) : Option Json :=
  match v with
  | Json.arr items => some (Json.arr (items ++ frames.map Json.str))
  | _ => none

/-- `pidtgid_map[pid]` read: a missing key reads as 0. -/
def pidtgid_get (m : BpfMap Int Int) (pid : Int) : Int := (bpf_map_lookup_elem m pid).getD 0

/-- State of the first two passes of `data_save`: the document, `pidtgid_map`, and the
locals `tgid` and `cmd` a failed lookup leaves as they were. -/
structure DataState where
  ajson : Json
  pidtgid_map : BpfMap Int Int
  tgid : Int
  cmd : String

/-- First pass, one pid of the pid→tgid table: registers `[tgid][pid].stacks`. -/
def data_register (T : Tables) (st : DataState) (pid : Int) : Option DataState :=
  let tgid := (bpf_map_lookup_elem T.tgid pid).getD st.tgid
  let tgid_s := toString tgid
  let pid_s := toString pid
  match st.ajson.add_member tgid_s (Json.obj []) with
  | none => none
  | some a1 =>
    match a1.modify tgid_s (fun t => t.add_member pid_s (Json.obj [])) with
    | none => none
    | some a2 =>
      match a2.modify tgid_s (fun t => t.modify pid_s
          (fun p => p.add_member "stacks" (Json.obj []))) with
      | none => none
      | some a3 => some { st with ajson := a3, pidtgid_map := (pid, tgid) :: st.pidtgid_map,
                                  tgid := tgid }

/-- Second pass, one pid of the pid→name table: adds `name` under `[tgid][pid]`. -/
def data_name (T : Tables) (st : DataState) (pid : Int) : Option DataState :=
  let cmd := (bpf_map_lookup_elem T.comm pid).getD st.cmd
  let tgid_s := toString (pidtgid_get st.pidtgid_map pid)
  let pid_s := toString pid
  match st.ajson.modify tgid_s (fun t => t.modify pid_s
      (fun p => p.add_member "name" (Json.str cmd))) with
  | none => none
  | some a => some { st with ajson := a, cmd := cmd }

/-- A loop whose body can assert. -/
def fold_opt {α β : Type} (f : β → α → Option β) : List α → β → Option β
  | [], b => some b
  | a :: rest, b =>
    match f b a with
    | none => none
    | some b1 => fold_opt f rest b1

/-- Locals of the symbolization of one key in `data_save`: the frames pushed to `trace`,
`sym`, the symbol parser, and the string `symbol` of the user loop. -/
structure DataFrames where
  trace : List String
  sym : symbol
  parser : SymbolParser
  symbol : String
deriving DecidableEq, Repr

/-- One kernel frame of `data_save`; `pid` is the member `pid` of the loader. -/
def data_kernel_frame (db : SymbolDb) (pid : Int) (st : DataFrames) (p : Nat) : DataFrames :=
  let r := st.parser.find_kernel_symbol db (st.sym.reset p)
  if r.1 then
    { st with trace := st.trace ++ [r.2.1.name ++ ("+0x" ++ sprintf_x p r.2.1.start)],
              sym := r.2.1, parser := r.2.2 }
  else
    { st with trace := st.trace ++ [sprintf_0x016llx p], sym := r.2.1,
              parser := r.2.2.putin_symbol_cache pid p (sprintf_0x016llx p) }

/-- One user frame of `data_save` for the key pid `idpid`; `s` is local to the frame. -/
def data_user_frame (db : SymbolDb) (w : World) (idpid : Int) (st : DataFrames) (p : Nat) :
    DataFrames :=
  let sym := st.sym.reset p
  let c := st.parser.find_symbol_in_cache idpid p
  match c.1 with
  | some name =>
    if w.alive idpid then
      { st with trace := st.trace ++ [name ++ (" +0x" ++ sprintf_x p sym.start)],
                sym := sym, parser := c.2,
                symbol := name ++ (" +0x" ++ sprintf_x p sym.start) }
    else { st with trace := st.trace ++ [name], sym := sym, parser := c.2, symbol := name }
  | none =>
    let r := c.2.resolve_user db idpid sym
    if r.1 then
      if w.alive idpid then
        { st with trace := st.trace ++ [r.2.1.name ++ (" +0x" ++ sprintf_x p r.2.1.start)],
                  sym := { r.2.1 with
                    name := r.2.1.name ++ (" +0x" ++ sprintf_x p r.2.1.start) },
                  parser := r.2.2.putin_symbol_cache idpid p r.2.1.name }
      else { st with trace := st.trace ++ [r.2.1.name], sym := r.2.1,
                     parser := r.2.2.putin_symbol_cache idpid p r.2.1.name }
    else
      { st with trace := st.trace ++ [sprintf_0x016llx p], sym := r.2.1,
                parser := r.2.2.putin_symbol_cache idpid p (sprintf_0x016llx p) }

/-- The kernel part of the trace of one record, with the buffer it leaves. -/
def data_kernel_section (db : SymbolDb) (L : bpf_loader) (T : Tables) (g : SymbolParser)
    (ip : List Nat) (d : pksid_count) : DataFrames × List Nat :=
  if 0 ≤ d.ksid then
    let ipk := (bpf_map_lookup_elem T.trace d.ksid).getD ip
    ((live_frames ipk).foldl (data_kernel_frame db L.pid) ⟨[], symbol.init, g, ""⟩, ipk)
  else (⟨["[MISSING KERNEL STACK]"], symbol.init, g, ""⟩, ip)

/-- The user part of the trace of one record, pushed after what `k` holds. -/
def data_user_section (db : SymbolDb) (w : World) (T : Tables) (k : DataFrames)
    (ip : List Nat) (d : pksid_count) : DataFrames × List Nat :=
  if 0 ≤ d.usid then
    let ipu := (bpf_map_lookup_elem T.trace d.usid).getD ip
    ((live_frames ipu).foldl (data_user_frame db w d.pid) k, ipu)
  else ({ k with trace := k.trace ++ ["[MISSING USER STACK]"] }, ip)

/-- The symbolization of one record: kernel frames, the separator, user frames. -/
def data_symbolize (db : SymbolDb) (w : World) (L : bpf_loader) (T : Tables)
    (g : SymbolParser) (ip : List Nat) (d : pksid_count) : DataFrames × List Nat :=
  let k := data_kernel_section db L T g ip d
  data_user_section db w T { k.1 with trace := k.1.trace ++ ["----------------"] } k.2 d

/-- The name `"{usid},{ksid}"` of the member of a record. The code keeps `sid_c`, the
`c_str()` of a temporary string that is destroyed at the end of the statement, and reads the
name through it afterwards; the bytes are taken here as they were when the temporary
lived. -/
def sid_name (d : pksid_count) : String := toString d.usid ++ "," ++ toString d.ksid

/-- On the `stacks` object: `stacks->KV(sid_c, kObjectType)`, then `count` and an empty
`trace` are added to `(*stacks)[sid_c]`. -/
def data_insert_stacks (d : pksid_count) (stk : Json) : Option Json :=
  match stk.add_member (sid_name d) (Json.obj []) with
  | none => none
  | some s1 =>
    match s1.modify (sid_name d) (fun m => m.add_member "count" (Json.uint d.count)) with
    | none => none
    | some s2 => s2.modify (sid_name d) (fun m => m.add_member "trace" (Json.arr []))

/-- The member of a record is added to `stacks` with its `count` and an empty `trace`. -/
def data_insert (ajson : Json) (tgid_s pid_s : String) (d : pksid_count) : Option Json :=
  ajson.modify tgid_s (fun t => t.modify pid_s (fun p => p.modify "stacks"
    (data_insert_stacks d)))

/-- On the `stacks` object: the frames are pushed to `(*stacks)[sid_c]["trace"]`. -/
def data_push_stacks (d : pksid_count) (frames : List String) (stk : Json) : Option Json :=
  stk.modify (sid_name d) (fun m => m.modify "trace" (fun tr => tr.push_back_all frames))

/-- The frames are pushed to the `trace` of the member of a record. -/
def data_push (ajson : Json) (tgid_s pid_s : String) (d : pksid_count)
    (frames : List String) : Option Json :=
  ajson.modify tgid_s (fun t => t.modify pid_s (fun p => p.modify "stacks"
    (data_push_stacks d frames)))

/-- State of the third pass: the document, the symbol parser, the stale buffer `ip`. -/
structure DataLoop where
  ajson : Json
  parser : SymbolParser
  ip : List Nat

/-- Third pass, one record of the sorted aggregate. -/
def data_key (db : SymbolDb) (w : World) (L : bpf_loader) (T : Tables)
    (pidtgid_map : BpfMap Int Int) (lp : DataLoop) (d : pksid_count) : Option DataLoop :=
  let tgid_s := toString (pidtgid_get pidtgid_map d.pid)
  let pid_s := toString d.pid
  match data_insert lp.ajson tgid_s pid_s d with
  | none => none
  | some a1 =>
    let r := data_symbolize db w L T lp.parser lp.ip d
    match data_push a1 tgid_s pid_s d r.1.trace with
    | none => none
    | some a2 => some ⟨a2, r.1.parser, r.2⟩

/-- What `data_save` returns and leaves behind: the return value, the document written to
`stack_count.json`, the symbol parser. -/
structure DataResult where
  ret : Int
  report : Option Json
  parser : SymbolParser

/-- The first two passes of `data_save`: registration of every pid of the pid→tgid table,
then the names of the pid→name table. -/
def data_passes (T : Tables) (junk : Stale) : Except Fault DataState :=
  match iter_keys T.tgid 0 with
  | none => Except.error Fault.no_termination
  | some pids =>
    match fold_opt (data_register T) pids ⟨Json.obj [], [], junk.tgid, junk.cmd⟩ with
    | none => Except.error Fault.json_assert
    | some st1 =>
      match iter_keys T.comm 0 with
      | none => Except.error Fault.no_termination
      | some names =>
        match fold_opt (data_name T) names st1 with
        | none => Except.error Fault.json_assert
        | some st2 => Except.ok st2

/-- `data_save()`. `CHECK_ERR(cond, ...)` makes the function return -1 when `cond` holds. -/
def data_save (db : SymbolDb) (w : World) (L : bpf_loader) (T : Tables) (g : SymbolParser)
    (junk : Stale) : Except Fault DataResult :=
  if L.comm_fd < 0 then Except.ok ⟨-1, none, g⟩
  else if L.tgid_fd < 0 then Except.ok ⟨-1, none, g⟩
  else if L.count_fd < 0 then Except.ok ⟨-1, none, g⟩
  else if L.trace_fd < 0 then Except.ok ⟨-1, none, g⟩
  else
    match data_passes T junk with
    | Except.error e => Except.error e
    | Except.ok st2 =>
      match sortD L.count_fd T.count junk.count64 with
      | none => Except.error Fault.no_termination
      | some none => Except.error Fault.null_deref
      | some (some D) =>
        match fold_opt (data_key db w L T st2.pidtgid_map) D.reverse
            ⟨st2.ajson, g, junk.ip_main⟩ with
        | none => Except.error Fault.json_assert
        | some lp =>
          if w.fopen_ok then Except.ok ⟨0, some lp.ajson, lp.parser⟩
          else Except.error Fault.null_file

/-! ## Descriptions used in the statements -/

/-- Frames as they stand in a folded line, each followed by `;`, the last frame of the list
first: `folded [f0, f1, f2]` is `f2;f1;f0;`. -/
def folded : List String → String
  | [] => ""
  | n :: rest => folded rest ++ (n ++ ";")

/-- The string `.;` repeated `n` times. -/
def dots : Nat → String
  | 0 => ""
  | n + 1 => dots n ++ ".;"

/-- The name `flame_save` prints for a kernel address. -/
def flame_kernel_name (db : SymbolDb) (p : Nat) : String :=
  match db.resolveKernel p with
  | some r => r.1
  | none => sprintf_0x016llx p

/-- The name the user-frame loop of `flame_save` prints after the lookups of a frame. -/
def flame_user_name (st1 : FlameUser) (p : Nat) : String :=
  match st1.s with
  | StrRef.null => sprintf_0x016llx p
  | StrRef.symbol => st1.symbol
  | StrRef.sym_name => st1.sym.name

/-- The names the user-frame loop of `flame_save` prints for the addresses of a trace, in the
order of the trace. -/
def flame_user_names (db : SymbolDb) (pid idpid : Int) : FlameUser → List Nat → List String
  | _, [] => []
  | st, p :: ps =>
    flame_user_name (flame_user_lookup db idpid st p) p
      :: flame_user_names db pid idpid (flame_user_frame db pid idpid st p) ps

/-- The count field `flame_save` prints for a key of the count table. -/
def flame_count_field (T : Tables) (id : psid) : String :=
  toString (to_int32 ((bpf_map_lookup_elem T.count id).getD 0))

/-- The value `data_save` returned, if it returned. -/
def export_ret (r : Except Fault DataResult) : Option Int :=
  match r with
  | Except.ok x => some x.ret
  | Except.error _ => none

/-- The text an export wrote to `flatex.log`, if it returned and wrote one. -/
def flame_text (r : Except Fault FlameResult) : Option String :=
  match r with
  | Except.ok x => x.flatex
  | Except.error _ => none

/-- A kernel symbol lookup: a call of `find_kernel_symbol`. -/
def SymCall.is_kernel_lookup : SymCall → Bool
  | SymCall.find_kernel_symbol _ => true
  | _ => false

/-- A user symbol or cache lookup: a call of `find_symbol_in_cache` or `get_symbol_info`. -/
def SymCall.is_user_lookup : SymCall → Bool
  | SymCall.find_symbol_in_cache _ _ => true
  | SymCall.get_symbol_info _ _ => true
  | _ => false

/-- The symbol parser `g2` is `g` after some more calls, none of which satisfies `bad`. -/
def calls_extend (bad : SymCall → Bool) (g g2 : SymbolParser) : Prop :=
  ∃ new, g2.calls = g.calls ++ new ∧ ∀ c ∈ new, bad c = false

/-- The frame `data_save` pushes for a kernel address. -/
def data_kernel_name (db : SymbolDb) (p : Nat) : String :=
  match db.resolveKernel p with
  | some r => r.1 ++ ("+0x" ++ sprintf_x p r.2)
  | none => sprintf_0x016llx p

/-- The frame `data_save` pushes for a user address of process `idpid`, given the locals
before the frame. -/
def data_user_name (db : SymbolDb) (w : World) (idpid : Int) (st : DataFrames) (p : Nat) :
    String :=
  match (st.parser.find_symbol_in_cache idpid p).1 with
  | some name =>
    if w.alive idpid then name ++ (" +0x" ++ sprintf_x p (st.sym.reset p).start) else name
  | none =>
    match db.resolveUser idpid p with
    | some r => if w.alive idpid then r.1 ++ (" +0x" ++ sprintf_x p r.2) else r.1
    | none => sprintf_0x016llx p

/-- The frames `data_save` pushes for the addresses of a user trace, in the order of the
trace. -/
def data_user_names (db : SymbolDb) (w : World) (idpid : Int) :
    DataFrames → List Nat → List String
  | _, [] => []
  | st, p :: ps =>
    data_user_name db w idpid st p :: data_user_names db w idpid (data_user_frame db w idpid st p) ps

/-- The value of a decimal digit character. -/
def digit_value (c : Char) : Nat := c.toNat - 48

/-- Reads decimal digits from the left, starting from `acc`. -/
def decode_from (acc : Nat) (cs : List Char) : Nat :=
  cs.foldl (fun a c => 10 * a + digit_value c) acc

/-- The characters a decimal number is written with. -/
def is_decimal (c : Char) : Bool := decide (48 ≤ c.toNat ∧ c.toNat ≤ 57)

/-- The value reached from `v` by reading the members `names` one after the other. -/
def Json.path : Json → List String → Option Json
  | v, [] => some v
  | v, n :: rest =>
    match v.get n with
    | none => none
    | some x => Json.path x rest

/-- `f` applied in place to the value reached from `v` through the members `names`. -/
def Json.modify_path : Json → List String → (Json → Option Json) → Option Json
  | v, [], f => f v
  | v, n :: rest, f => v.modify n (fun x => Json.modify_path x rest f)

/-- Two member paths that part at some member name. -/
def diverges : List String → List String → Prop
  | a :: p, b :: q => a ≠ b ∨ (a = b ∧ diverges p q)
  | _, _ => False

/-- The member `data_save` builds for a record and its frames. -/
def stack_member (d : pksid_count) (frames : List String) : String × Json :=
  (sid_name d, Json.obj [("count", Json.uint d.count), ("trace", Json.arr (frames.map Json.str))])

/-- The members of the `stacks` object of `pid` after the records `dfs` (each with its
frames) were inserted in that order. -/
def stack_members (pid : Int) (dfs : List (pksid_count × List String)) : List (String × Json) :=
  (dfs.filter (fun df => decide (df.1.pid = pid))).map (fun df => stack_member df.1 df.2)

/-- The tgid the pid→tgid table holds for `pid` (0 when it holds none). -/
def tgid_of (T : Tables) (pid : Int) : Int := (bpf_map_lookup_elem T.tgid pid).getD 0

/-- What holds of the document and of `pidtgid_map` after the first pass registered the pids
`reg`: the document is an object of objects, the members of these are named after registered
pids, every registered pid has an empty `stacks` object under its tgid and pid, and
`pidtgid_map` holds its tgid. -/
def registered (T : Tables) (st : DataState) (reg : List Int) : Prop :=
  (∃ top, st.ajson = Json.obj top) ∧
  (∀ t x, st.ajson.get t = some x → ∃ pm, x = Json.obj pm) ∧
  (∀ t p z, st.ajson.path [t, p] = some z → ∃ pid ∈ reg, toString pid = p) ∧
  (∀ pid ∈ reg, st.ajson.path [toString (tgid_of T pid), toString pid, "stacks"]
    = some (Json.obj [])) ∧
  (∀ pid ∈ reg, pidtgid_get st.pidtgid_map pid = tgid_of T pid)

/-- Every pid of `reg` has a `stacks` object under its tgid and pid, with the members
`content pid`. -/
def stacks_ready (T : Tables) (ajson : Json) (reg : List Int)
    (content : Int → List (String × Json)) : Prop :=
  ∀ pid ∈ reg, ajson.path [toString (tgid_of T pid), toString pid, "stacks"]
    = some (Json.obj (content pid))

/-- The key fields of a record. -/
def key_of (d : pksid_count) : psid := ⟨d.pid, d.ksid, d.usid⟩

/-! ## Data of the examples -/

/-- A symbol database that knows two kernel symbols and two symbols of every process. -/
def ex_db : SymbolDb where
  resolveKernel := fun a =>
    if a = 4096 then some ("k_leaf", 4096) else if a = 4097 then some ("k_root", 4097) else none
  resolveUser := fun _ a =>
    if a = 8192 then some ("u_leaf", 8192) else if a = 8193 then some ("u_root", 8193) else none

/-- A loader after a successful `load()`: no pid filter, the four tables opened. -/
def ex_loader : bpf_loader := ⟨-1, -1, 0, 3, 4, 5, 6, true, true⟩

/-- Files can be opened, the renderer can be started, every process is alive. -/
def ex_world : World := ⟨true, true, fun _ => true, true⟩

/-- An empty symbol cache. -/
def ex_symbols : SymbolParser := ⟨[], []⟩

/-- Zeroed locals. -/
def ex_junk : Stale := ⟨[], [], "", 0, 0, 0⟩

/-- One sampled stack of process 1: kernel trace 5 (leaf 4096, then 4097) and user trace 10
(leaf 8192, then 8193), seen 7 times. -/
def ex_tables : Tables where
  count := [(⟨1, 5, 10⟩, 7)]
  tgid := [(1, 1)]
  comm := [(1, "a")]
  trace := [(5, [4096, 4097, 0]), (10, [8192, 8193, 0])]

/-- Two processes with the same stacks: process 1 seen once, process 2 seen twice, met in
that order. -/
def ex_tables_two : Tables where
  count := [(⟨1, 5, 10⟩, 1), (⟨2, 5, 10⟩, 2)]
  tgid := [(1, 1), (2, 2)]
  comm := [(1, "a"), (2, "b")]
  trace := [(5, [4096, 4097, 0]), (10, [8192, 8193, 0])]

/-- A key of process 3 for which neither stack was captured. -/
def ex_key_missing : psid := ⟨3, -1, -1⟩

/-- The count table holds only `ex_key_missing`, seen twice. -/
def ex_tables_missing : Tables where
  count := [(ex_key_missing, 2)]
  tgid := [(3, 3)]
  comm := [(3, "c")]
  trace := []

/-- The state of the main loop of `flame_save` before its first key, with zeroed locals. -/
def ex_flame_loop : FlameLoop := ⟨[], ex_symbols, [], "", 0⟩

/-- Three processes: process 1 with both stacks, process 2 (same tgid as 1) with a user stack
only, process 3 with neither stack. -/
def ex_tables_three : Tables where
  count := [(⟨1, 5, 10⟩, 1), (⟨2, -1, 10⟩, 4), (⟨3, -1, -1⟩, 2)]
  tgid := [(1, 1), (2, 1), (3, 3)]
  comm := [(1, "a"), (2, "b"), (3, "c")]
  trace := [(5, [4096, 4097, 0]), (10, [8192, 8193, 0])]

/-- The pid→tgid table holds pid 0 first; the count table holds the zero key between two keys
of process 1, every count positive. -/
def ex_tables_pid_zero : Tables where
  count := [(⟨1, 5, 10⟩, 2), (⟨0, 0, 0⟩, 3), (⟨1, 6, 10⟩, 4)]
  tgid := [(0, 0), (1, 1)]
  comm := [(0, "swapper"), (1, "a")]
  trace := [(5, [4096, 4097, 0]), (6, [4097, 0, 0]), (10, [8192, 8193, 0])]

/-- The `count` values of the members of a `stacks` object, in member order. -/
def leaf_counts : Json → List Nat
  | Json.obj ms =>
    ms.filterMap (fun m =>
      match m.2.get "count" with
      | some (Json.uint n) => some n
      | _ => none)
  | _ => []

/-- The sum of the counts the count table stores under the keys of process `pid`. -/
def table_count_of_pid (count_map : BpfMap psid Nat) (pid : Int) : Nat :=
  ((count_map.filter (fun e => decide (e.1.pid = pid))).map Prod.snd).sum

/-- The pid→tgid table holds pid 5 and then pid 0; the count table holds one key of process
5, seen twice. -/
def ex_tables_before_zero : Tables where
  count := [(⟨5, -1, -1⟩, 2)]
  tgid := [(5, 5), (0, 0)]
  comm := [(5, "e"), (0, "swapper")]
  trace := []

/-- The way a `data_save` stopped without returning, if it did. -/
def export_fault (r : Except Fault DataResult) : Option Fault :=
  match r with
  | Except.ok _ => none
  | Except.error e => some e

/-- A symbol database that knows no kernel symbol and, in every process, one symbol `u_fn`
covering the addresses 8192 to 8199. -/
def ex_db_ranges : SymbolDb where
  resolveKernel := fun _ => none
  resolveUser := fun _ a => if 8192 ≤ a ∧ a < 8200 then some ("u_fn", 8192) else none

/-- The locals of the symbolization of a key of `data_save` before its first frame, with an
empty symbol cache. -/
def ex_data_frames : DataFrames := ⟨[], symbol.init, ex_symbols, ""⟩

/-- Process 1 with a user stack whose leaf 8192 resolves and whose caller 9999 does not;
process 2 with a user stack made of the address 9999 alone. -/
def ex_tables_stale : Tables where
  count := [(⟨1, -1, 10⟩, 1), (⟨2, -1, 11⟩, 1)]
  tgid := [(1, 1), (2, 2)]
  comm := [(1, "a"), (2, "b")]
  trace := [(10, [8192, 9999, 0]), (11, [9999, 0, 0])]

/-- One key of process 1 whose user stack holds the address 8196 twice. -/
def ex_tables_twice : Tables where
  count := [(⟨1, -1, 10⟩, 1)]
  tgid := [(1, 1)]
  comm := [(1, "a")]
  trace := [(10, [8196, 8196, 0])]

/-- The symbol cache a `flame_save` left behind, if it returned. -/
def flame_cache (r : Except Fault FlameResult) : Option (BpfMap (Int × Nat) String) :=
  match r with
  | Except.ok x => some x.parser.cache
  | Except.error _ => none

/-- The symbol cache a `data_save` left behind, if it returned. -/
def data_cache (r : Except Fault DataResult) : Option (BpfMap (Int × Nat) String) :=
  match r with
  | Except.ok x => some x.parser.cache
  | Except.error _ => none

/-- Every entry found in the cache of `g` is found, unchanged, in the cache of `g2`. -/
def cache_extends (g g2 : SymbolParser) : Prop :=
  ∀ k v, bpf_map_lookup_elem g.cache k = some v → bpf_map_lookup_elem g2.cache k = some v

/-- Every entry of the cache of `g2` is an entry of the cache of `g` or the hexadecimal
literal of its address stored under the pid `scope`. -/
def kernel_scoped (scope : Int) (g g2 : SymbolParser) : Prop :=
  ∀ k v, bpf_map_lookup_elem g2.cache k = some v →
    bpf_map_lookup_elem g.cache k = some v ∨ (k.1 = scope ∧ v = sprintf_0x016llx k.2)

/-- A loader after a successful `load()` with the pid filter set to process 1. -/
def ex_loader_filter : bpf_loader := ⟨1, -1, 0, 3, 4, 5, 6, true, true⟩

/-- One key of process 1 whose kernel stack and user stack both hold the address 8196. -/
def ex_tables_shared : Tables where
  count := [(⟨1, 5, 10⟩, 1)]
  tgid := [(1, 1)]
  comm := [(1, "a")]
  trace := [(5, [8196, 0]), (10, [8196, 0])]

/-! ## Mode drivers -/

/-- The calls by which a driver hands something back to libbpf or to the kernel: the
destruction of a binding (`bpf_link`), the closing of a descriptor, the destruction of a
skeleton (`name##_bpf__destroy(skel)`). -/
inductive Release where
  | bpf_link__destroy (link : Nat)
  | close (fd : Int)
  | skeleton_destroy
deriving DecidableEq, Repr

/-- The programs of the memory skeleton that `mem_loader::attach` binds. -/
inductive mem_prog where
  | malloc_enter
  | malloc_exit
  | calloc_enter
  | calloc_exit
  | realloc_enter
  | realloc_exit
  | free_enter
  | mmap_enter
  | mmap_exit
  | munmap_enter
deriving DecidableEq, Repr

/-- What libbpf and the kernel answer to the calls of a driver: whether the skeleton opens,
the result of its load, the descriptors of the tables, the descriptor `perf_event_open`
returns, the binding each attach call returns (`none` is a null pointer), the result of
`name##_bpf__attach(skel)` and the bindings it makes. -/
structure LibBpf where
  skel_open : Bool
  skel_load : Int
  map_fd : String → Int
  perf_event_open : Int
  attach_perf_event : Option Nat
  attach_uprobe : mem_prog → Option Nat
  skel_attach : Int
  skel_links : List Nat

/-- `OPEN_ALL_MAP`: the descriptors of the four tables are stored in the loader. -/
def open_all_map (lib : LibBpf) (b : bpf_loader) : bpf_loader :=
  { b with count_fd := lib.map_fd "psid_count", tgid_fd := lib.map_fd "pid_tgid",
           comm_fd := lib.map_fd "pid_comm", trace_fd := lib.map_fd "stack_trace" }

/-- The constructor of `bpf_loader`: no table is opened, `err` is 0. -/
def bpf_loader.init (p c : Int) (u k : Bool) : bpf_loader := ⟨p, c, 0, -1, -1, -1, -1, u, k⟩

/-- The skeleton of the on-CPU program as the driver uses it: the globals `u` and `k` and the
binding `links.do_stack` (`none` is a null pointer). -/
structure on_cpu_count_bpf where
  u : Bool
  k : Bool
  do_stack : Option Nat
deriving DecidableEq, Repr

/-- The members of `on_cpu_loader`; `skel = none` is the null skeleton handle. -/
structure on_cpu_loader where
  base : bpf_loader
  pefd : Int
  skel : Option on_cpu_count_bpf
deriving DecidableEq, Repr

/-- The constructor of `on_cpu_loader`: `pefd = -1`, `skel = 0`. -/
def on_cpu_loader.init (p c : Int) (u k : Bool) : on_cpu_loader :=
  ⟨bpf_loader.init p c u k, -1, none⟩

/-- `on_cpu_loader::load()`, the macro `LO`: open the skeleton, set its globals, load it, open
the tables; `CHECK_ERR` returns -1. -/
def on_cpu_loader.load (lib : LibBpf) (s : on_cpu_loader) : Int × on_cpu_loader :=
  if ¬ lib.skel_open then (-1, { s with skel := none })
  else
    let s1 : on_cpu_loader :=
      { s with skel := some ⟨s.base.ustack, s.base.kstack, none⟩,
               base := { s.base with err := lib.skel_load } }
    if lib.skel_load ≠ 0 then (-1, s1)
    else (0, { s1 with base := open_all_map lib s1.base })

/-- `on_cpu_loader::attach()`: the perf event is opened, then the program is bound to it and
the binding stored in `skel->links.do_stack`. -/
def on_cpu_loader.attach (lib : LibBpf) (s : on_cpu_loader) :
    Except Fault (Int × on_cpu_loader) :=
  let s1 : on_cpu_loader := { s with pefd := lib.perf_event_open }
  if s1.pefd < 0 then Except.ok (-1, s1)
  else
    match s1.skel with
    | none => Except.error Fault.null_deref
    | some sk =>
      let s2 : on_cpu_loader := { s1 with skel := some { sk with do_stack := lib.attach_perf_event } }
      match lib.attach_perf_event with
      | none => Except.ok (-1, s2)
      | some _ => Except.ok (0, s2)

/-- `on_cpu_loader::detach()`: the state it leaves and the release calls it makes, in order.
The binding is destroyed when `skel->links.do_stack` is not null and the descriptor closed
when `pefd` is not 0; no member is written. -/
def on_cpu_loader.detach (s : on_cpu_loader) : Except Fault (on_cpu_loader × List Release) :=
  match s.skel with
  | none => Except.error Fault.null_deref
  | some sk =>
    Except.ok (s,
      (match sk.do_stack with
        | some link => [Release.bpf_link__destroy link]
        | none => [])
      ++ (if s.pefd ≠ 0 then [Release.close s.pefd] else []))

/-- `on_cpu_loader::unload()`: the skeleton is destroyed when the handle is not null, and the
handle is set to null. -/
def on_cpu_loader.unload (s : on_cpu_loader) : on_cpu_loader × List Release :=
  ({ s with skel := none }, if s.skel.isSome then [Release.skeleton_destroy] else [])

/-- The skeleton of the off-CPU program as the driver uses it: the globals `apid`, `u`, `k`.
Modelled from the spec: the bindings `off_cpu_count_bpf__attach` made and the skeleton holds
(the generated skeleton header is not among the sources at hand). -/
structure off_cpu_count_bpf where
  apid : Int
  u : Bool
  k : Bool
  links : List Nat
deriving DecidableEq, Repr

/-- The members of `off_cpu_loader`. -/
structure off_cpu_loader where
  base : bpf_loader
  skel : Option off_cpu_count_bpf
deriving DecidableEq, Repr

/-- The constructor of `off_cpu_loader`: `skel = 0`. -/
def off_cpu_loader.init (p c : Int) (u k : Bool) : off_cpu_loader :=
  ⟨bpf_loader.init p c u k, none⟩

/-- `off_cpu_loader::load()`, the macro `LO`. -/
def off_cpu_loader.load (lib : LibBpf) (s : off_cpu_loader) : Int × off_cpu_loader :=
  if ¬ lib.skel_open then (-1, { s with skel := none })
  else
    let s1 : off_cpu_loader :=
      { s with skel := some ⟨s.base.pid, s.base.ustack, s.base.kstack, []⟩,
               base := { s.base with err := lib.skel_load } }
    if lib.skel_load ≠ 0 then (-1, s1)
    else (0, { s1 with base := open_all_map lib s1.base })

/-- `off_cpu_loader::attach()`. Modelled from the spec: `bpf_attach(off_cpu_count, skel)`, a
macro that is not among the sources at hand, taken as `off_cpu_count_bpf__attach(skel)`,
which binds the programs of the skeleton and keeps the bindings in it, or binds none and
returns an error. -/
def off_cpu_loader.attach (lib : LibBpf) (s : off_cpu_loader) :
    Except Fault (Int × off_cpu_loader) :=
  match s.skel with
  | none => Except.error Fault.null_deref
  | some sk =>
    let b : bpf_loader := { s.base with err := lib.skel_attach }
    if lib.skel_attach ≠ 0 then Except.ok (-1, { s with base := b })
    else Except.ok (0, { base := b, skel := some { sk with links := lib.skel_links } })

/-- `off_cpu_loader::detach()`. Modelled from the spec: `off_cpu_count_bpf__detach(skel)` of
the generated skeleton header, which is not among the sources at hand; it destroys every
binding the skeleton holds and forgets it. -/
def off_cpu_loader.detach (s : off_cpu_loader) : Except Fault (off_cpu_loader × List Release) :=
  match s.skel with
  | none => Except.ok (s, [])
  | some sk =>
    Except.ok ({ s with skel := some { sk with links := [] } },
      sk.links.map Release.bpf_link__destroy)

/-- `off_cpu_loader::unload()`. -/
def off_cpu_loader.unload (s : off_cpu_loader) : off_cpu_loader × List Release :=
  ({ s with skel := none }, if s.skel.isSome then [Release.skeleton_destroy] else [])

/-- The skeleton of the I/O program as the driver uses it: the globals `apid`, `u`, `k`.
Modelled from the spec: the bindings `io_count_bpf__attach` made and the skeleton holds (the
generated skeleton header is not among the sources at hand). -/
structure io_count_bpf where
  apid : Int
  u : Bool
  k : Bool
  links : List Nat
deriving DecidableEq, Repr

/-- The members of `io_loader`. -/
structure io_loader where
  base : bpf_loader
  skel : Option io_count_bpf
deriving DecidableEq, Repr

/-- The constructor of `io_loader`: `skel = 0`. -/
def io_loader.init (p c : Int) (u k : Bool) : io_loader := ⟨bpf_loader.init p c u k, none⟩

/-- `io_loader::load()`, the macro `LO`. -/
def io_loader.load (lib : LibBpf) (s : io_loader) : Int × io_loader :=
  if ¬ lib.skel_open then (-1, { s with skel := none })
  else
    let s1 : io_loader :=
      { s with skel := some ⟨s.base.pid, s.base.ustack, s.base.kstack, []⟩,
               base := { s.base with err := lib.skel_load } }
    if lib.skel_load ≠ 0 then (-1, s1)
    else (0, { s1 with base := open_all_map lib s1.base })

/-- `io_loader::attach()`. Modelled from the spec: `bpf_attach(io_count, skel)`, taken as
`io_count_bpf__attach(skel)` (the macro is not among the sources at hand). -/
def io_loader.attach (lib : LibBpf) (s : io_loader) : Except Fault (Int × io_loader) :=
  match s.skel with
  | none => Except.error Fault.null_deref
  | some sk =>
    let b : bpf_loader := { s.base with err := lib.skel_attach }
    if lib.skel_attach ≠ 0 then Except.ok (-1, { s with base := b })
    else Except.ok (0, { base := b, skel := some { sk with links := lib.skel_links } })

/-- `io_loader::detach()`. Modelled from the spec: `io_count_bpf__detach(skel)` of the
generated skeleton header, which is not among the sources at hand; it destroys every binding
the skeleton holds and forgets it. -/
def io_loader.detach (s : io_loader) : Except Fault (io_loader × List Release) :=
  match s.skel with
  | none => Except.ok (s, [])
  | some sk =>
    Except.ok ({ s with skel := some { sk with links := [] } },
      sk.links.map Release.bpf_link__destroy)

/-- `io_loader::unload()`. -/
def io_loader.unload (s : io_loader) : io_loader × List Release :=
  ({ s with skel := none }, if s.skel.isSome then [Release.skeleton_destroy] else [])

/-- The skeleton of the memory program as the driver uses it: the globals `u` and `apid` and
the bindings `links.prog` of its programs (`none` is a null pointer). -/
structure mem_count_bpf where
  u : Bool
  apid : Int
  links : mem_prog → Option Nat

/-- The members of `mem_loader`. -/
structure mem_loader where
  base : bpf_loader
  skel : Option mem_count_bpf
  object : String

/-- The constructor of `mem_loader`: `skel = 0`. -/
def mem_loader.init (p c : Int) (u k : Bool) (e : String) : mem_loader :=
  ⟨bpf_loader.init p c u k, none, e⟩

/-- `mem_loader::load()`, the macro `LO`. -/
def mem_loader.load (lib : LibBpf) (s : mem_loader) : Int × mem_loader :=
  if ¬ lib.skel_open then (-1, { s with skel := none })
  else
    let s1 : mem_loader :=
      { s with skel := some ⟨s.base.ustack, s.base.pid, fun _ => none⟩,
               base := { s.base with err := lib.skel_load } }
    if lib.skel_load ≠ 0 then (-1, s1)
    else (0, { s1 with base := open_all_map lib s1.base })

/-- The programs `mem_loader::attach` binds, in the order of its ten macro calls. -/
def mem_probes : List mem_prog :=
  [mem_prog.malloc_enter, mem_prog.malloc_exit, mem_prog.calloc_enter, mem_prog.calloc_exit,
    mem_prog.realloc_enter, mem_prog.realloc_exit, mem_prog.free_enter, mem_prog.mmap_enter,
    mem_prog.mmap_exit, mem_prog.munmap_enter]

/-- Modelled from the spec: `ATTACH_UPROBE_CHECKED(skel, sym, prog)` and
`ATTACH_URETPROBE_CHECKED(skel, sym, prog)`, macros that are not among the sources at hand:
the probe is bound, the binding is stored in `skel->links.prog`, and a null binding makes
`attach` return at once. The result says whether the binding was made. -/
def attach_probe_checked (lib : LibBpf) (sk : mem_count_bpf) (prog : mem_prog) :
    Bool × mem_count_bpf :=
  ((lib.attach_uprobe prog).isSome,
    { sk with links := fun q => if q = prog then lib.attach_uprobe prog else sk.links q })

/-- The macro calls of `mem_loader::attach` for the programs `progs`, up to the first that
fails. -/
def attach_probes (lib : LibBpf) : List mem_prog → mem_count_bpf → Bool × mem_count_bpf
  | [], sk => (true, sk)
  | prog :: rest, sk =>
    let r := attach_probe_checked lib sk prog
    if r.1 then attach_probes lib rest r.2 else (false, r.2)

/-- `mem_loader::attach()`: the ten probes, then `mem_count_bpf__attach(skel)`; a failure
returns a negative value (-1 here). -/
def mem_loader.attach (lib : LibBpf) (s : mem_loader) : Except Fault (Int × mem_loader) :=
  match s.skel with
  | none => Except.error Fault.null_deref
  | some sk =>
    let r := attach_probes lib mem_probes sk
    if ¬ r.1 then Except.ok (-1, { s with skel := some r.2 })
    else
      let s1 : mem_loader :=
        { s with skel := some r.2, base := { s.base with err := lib.skel_attach } }
      if lib.skel_attach ≠ 0 then Except.ok (-1, s1) else Except.ok (0, s1)

/-- The release call `detach` makes for a binding pointer. -/
def destroy_if_set (link : Option Nat) : List Release :=
  match link with
  | some l => [Release.bpf_link__destroy l]
  | none => []

/-- `mem_loader::detach()`: the state it leaves and the release calls it makes, in order: the
bindings of `free_enter`, `malloc_exit` and `malloc_enter` are destroyed when they are not
null; no member is written. -/
def mem_loader.detach (s : mem_loader) : Except Fault (mem_loader × List Release) :=
  match s.skel with
  | none => Except.error Fault.null_deref
  | some sk =>
    Except.ok (s, destroy_if_set (sk.links mem_prog.free_enter)
      ++ destroy_if_set (sk.links mem_prog.malloc_exit)
      ++ destroy_if_set (sk.links mem_prog.malloc_enter))

/-- `mem_loader::unload()`. -/
def mem_loader.unload (s : mem_loader) : mem_loader × List Release :=
  ({ s with skel := none }, if s.skel.isSome then [Release.skeleton_destroy] else [])

/-- A libbpf for which every call succeeds: the tables get the descriptors 3 to 6, the perf
event the descriptor 7, the on-CPU program the binding 100, the ten memory probes the bindings
101 to 110, and a skeleton attach the bindings 200 and 201. -/
def ex_lib : LibBpf where
  skel_open := true
  skel_load := 0
  map_fd := fun name =>
    if name = "psid_count" then 3 else if name = "pid_tgid" then 4
    else if name = "pid_comm" then 5 else 6
  perf_event_open := 7
  attach_perf_event := some 100
  attach_uprobe := fun prog =>
    match prog with
    | mem_prog.malloc_enter => some 101
    | mem_prog.malloc_exit => some 102
    | mem_prog.calloc_enter => some 103
    | mem_prog.calloc_exit => some 104
    | mem_prog.realloc_enter => some 105
    | mem_prog.realloc_exit => some 106
    | mem_prog.free_enter => some 107
    | mem_prog.mmap_enter => some 108
    | mem_prog.mmap_exit => some 109
    | mem_prog.munmap_enter => some 110
  skel_attach := 0
  skel_links := [200, 201]

/-- The on-CPU driver after a successful `load()`. -/
def ex_on_cpu_loaded : on_cpu_loader :=
  ⟨⟨-1, -1, 0, 3, 4, 5, 6, true, true⟩, -1, some ⟨true, true, none⟩⟩

/-- The on-CPU driver after a successful `load()` and a successful `attach()`. -/
def ex_on_cpu_attached : on_cpu_loader :=
  ⟨⟨-1, -1, 0, 3, 4, 5, 6, true, true⟩, 7, some ⟨true, true, some 100⟩⟩

/-- The release calls of a `detach()` that follows the `detach()` of `r`. -/
def on_cpu_loader.detach_again (r : Except Fault (on_cpu_loader × List Release)) :
    Except Fault (on_cpu_loader × List Release) :=
  match r with
  | Except.ok x => on_cpu_loader.detach x.1
  | Except.error e => Except.error e

/-- The bindings a skeleton of the memory program holds for the programs `attach` binds. -/
def mem_bindings (sk : mem_count_bpf) : List Nat := mem_probes.filterMap sk.links

/-! ## `count_log` -/

/-- What `count_log` meets while it runs: the cancellation flag `env::exiting` and the answer
of the liveness probe (`kill(pid, 0) == 0`) at the `i`-th evaluation of the loop condition,
and the count table as it stands when the `i`-th interval has been slept. -/
structure Timeline where
  exiting : Nat → Bool
  alive : Nat → Bool
  count : Nat → BpfMap psid Nat

/-- What `count_log` returns and prints: the return value and, per interval, the records of
the sorted aggregate in the order printed. -/
structure CountLog where
  ret : Int
  printed : List (List pksid_count)
deriving DecidableEq, Repr

/-- The loop condition `!env::exiting && time > 0 && (pid < 0 || !kill(pid, 0))` at its
`i`-th evaluation. -/
def count_log_continues (L : bpf_loader) (tl : Timeline) (i : Nat) (time : Int) : Bool :=
  !tl.exiting i && (decide (0 < time) && (decide (L.pid < 0) || tl.alive i))

/-- The loop of `count_log` from its `i`-th interval on, with `time` left; each interval
sleeps, sorts the count table and prints the records; `time -= 5` ends it. -/
def count_log_loop (L : bpf_loader) (tl : Timeline) (count0 : Nat) :
    Nat → Nat → Int → List (List pksid_count) → Except Fault CountLog
  | 0, _, _, _ => Except.error Fault.no_termination
  | fuel + 1, i, time, printed =>
    if count_log_continues L tl i time then
      match sortD L.count_fd (tl.count i) count0 with
      | none => Except.error Fault.no_termination
      | some none => Except.error Fault.null_deref
      | some (some D) => count_log_loop L tl count0 fuel (i + 1) (time - 5) (printed ++ [D])
    else Except.ok ⟨time, printed⟩

/-- `count_log(time)`. `CHECK_ERR(count_fd < 0, ...)` makes it return -1 when the count table
is not opened. -/
def count_log (L : bpf_loader) (tl : Timeline) (count0 : Nat) (time : Int) :
    Except Fault CountLog :=
  if L.count_fd < 0 then Except.ok ⟨-1, []⟩
  else count_log_loop L tl count0 (time.toNat + 1) 0 time []

/-- Nobody cancels, every process stays alive, the count table is that of `ex_tables`. -/
def ex_timeline : Timeline := ⟨fun _ => false, fun _ => true, fun _ => ex_tables.count⟩

/-! ## The shape of a folded line -/

/-- The characters the pattern `\s` accepts. -/
def is_space (c : Char) : Bool :=
  c = ' ' || c = '\t' || c = '\n' || c = '\r' || c.toNat = 11 || c.toNat = 12

/-- Whether the characters after the first `;` of a line end as `\s[0-9]+$` asks: a
whitespace character followed by one or more digits that end the line. -/
def tail_matches (cs : List Char) : Bool :=
  match cs.reverse.dropWhile is_decimal with
  | c :: _ => is_space c && !(cs.reverse.takeWhile is_decimal).isEmpty
  | [] => false

/-- Whether one line of the text (the characters between two line breaks, so a string that
holds a line break is not a line) matches `^[^:]+:[0-9]+;.*\s[0-9]+$`: a non-empty run of
characters other than `:`, then `:`, one or more digits, `;`, and an end as `tail_matches`
describes. -/
def line_matches (cs : List Char) : Bool :=
  cs.all (fun c => c != '\n') &&
  match cs.dropWhile (fun c => c != ':') with
  | _ :: r1 =>
    match r1.dropWhile is_decimal with
    | c :: r2 =>
      !(cs.takeWhile (fun c => c != ':')).isEmpty && !(r1.takeWhile is_decimal).isEmpty
        && c == ';' && tail_matches r2
    | [] => false
  | [] => false

/-- The lines of a text from the characters `cur` (last first) of the line begun: the runs
of characters that end at a line break, and the last run when no line break ends it. -/
def split_lines_from : List Char → List Char → List (List Char)
  | cur, [] => if cur.isEmpty then [] else [cur.reverse]
  | cur, c :: cs =>
    if c = '\n' then cur.reverse :: split_lines_from [] cs else split_lines_from (c :: cur) cs

/-- The lines of a text. -/
def split_lines (cs : List Char) : List (List Char) := split_lines_from [] cs

/-- A string without a line break. -/
def no_lf (s : String) : Prop := ∀ c ∈ s.data, c ≠ '\n'

/-- No string of the symbol cache holds a line break. -/
def cache_clean (g : SymbolParser) : Prop :=
  ∀ k v, bpf_map_lookup_elem g.cache k = some v → no_lf v

/-- No symbol name of the database holds a line break. -/
def db_clean (db : SymbolDb) : Prop :=
  (∀ p r, db.resolveKernel p = some r → no_lf r.1) ∧
  (∀ pid p r, db.resolveUser pid p = some r → no_lf r.1)

/-- The name the pid→name table holds for `pid` (empty when it holds none). -/
def comm_of (T : Tables) (pid : Int) : String := (bpf_map_lookup_elem T.comm pid).getD ""

/-- The line of a key without its newline: the name of the process, `:`, the pid, `;`, the
frames `body`, a space and the count field. -/
def flame_line_content (T : Tables) (body : String) (id : psid) : String :=
  comm_of T id.pid ++ ":" ++ toString id.pid ++ ";" ++ body ++ " " ++ flame_count_field T id

/-- One key of process 7, named `kworker/0:1`, with a user stack and no kernel stack. -/
def ex_tables_kworker : Tables where
  count := [(⟨7, -1, 10⟩, 3)]
  tgid := [(7, 7)]
  comm := [(7, "kworker/0:1")]
  trace := [(10, [8192, 8193, 0])]

/-! ## Descriptions and examples for the exports and the drivers -/

/-- The value a `flame_save` returned, if it returned. -/
def flame_ret (r : Except Fault FlameResult) : Option Int :=
  match r with
  | Except.ok x => x.ret
  | Except.error _ => none

/-- The bytes a `flame_save` piped to the renderer, if it returned and piped any. -/
def flame_piped (r : Except Fault FlameResult) : Option String :=
  match r with
  | Except.ok x => x.piped
  | Except.error _ => none

/-- The way a run stopped without returning, if it did. -/
def fault_of {α : Type} (r : Except Fault α) : Option Fault :=
  match r with
  | Except.ok _ => none
  | Except.error e => some e

/-- The release calls a `detach()` made, if it returned. -/
def released_by {σ : Type} (r : Except Fault (σ × List Release)) : Option (List Release) :=
  match r with
  | Except.ok x => some x.2
  | Except.error _ => none

/-- The names of the members of an object, in member order. -/
def member_names : Json → List String
  | Json.obj ms => ms.map Prod.fst
  | _ => []

/-- Files can be opened, the pipe to the renderer cannot, every process is alive. -/
def ex_world_no_renderer : World := ⟨true, false, fun _ => true, false⟩

/-- Files and the pipe can be opened, but the shell of the renderer has gone when the text is
written to the pipe (the renderer is not installed or has exited). -/
def ex_world_renderer_gone : World := ⟨true, true, fun _ => true, false⟩

/-- Files cannot be opened for writing; the pipe to the renderer can. -/
def ex_world_no_file : World := ⟨false, true, fun _ => true, true⟩

/-- Two keys whose stored counts are 2^32 + 5 and 2^31. -/
def ex_tables_big : Tables where
  count := [(⟨1, 5, 10⟩, 4294967301), (⟨2, 5, 10⟩, 2147483648)]
  tgid := [(1, 1), (2, 2)]
  comm := [(1, "a"), (2, "b")]
  trace := [(5, [4096, 4097, 0]), (10, [8192, 8193, 0])]

/-- A libbpf whose skeleton does not open. -/
def ex_lib_no_open : LibBpf := { ex_lib with skel_open := false }

/-- A libbpf whose skeleton opens and does not load. -/
def ex_lib_no_load : LibBpf := { ex_lib with skel_load := -22 }

/-- A libbpf and kernel for which `perf_event_open` fails. -/
def ex_lib_no_perf : LibBpf := { ex_lib with perf_event_open := -1 }

/-! ## `main` -/

/-- What `getopt(argc, argv, "hF:p:T:m:UKf")` returns, call after call: an option of the
list with its argument, or `?` for anything else. -/
inductive Opt where
  | F (optarg : String)
  | p (optarg : String)
  | f
  | T (optarg : String)
  | m (optarg : String)
  | U
  | K
  | h
  | unknown
deriving DecidableEq, Repr

/-- `atoi`: leading white space is skipped, then an optional sign and the decimal digits up to
the first other character are read; 0 when there is no digit. Values that do not fit an `int`
are outside this description. -/
def atoi (s : String) : Int :=
  match s.data.dropWhile is_space with
  | '-' :: r => - ((decode_from 0 (r.takeWhile is_decimal) : Nat) : Int)
  | '+' :: r => ((decode_from 0 (r.takeWhile is_decimal) : Nat) : Int)
  | r => ((decode_from 0 (r.takeWhile is_decimal) : Nat) : Int)

/-- The variables of the namespace `env` that `main` sets; `mod` is the value of the
enumeration `MOD` as an integer (`MOD_ON_CPU` is 0). -/
structure Env where
  pid : Int
  cpu : Int
  run_time : Nat
  freq : Int
  mod : Int
  u : Bool
  k : Bool
  fla : Bool
deriving DecidableEq, Repr

/-- Modelled from the spec: `MOD_ON_CPU` of the enumeration `MOD` (stack_analyzer.h is not
among the sources at hand) is taken as 0, the default the help text gives for `-m`. The
initial values of the namespace `env`. -/
def Env.init : Env := ⟨-1, -1, 2 ^ 31 - 1, 49, 0, true, true, false⟩

/-- One turn of the `switch` of `main`; `none` is `show_help(argv[0]); return 0;`. -/
def main_option (e : Env) : Opt → Option Env
  | Opt.F optarg => some { e with freq := if atoi optarg < 1 then 1 else atoi optarg }
  | Opt.p optarg => some { e with pid := if atoi optarg < 1 then -1 else atoi optarg }
  | Opt.f => some { e with fla := true }
  | Opt.T optarg => some { e with run_time := (atoi optarg % 2 ^ 32).toNat }
  | Opt.m optarg => some { e with mod := atoi optarg }
  | Opt.U => some { e with k := false }
  | Opt.K => some { e with u := false }
  | Opt.h => none
  | Opt.unknown => none

/-- The `while` loop of `main` over the options `getopt` returns. -/
def main_options : List Opt → Env → Option Env
  | [], e => some e
  | o :: rest, e =>
    match main_option e o with
    | none => none
    | some e1 => main_options rest e1

/-- The drivers, in the order of the table `arr` of `main`. -/
inductive Mode where
  | on_cpu
  | off_cpu
  | mem
  | io
deriving DecidableEq, Repr

/-- The table `bpf_load arr[]` of `main`. -/
def arr : List Mode := [Mode.on_cpu, Mode.off_cpu, Mode.mem, Mode.io]

/-- What `main` does after the options: it returns 0 after the help text, returns -1 when the
signal handler cannot be set, reads `arr[env::mod]` outside the table, or runs `test()` of the
driver the table gives for `env::mod`. -/
inductive MainResult where
  | help
  | signal_error
  | out_of_bounds (index : Int)
  | run (mode : Mode) (env : Env)
deriving DecidableEq, Repr

/-- `main`: the options, the signal handler, the table access. -/
def main (opts : List Opt) (signal_ok : Bool) : MainResult :=
  match main_options opts Env.init with
  | none => MainResult.help
  | some e =>
    if ¬ signal_ok then MainResult.signal_error
    else if e.mod < 0 then MainResult.out_of_bounds e.mod
    else
      match arr.get? e.mod.toNat with
      | some mode => MainResult.run mode e
      | none => MainResult.out_of_bounds e.mod

/-! ## A run of `test()` on a driver -/

/-- What surrounds a run of `test()`: libbpf and the kernel, the symbol database, the files
and processes, the kernel tables at the time of the export, the course of `count_log`, and
the contents of the locals that are read before they are written. -/
structure Outside where
  lib : LibBpf
  db : SymbolDb
  w : World
  T : Tables
  tl : Timeline
  junk : Stale

/-- The process that runs `test()`: the members of the driver, the symbol parser, and what
the run has released, printed and written so far. -/
structure Process (D : Type) where
  driver : D
  parser : SymbolParser
  released : List Release
  printed : List (List pksid_count)
  flatex : Option String
  piped : Option String
  report : Option Json

/-- The process before `test()` is called: nothing released, printed or written. -/
def Process.start {D : Type} (d : D) (g : SymbolParser) : Process D :=
  ⟨d, g, [], [], none, none, none⟩

/-- `count_log(time)` as a step of the process; `base` gives the `bpf_loader` members of the
driver. -/
def run_count_log {D : Type} (o : Outside) (base : D → bpf_loader) (time : Int)
    (ps : Process D) : Except Fault Int × Process D :=
  match count_log (base ps.driver) o.tl o.junk.count64 time with
  | Except.error e => (Except.error e, ps)
  | Except.ok r => (Except.ok r.ret, { ps with printed := ps.printed ++ r.printed })

/-- `flame_save()` as a step of the process. -/
def run_flame_save {D : Type} (o : Outside) (base : D → bpf_loader) (ps : Process D) :
    Except Fault Int × Process D :=
  match flame_save o.db o.w (base ps.driver) o.T ps.parser o.junk with
  | Except.error e => (Except.error e, ps)
  | Except.ok r =>
    match r.ret with
    | some v =>
      (Except.ok v, { ps with parser := r.parser, flatex := r.flatex, piped := r.piped })
    | none =>
      (Except.error Fault.sigpipe,
        { ps with parser := r.parser, flatex := r.flatex, piped := r.piped })

/-- `data_save()` as a step of the process. -/
def run_data_save {D : Type} (o : Outside) (base : D → bpf_loader) (ps : Process D) :
    Except Fault Int × Process D :=
  match data_save o.db o.w (base ps.driver) o.T ps.parser o.junk with
  | Except.error e => (Except.error e, ps)
  | Except.ok r => (Except.ok r.ret, { ps with parser := r.parser, report := r.report })

/-- The methods `test()` can call on a driver with members `D`, built from the four virtual
methods of the driver and the three inherited steps. -/
def driver_loader {D : Type} (o : Outside) (base : D → bpf_loader)
    (load : LibBpf → D → Int × D) (attach : LibBpf → D → Except Fault (Int × D))
    (detach : D → Except Fault (D × List Release)) (unload : D → D × List Release) :
    Loader (Process D) where
  load := fun ps => (Except.ok (load o.lib ps.driver).1,
    { ps with driver := (load o.lib ps.driver).2 })
  attach := fun ps =>
    match attach o.lib ps.driver with
    | Except.error e => (Except.error e, ps)
    | Except.ok r => (Except.ok r.1, { ps with driver := r.2 })
  detach := fun ps =>
    match detach ps.driver with
    | Except.error e => (Except.error e, ps)
    | Except.ok r => (Except.ok (), { ps with driver := r.1, released := ps.released ++ r.2 })
  unload := fun ps =>
    (Except.ok (), { ps with driver := (unload ps.driver).1,
                             released := ps.released ++ (unload ps.driver).2 })
  count_log := run_count_log o base
  flame_save := run_flame_save o base
  data_save := run_data_save o base

/-- The on-CPU driver as `test()` sees it. -/
def on_cpu_loader.loader (o : Outside) : Loader (Process on_cpu_loader) :=
  driver_loader o on_cpu_loader.base on_cpu_loader.load on_cpu_loader.attach
    on_cpu_loader.detach on_cpu_loader.unload

/-- The off-CPU driver as `test()` sees it. -/
def off_cpu_loader.loader (o : Outside) : Loader (Process off_cpu_loader) :=
  driver_loader o off_cpu_loader.base off_cpu_loader.load off_cpu_loader.attach
    off_cpu_loader.detach off_cpu_loader.unload

/-- The memory driver as `test()` sees it. -/
def mem_loader.loader (o : Outside) : Loader (Process mem_loader) :=
  driver_loader o mem_loader.base mem_loader.load mem_loader.attach
    mem_loader.detach mem_loader.unload

/-- The I/O driver as `test()` sees it. -/
def io_loader.loader (o : Outside) : Loader (Process io_loader) :=
  driver_loader o io_loader.base io_loader.load io_loader.attach
    io_loader.detach io_loader.unload

/-- Everything around the run works: the skeleton opens and loads, every binding is made,
the tables are those of the example. -/
def ex_outside : Outside := ⟨ex_lib, ex_db, ex_world, ex_tables, ex_timeline, ex_junk⟩

/-- As `ex_outside`, but the skeleton does not open. -/
def ex_outside_no_open : Outside :=
  ⟨ex_lib_no_open, ex_db, ex_world, ex_tables, ex_timeline, ex_junk⟩

/-- The locals of the kernel-frame loop of `flame_save` hold no line break. -/
def FlameLine.clean (st : FlameLine) : Prop :=
  no_lf st.line ∧ no_lf st.sym.name ∧ cache_clean st.parser

/-- The locals of the user-frame loop of `flame_save` hold no line break. -/
def FlameUser.clean (st : FlameUser) : Prop :=
  no_lf st.line ∧ no_lf st.sym.name ∧ no_lf st.symbol ∧ cache_clean st.parser

/-- One key of process 7, whose name in the pid→name table holds a line break. -/
def ex_tables_line_break : Tables where
  count := [(⟨7, -1, 10⟩, 3)]
  tgid := [(7, 7)]
  comm := [(7, "a\nb")]
  trace := [(10, [8192, 8193, 0])]

/-! ## Theorems -/

section Iteration

variable {K V : Type} [DecidableEq K]

omit [DecidableEq K] in
theorem keys_length (m : BpfMap K V) : m.keys.length = m.length := by
  simp [BpfMap.keys]

theorem key_after_split (pre rest : List K) (prev : K) (h : prev ∉ pre) :
    key_after (pre ++ prev :: rest) prev = some rest.head? := by
  induction pre with
  | nil => simp [key_after]
  | cons a pre ih =>
    have ha : a ≠ prev := fun e => h (by simp [e])
    have hp : prev ∉ pre := fun e => h (by simp [e])
    simp [key_after, ha, ih hp]

theorem key_after_absent (ks : List K) (prev : K) (h : prev ∉ ks) :
    key_after ks prev = none := by
  induction ks with
  | nil => rfl
  | cons a ks ih =>
    have ha : a ≠ prev := fun e => h (by simp [e])
    have hp : prev ∉ ks := fun e => h (by simp [e])
    simp [key_after, ha, ih hp]

theorem keys_after_split (pre rest : List K) (prev : K) (h : prev ∉ pre) :
    keys_after (pre ++ prev :: rest) prev = rest := by
  induction pre with
  | nil => simp [keys_after]
  | cons a pre ih =>
    have ha : a ≠ prev := fun e => h (by simp [e])
    have hp : prev ∉ pre := fun e => h (by simp [e])
    simp [keys_after, ha, ih hp]

omit [DecidableEq K] in
theorem not_mem_pre_of_nodup {pre rest : List K} {prev : K}
    (h : (pre ++ prev :: rest).Nodup) : prev ∉ pre := by
  have h2 := (List.nodup_middle.mp h)
  have h3 := (List.nodup_cons.mp h2).1
  exact fun e => h3 (List.mem_append_left _ e)

/-- From a key of the table the loop meets exactly the keys that follow it. -/
theorem next_keys_split (m : BpfMap K V) (hnd : m.keys.Nodup) :
    ∀ (rest pre : List K) (prev : K) (fuel : Nat),
      m.keys = pre ++ prev :: rest → rest.length < fuel → next_keys m fuel prev = some rest := by
  intro rest
  induction rest with
  | nil =>
    intro pre prev fuel hk hf
    obtain ⟨f, rfl⟩ : ∃ f, fuel = f + 1 := ⟨fuel - 1, by simp at hf; omega⟩
    have hp : prev ∉ pre := not_mem_pre_of_nodup (hk ▸ hnd)
    simp [next_keys, bpf_map_get_next_key, hk, key_after_split pre [] prev hp]
  | cons id rest ih =>
    intro pre prev fuel hk hf
    obtain ⟨f, rfl⟩ : ∃ f, fuel = f + 1 := ⟨fuel - 1, by simp at hf; omega⟩
    have hp : prev ∉ pre := not_mem_pre_of_nodup (hk ▸ hnd)
    have hk2 : m.keys = (pre ++ [prev]) ++ id :: rest := by simp [hk]
    have hrec := ih (pre ++ [prev]) id f hk2 (by simp at hf; omega)
    simp [next_keys, bpf_map_get_next_key, hk, key_after_split pre (id :: rest) prev hp, hrec]

/-- The iteration from `start` ends and meets exactly the keys of `visited`. -/
theorem iter_keys_eq (m : BpfMap K V) (hnd : m.keys.Nodup) (start : K) :
    iter_keys m start = some (visited m start) := by
  unfold iter_keys visited
  by_cases hs : start ∈ m.keys
  · obtain ⟨pre, rest, hk⟩ := List.append_of_mem hs
    have hp : start ∉ pre := not_mem_pre_of_nodup (hk ▸ hnd)
    have hl : rest.length < m.length + 1 := by
      have := congrArg List.length hk
      rw [keys_length] at this
      simp at this
      omega
    rw [next_keys_split m hnd rest pre start _ hk hl, if_pos hs, hk, keys_after_split pre rest start hp]
  · rw [if_neg hs]
    cases hm : m.keys with
    | nil =>
      simp [next_keys, bpf_map_get_next_key, hm, key_after]
    | cons id rest =>
      have hl : rest.length < m.length := by
        have := congrArg List.length hm
        rw [keys_length] at this
        simp at this
        omega
      have hrec := next_keys_split m hnd rest [] id m.length (by simpa using hm) hl
      have hab : key_after (id :: rest) start = none :=
        key_after_absent _ _ (hm ▸ hs)
      simp [next_keys, bpf_map_get_next_key, hm, hab, hrec]

end Iteration

section SortD

theorem sorted_getElem {D : List pksid_count} (hs : sorted_by_count D) {i j : Nat}
    {a b : pksid_count} (hij : i ≤ j) (ha : D[i]? = some a) (hb : D[j]? = some b) :
    a.count ≤ b.count := by
  rcases Nat.eq_or_lt_of_le hij with h | h
  · subst h
    rw [ha] at hb
    cases hb
    exact Nat.le_refl _
  · obtain ⟨hi, rfl⟩ := List.getElem?_eq_some_iff.mp ha
    obtain ⟨hj, rfl⟩ := List.getElem?_eq_some_iff.mp hb
    exact (List.pairwise_iff_getElem.mp hs) i j hi hj h

/-- The binary search keeps its window around the partition point of a sorted vector. -/
theorem lower_bound_loop_spec (D : List pksid_count) (d : pksid_count)
    (hs : sorted_by_count D) :
    ∀ (fuel first len : Nat), len ≤ fuel → first + len ≤ D.length →
      (∀ i e, i < first → D[i]? = some e → e.count < d.count) →
      (∀ i e, first + len ≤ i → D[i]? = some e → d.count ≤ e.count) →
      (∀ i e, i < lower_bound_loop D d fuel first len → D[i]? = some e → e.count < d.count) ∧
      (∀ i e, lower_bound_loop D d fuel first len ≤ i → D[i]? = some e → d.count ≤ e.count) := by
  intro fuel
  induction fuel with
  | zero =>
    intro first len hl _ hlo hhi
    have h0 : len = 0 := by omega
    subst h0
    exact ⟨by simpa [lower_bound_loop] using hlo, by simpa [lower_bound_loop] using hhi⟩
  | succ fuel ih =>
    intro first len hl hb hlo hhi
    by_cases h0 : len = 0
    · subst h0
      exact ⟨by simpa [lower_bound_loop] using hlo, by simpa [lower_bound_loop] using hhi⟩
    · have hmid : first + len / 2 < D.length := by
        have : len / 2 < len := Nat.div_lt_self (Nat.pos_of_ne_zero h0) (by decide)
        omega
      obtain ⟨e, he⟩ : ∃ e, D[first + len / 2]? = some e :=
        ⟨D[first + len / 2], List.getElem?_eq_getElem hmid⟩
      by_cases hlt : e.count < d.count
      · have hstep : lower_bound_loop D d (fuel + 1) first len
            = lower_bound_loop D d fuel (first + len / 2 + 1) (len - len / 2 - 1) := by
          simp [lower_bound_loop, h0, he, pksid_count.lt, hlt]
        rw [hstep]
        apply ih
        · omega
        · omega
        · intro i x hi hx
          have : x.count ≤ e.count := sorted_getElem hs (by omega) hx he
          omega
        · intro i x hi hx
          exact hhi i x (by omega) hx
      · have hstep : lower_bound_loop D d (fuel + 1) first len
            = lower_bound_loop D d fuel first (len / 2) := by
          simp [lower_bound_loop, h0, he, pksid_count.lt, hlt]
        rw [hstep]
        apply ih
        · omega
        · omega
        · exact hlo
        · intro i x hi hx
          have : e.count ≤ x.count := sorted_getElem hs hi he hx
          omega

/-- Everything before the insertion point is smaller than `d`. -/
theorem lower_bound_take (D : List pksid_count) (d : pksid_count) (hs : sorted_by_count D) :
    ∀ e ∈ D.take (lower_bound D d), e.count < d.count := by
  intro e he
  obtain ⟨n, hn⟩ := List.getElem?_of_mem he
  rw [List.getElem?_take] at hn
  split at hn
  · rename_i hlt
    exact (lower_bound_loop_spec D d hs D.length 0 D.length (Nat.le_refl _) (by simp)
      (fun i e hi _ => absurd hi (Nat.not_lt_zero i))
      (fun i e hi hx => by
        have := (List.getElem?_eq_some_iff.mp hx).1
        simp at hi
        omega)).1 n e hlt hn
  · cases hn

/-- Everything from the insertion point on is at least `d`. -/
theorem lower_bound_drop (D : List pksid_count) (d : pksid_count) (hs : sorted_by_count D) :
    ∀ e ∈ D.drop (lower_bound D d), d.count ≤ e.count := by
  intro e he
  obtain ⟨n, hn⟩ := List.getElem?_of_mem he
  rw [List.getElem?_drop] at hn
  exact (lower_bound_loop_spec D d hs D.length 0 D.length (Nat.le_refl _) (by simp)
      (fun i e hi _ => absurd hi (Nat.not_lt_zero i))
      (fun i e hi hx => by
        have := (List.getElem?_eq_some_iff.mp hx).1
        simp at hi
        omega)).2 (lower_bound D d + n) e (Nat.le_add_right _ _) hn

theorem vector_insert_perm (D : List pksid_count) (i : Nat) (d : pksid_count) :
    (vector_insert D i d).Perm (d :: D) := by
  unfold vector_insert
  exact List.perm_middle.trans (by simp)

/-- Inserting at the lower bound keeps the vector sorted. -/
theorem vector_insert_sorted (D : List pksid_count) (d : pksid_count)
    (hs : sorted_by_count D) : sorted_by_count (vector_insert D (lower_bound D d) d) := by
  unfold vector_insert sorted_by_count
  have hsplit : sorted_by_count (D.take (lower_bound D d) ++ D.drop (lower_bound D d)) := by
    simpa using hs
  obtain ⟨h1, h2, h3⟩ := List.pairwise_append.mp hsplit
  refine List.pairwise_append.mpr ⟨h1, List.pairwise_cons.mpr ⟨?_, h2⟩, ?_⟩
  · exact lower_bound_drop D d hs
  · intro a ha b hb
    rcases List.mem_cons.mp hb with rfl | hb
    · exact Nat.le_of_lt (lower_bound_take D _ hs a ha)
    · exact h3 a ha b hb

/-- Among the records with one count, the new record comes first. -/
theorem vector_insert_filter (D : List pksid_count) (d : pksid_count)
    (hs : sorted_by_count D) (c : Nat) :
    (vector_insert D (lower_bound D d) d).filter (fun e => decide (e.count = c))
      = (if d.count = c then [d] else []) ++ D.filter (fun e => decide (e.count = c)) := by
  have hD : D.filter (fun e => decide (e.count = c))
      = (D.take (lower_bound D d)).filter (fun e => decide (e.count = c))
        ++ (D.drop (lower_bound D d)).filter (fun e => decide (e.count = c)) := by
    rw [← List.filter_append, List.take_append_drop]
  unfold vector_insert
  by_cases hc : d.count = c
  · have hnil : (D.take (lower_bound D d)).filter (fun e => decide (e.count = c)) = [] := by
      apply List.filter_eq_nil_iff.mpr
      intro a ha
      have := lower_bound_take D d hs a ha
      simp
      omega
    rw [List.filter_append, hnil, hD, hnil]
    simp [List.filter_cons, hc]
  · rw [List.filter_append, hD]
    simp [List.filter_cons, hc]

end SortD

section SortDLoop

theorem lookup_of_mem_keys {K V : Type} [DecidableEq K] (m : BpfMap K V) (k : K)
    (h : k ∈ m.keys) : ∃ v, bpf_map_lookup_elem m k = some v := by
  induction m with
  | nil => simp [BpfMap.keys] at h
  | cons e m ih =>
    obtain ⟨k0, v0⟩ := e
    by_cases hk : k0 = k
    · exact ⟨v0, by simp [bpf_map_lookup_elem, hk]⟩
    · have hm : k ∈ BpfMap.keys m := by
        simp [BpfMap.keys] at h ⊢
        rcases h with h | h
        · exact absurd h.symm hk
        · exact h
      obtain ⟨v, hv⟩ := ih hm
      exact ⟨v, by simp [bpf_map_lookup_elem, hk, hv]⟩

theorem lookup_entry {K V : Type} [DecidableEq K] (m : BpfMap K V) (hnd : m.keys.Nodup)
    (e : K × V) (he : e ∈ m) : bpf_map_lookup_elem m e.1 = some e.2 := by
  induction m with
  | nil => cases he
  | cons e0 m ih =>
    obtain ⟨k0, v0⟩ := e0
    have hnd2 : (k0 :: BpfMap.keys m).Nodup := by simpa [BpfMap.keys] using hnd
    rcases List.mem_cons.mp he with rfl | hm
    · simp [bpf_map_lookup_elem]
    · have hne : k0 ≠ e.1 := by
        intro h
        apply (List.nodup_cons.mp hnd2).1
        rw [h]
        exact List.mem_map_of_mem Prod.fst hm
      simp [bpf_map_lookup_elem, hne, ih (List.nodup_cons.mp hnd2).2 hm]

theorem keys_after_subset {K : Type} [DecidableEq K] (ks : List K) (prev : K) :
    ∀ k ∈ keys_after ks prev, k ∈ ks := by
  induction ks with
  | nil => intro k hk; simp [keys_after] at hk
  | cons a ks ih =>
    intro k hk
    by_cases ha : a = prev
    · simp [keys_after, ha] at hk
      exact List.mem_cons_of_mem _ hk
    · simp [keys_after, ha] at hk
      exact List.mem_cons_of_mem _ (ih k hk)

theorem visited_subset {K V : Type} [DecidableEq K] (m : BpfMap K V) (start : K) :
    ∀ k ∈ visited m start, k ∈ m.keys := by
  intro k hk
  unfold visited at hk
  split at hk
  · exact keys_after_subset _ _ k hk
  · exact hk

theorem keys_after_sublist {K : Type} [DecidableEq K] (ks : List K) (prev : K) :
    (keys_after ks prev).Sublist ks := by
  induction ks with
  | nil => simp [keys_after]
  | cons a ks ih =>
    by_cases ha : a = prev
    · simp [keys_after, ha]
    · simp only [keys_after, ha, if_false]
      exact ih.trans (List.sublist_cons_self a ks)

theorem visited_nodup {K V : Type} [DecidableEq K] (m : BpfMap K V) (hnd : m.keys.Nodup)
    (start : K) : (visited m start).Nodup := by
  unfold visited
  split
  · exact hnd.sublist (keys_after_sublist _ _)
  · exact hnd

theorem sortD_step_of_mem (m : BpfMap psid Nat) (s : SortState) (id : psid)
    (h : id ∈ m.keys) :
    (sortD_step m s id).D
      = vector_insert s.D (lower_bound s.D (record_at m id)) (record_at m id) := by
  obtain ⟨v, hv⟩ := lookup_of_mem_keys m id h
  simp [sortD_step, record_at, hv]

/-- The loop of `sortD` keeps the vector sorted, adds one record per key it meets, and puts
each record before the records of equal count that were met earlier. -/
theorem sortD_loop (m : BpfMap psid Nat) :
    ∀ (ks : List psid) (s : SortState), (∀ k ∈ ks, k ∈ m.keys) → sorted_by_count s.D →
      sorted_by_count (ks.foldl (sortD_step m) s).D ∧
      (ks.foldl (sortD_step m) s).D.Perm ((ks.map (record_at m)).reverse ++ s.D) ∧
      ∀ c, (ks.foldl (sortD_step m) s).D.filter (fun e => decide (e.count = c))
        = ((ks.map (record_at m)).filter (fun e => decide (e.count = c))).reverse
          ++ s.D.filter (fun e => decide (e.count = c)) := by
  intro ks
  induction ks with
  | nil => intro s _ hs; simp [hs]
  | cons id ks ih =>
    intro s hk hs
    have hid : id ∈ m.keys := hk id (List.mem_cons_self _ _)
    have hstep := sortD_step_of_mem m s id hid
    have hs2 : sorted_by_count (sortD_step m s id).D := by
      rw [hstep]; exact vector_insert_sorted _ _ hs
    obtain ⟨h1, h2, h3⟩ := ih (sortD_step m s id)
      (fun k hk2 => hk k (List.mem_cons_of_mem _ hk2)) hs2
    refine ⟨by simpa using h1, ?_, ?_⟩
    · simp only [List.foldl_cons, List.map_cons, List.reverse_cons, List.append_assoc]
      refine h2.trans (List.Perm.append_left _ ?_)
      rw [hstep]
      simpa using vector_insert_perm s.D _ (record_at m id)
    · intro c
      simp only [List.foldl_cons, List.map_cons]
      rw [h3 c, hstep, vector_insert_filter _ _ hs c]
      by_cases hc : (record_at m id).count = c
      · simp [List.filter_cons, hc]
      · simp [List.filter_cons, hc]

/-- With an opened count table `sortD` returns a vector: the loop always ends. -/
theorem sortD_returns (count_fd : Int) (m : BpfMap psid Nat) (count0 : Nat)
    (hfd : 0 ≤ count_fd) (hnd : m.keys.Nodup) :
    sortD count_fd m count0
      = some (some ((visited m psid_zero).foldl (sortD_step m) ⟨[], count0⟩).D) := by
  have hneg : ¬ count_fd < 0 := by omega
  simp [sortD, hneg, iter_keys_eq m hnd]

/-- What `sortD` returns: sorted, one record per key met, later ties first. -/
theorem sortD_spec (count_fd : Int) (m : BpfMap psid Nat) (count0 : Nat)
    (hfd : 0 ≤ count_fd) (hnd : m.keys.Nodup) :
    ∃ D, sortD count_fd m count0 = some (some D) ∧ sorted_by_count D ∧
      D.Perm ((visited m psid_zero).map (record_at m)) ∧
      ∀ c, D.filter (fun e => decide (e.count = c))
        = (((visited m psid_zero).map (record_at m)).filter
            (fun e => decide (e.count = c))).reverse := by
  refine ⟨_, sortD_returns count_fd m count0 hfd hnd, ?_⟩
  obtain ⟨h1, h2, h3⟩ := sortD_loop m (visited m psid_zero) ⟨[], count0⟩
    (visited_subset m psid_zero) (by simp [sorted_by_count])
  refine ⟨h1, ?_, ?_⟩
  · have h2b : ((visited m psid_zero).foldl (sortD_step m) ⟨[], count0⟩).D.Perm
        ((visited m psid_zero).map (record_at m)).reverse := by simpa using h2
    exact h2b.trans (List.reverse_perm _)
  · intro c; simpa using h3 c

theorem map_record_at_keys (m : BpfMap psid Nat) (hnd : m.keys.Nodup) :
    m.keys.map (record_at m) = m.map record_of := by
  unfold BpfMap.keys
  rw [List.map_map]
  apply List.map_congr_left
  intro e he
  simp [record_at, record_of, lookup_entry m hnd e he]

end SortDLoop

section SortDClaims

/-- C1 (failing input): a count table that holds the all-zero key `(0,0,0)`, here as its last
key. The iteration of `sortD` starts from `prev = {0}`, the kernel finds that key and answers
with the keys after it, so `sortD` returns an empty vector for a table of two keys: not one
record per key of the table. With the all-zero key first, the vector lacks that key. -/
theorem C1_sortD_skips_up_to_zero_key :
    BpfMap.keys [((⟨7, 1, 2⟩ : psid), 9), (psid_zero, 5)] = [⟨7, 1, 2⟩, psid_zero] ∧
    sortD 3 [(⟨7, 1, 2⟩, 9), (psid_zero, 5)] 0 = some (some []) ∧
    sortD 3 [(psid_zero, 5), (⟨7, 1, 2⟩, 9)] 0 = some (some [⟨7, 1, 2, 9⟩]) := by
  decide

/-- C2 (counterexample): two keys with the same count 5 are met in the order `(1,1,1)`,
`(2,2,2)`, and `sortD` returns the record of `(2,2,2)` first. -/
theorem C2_ties_not_in_encounter_order :
    iter_keys [((⟨1, 1, 1⟩ : psid), 5), (⟨2, 2, 2⟩, 5)] psid_zero
      = some [⟨1, 1, 1⟩, ⟨2, 2, 2⟩] ∧
    sortD 3 [(⟨1, 1, 1⟩, 5), (⟨2, 2, 2⟩, 5)] 0
      = some (some [⟨2, 2, 2, 5⟩, ⟨1, 1, 1, 5⟩]) := by
  decide

/-- C2 (amended): with an opened count table of distinct keys, `sortD` returns a vector in
which the records of any one count `c` appear in the reverse of the order in which the
iteration met their keys (`std::lower_bound` puts a record before its equals). -/
theorem C2_ties_in_reverse_encounter_order (count_fd : Int) (m : BpfMap psid Nat)
    (count0 : Nat) (hfd : 0 ≤ count_fd) (hnd : m.keys.Nodup) :
    ∃ ks D, iter_keys m psid_zero = some ks ∧ sortD count_fd m count0 = some (some D) ∧
      sorted_by_count D ∧
      ∀ c, D.filter (fun e => decide (e.count = c))
        = ((ks.map (record_at m)).filter (fun e => decide (e.count = c))).reverse := by
  obtain ⟨D, hD, hs, _, hf⟩ := sortD_spec count_fd m count0 hfd hnd
  exact ⟨visited m psid_zero, D, iter_keys_eq m hnd psid_zero, hD, hs, hf⟩

/-- C2 (witness): the amended statement at a table with three keys, two of them tied. -/
theorem C2_ties_in_reverse_encounter_order_witness :
    ∃ ks D, iter_keys [((⟨1, 1, 1⟩ : psid), 5), (⟨2, 2, 2⟩, 3), (⟨3, 3, 3⟩, 5)] psid_zero
        = some ks ∧
      sortD 3 [(⟨1, 1, 1⟩, 5), (⟨2, 2, 2⟩, 3), (⟨3, 3, 3⟩, 5)] 0 = some (some D) ∧
      sorted_by_count D ∧
      ∀ c, D.filter (fun e => decide (e.count = c))
        = ((ks.map (record_at [(⟨1, 1, 1⟩, 5), (⟨2, 2, 2⟩, 3), (⟨3, 3, 3⟩, 5)])).filter
            (fun e => decide (e.count = c))).reverse :=
  C2_ties_in_reverse_encounter_order 3 [(⟨1, 1, 1⟩, 5), (⟨2, 2, 2⟩, 3), (⟨3, 3, 3⟩, 5)] 0
    (by decide) (by decide)

end SortDClaims

section TestClaims

variable {σ : Type}

/-- The calls of the lifecycle block: `load`, then `attach`, then `count_log`, each only
after the one before. -/
theorem test_lifecycle_calls (L : Loader σ) (run_time : Int) (s : σ) :
    (test_lifecycle L run_time s).calls = [Call.load] ∨
    (test_lifecycle L run_time s).calls = [Call.load, Call.attach] ∨
    (test_lifecycle L run_time s).calls = [Call.load, Call.attach, Call.count_log] := by
  unfold test_lifecycle
  repeat' split
  all_goals simp

/-- The calls of a run: those of the lifecycle block, then `detach` and the export as far as
the run gets. -/
theorem test_calls (L : Loader σ) (fla : Bool) (run_time : Int) (s : σ) :
    (test L fla run_time s).calls = (test_lifecycle L run_time s).calls ∨
    (test L fla run_time s).calls = (test_lifecycle L run_time s).calls ++ [Call.detach] ∨
    (test L fla run_time s).calls
      = (test_lifecycle L run_time s).calls ++ [Call.detach, export_call fla] := by
  unfold test
  simp only
  cases hf : (test_lifecycle L run_time s).fault with
  | some e => exact Or.inl rfl
  | none =>
    simp only
    rcases hD : L.detach (test_lifecycle L run_time s).state with ⟨r4, s4⟩
    cases r4 with
    | error e => exact Or.inr (Or.inl rfl)
    | ok u =>
      simp only
      rcases hE : (if fla = true then L.flame_save s4 else L.data_save s4) with ⟨r5, s5⟩
      cases r5 with
      | error e => exact Or.inr (Or.inr rfl)
      | ok v => exact Or.inr (Or.inr rfl)

/-- A run that returns has made `detach` and the export its last two calls. -/
theorem test_returns_calls (L : Loader σ) (fla : Bool) (run_time : Int) (s : σ)
    (h : (test L fla run_time s).fault = none) :
    (test L fla run_time s).calls
      = (test_lifecycle L run_time s).calls ++ [Call.detach, export_call fla] := by
  unfold test at h ⊢
  simp only at h ⊢
  cases hf : (test_lifecycle L run_time s).fault with
  | some e =>
    rw [hf] at h
    simp only at h
    rw [hf] at h
    cases h
  | none =>
    rw [hf] at h
    simp only at h ⊢
    rcases hD : L.detach (test_lifecycle L run_time s).state with ⟨r4, s4⟩
    rw [hD] at h
    cases r4 with
    | error e => simp at h
    | ok u =>
      simp only at h ⊢
      rcases hE : (if fla = true then L.flame_save s4 else L.data_save s4) with ⟨r5, s5⟩
      rw [hE] at h
      cases r5 with
      | error e => simp at h
      | ok v => rfl

/-- A property of the state that `load`, `attach`, `count_log`, `detach` and the exports
keep holds at the end of a run; nothing is asked of `unload`. -/
theorem test_state_invariant (L : Loader σ) (P : σ → Prop)
    (hload : ∀ s, P s → P (L.load s).2) (hattach : ∀ s, P s → P (L.attach s).2)
    (hcount : ∀ t s, P s → P (L.count_log t s).2) (hdetach : ∀ s, P s → P (L.detach s).2)
    (hflame : ∀ s, P s → P (L.flame_save s).2) (hdata : ∀ s, P s → P (L.data_save s).2)
    (fla : Bool) (run_time : Int) (s : σ) (hs : P s) : P (test L fla run_time s).state := by
  have hlife : P (test_lifecycle L run_time s).state := by
    unfold test_lifecycle
    have h1 := hload s hs
    rcases hL : L.load s with ⟨r1, s1⟩
    rw [hL] at h1
    cases r1 with
    | error e => exact h1
    | ok err1 =>
      simp only
      split
      · exact h1
      · have h2 := hattach s1 h1
        rcases hA : L.attach s1 with ⟨r2, s2⟩
        rw [hA] at h2
        cases r2 with
        | error e => exact h2
        | ok err2 =>
          simp only
          split
          · exact h2
          · have h3 := hcount run_time s2 h2
            rcases hC : L.count_log run_time s2 with ⟨r3, s3⟩
            rw [hC] at h3
            cases r3 with
            | error e => exact h3
            | ok v => exact h3
  unfold test
  simp only
  split
  · exact hlife
  · have h4 := hdetach _ hlife
    rcases hD : L.detach (test_lifecycle L run_time s).state with ⟨r4, s4⟩
    rw [hD] at h4
    cases r4 with
    | error e => exact h4
    | ok u =>
      simp only
      have h5 : P (if fla = true then L.flame_save s4 else L.data_save s4).2 := by
        cases fla
        · simpa using hdata s4 h4
        · simpa using hflame s4 h4
      rcases hE : (if fla = true then L.flame_save s4 else L.data_save s4) with ⟨r5, s5⟩
      rw [hE] at h5
      cases r5 with
      | error e => exact h5
      | ok v => exact h5

/-- On a driver whose `detach` does not destroy the skeleton, a run of `test()` does not
destroy it either. -/
theorem driver_keeps_skeleton {D : Type} (o : Outside) (base : D → bpf_loader)
    (load : LibBpf → D → Int × D) (attach : LibBpf → D → Except Fault (Int × D))
    (detach : D → Except Fault (D × List Release)) (unload : D → D × List Release)
    (hdet : ∀ d r, detach d = Except.ok r → Release.skeleton_destroy ∉ r.2)
    (fla : Bool) (run_time : Int) (ps : Process D)
    (h : Release.skeleton_destroy ∉ ps.released) :
    Release.skeleton_destroy ∉
      (test (driver_loader o base load attach detach unload) fla run_time ps).state.released := by
  refine test_state_invariant (driver_loader o base load attach detach unload)
    (fun ps => Release.skeleton_destroy ∉ ps.released) ?_ ?_ ?_ ?_ ?_ ?_ fla run_time ps h
  · intro s hs
    exact hs
  · intro s hs
    simp only [driver_loader]
    split
    · exact hs
    · exact hs
  · intro t s hs
    simp only [driver_loader, run_count_log]
    split
    · exact hs
    · exact hs
  · intro s hs
    simp only [driver_loader]
    split
    · exact hs
    · rename_i r hr
      intro hmem
      rcases List.mem_append.mp hmem with hm | hm
      · exact hs hm
      · exact hdet _ _ hr hm
  · intro s hs
    simp only [driver_loader, run_flame_save]
    split
    · exact hs
    · split
      · exact hs
      · exact hs
  · intro s hs
    simp only [driver_loader, run_data_save]
    split
    · exact hs
    · exact hs

theorem destroy_if_set_no_skeleton (link : Option Nat) :
    Release.skeleton_destroy ∉ destroy_if_set link := by
  cases link <;> simp [destroy_if_set]

theorem on_cpu_detach_no_skeleton (d : on_cpu_loader) (r : on_cpu_loader × List Release)
    (h : on_cpu_loader.detach d = Except.ok r) : Release.skeleton_destroy ∉ r.2 := by
  unfold on_cpu_loader.detach at h
  cases hsk : d.skel with
  | none => rw [hsk] at h; cases h
  | some sk =>
    rw [hsk] at h
    simp only [Except.ok.injEq] at h
    rw [← h]
    cases sk.do_stack <;> by_cases hp : d.pefd = 0 <;> simp [hp]

theorem mem_detach_no_skeleton (d : mem_loader) (r : mem_loader × List Release)
    (h : mem_loader.detach d = Except.ok r) : Release.skeleton_destroy ∉ r.2 := by
  unfold mem_loader.detach at h
  cases hsk : d.skel with
  | none => rw [hsk] at h; cases h
  | some sk =>
    rw [hsk] at h
    simp only [Except.ok.injEq] at h
    rw [← h]
    simp [destroy_if_set_no_skeleton]

theorem off_cpu_detach_no_skeleton (d : off_cpu_loader) (r : off_cpu_loader × List Release)
    (h : off_cpu_loader.detach d = Except.ok r) : Release.skeleton_destroy ∉ r.2 := by
  unfold off_cpu_loader.detach at h
  cases hsk : d.skel with
  | none =>
    rw [hsk] at h
    simp only [Except.ok.injEq] at h
    rw [← h]
    simp
  | some sk =>
    rw [hsk] at h
    simp only [Except.ok.injEq] at h
    rw [← h]
    simp

theorem io_detach_no_skeleton (d : io_loader) (r : io_loader × List Release)
    (h : io_loader.detach d = Except.ok r) : Release.skeleton_destroy ∉ r.2 := by
  unfold io_loader.detach at h
  cases hsk : d.skel with
  | none =>
    rw [hsk] at h
    simp only [Except.ok.injEq] at h
    rw [← h]
    simp
  | some sk =>
    rw [hsk] at h
    simp only [Except.ok.injEq] at h
    rw [← h]
    simp

/-- C3 (the code at a skeleton that does not open): `load()` of the on-CPU driver and of the
memory driver returns -1 with a null skeleton handle; `test()` goes on to `detach()`, which
reads `skel->links` through the null handle, and the run ends there: no export is called
and nothing is written, whether the flame flag is set or not. The off-CPU and I/O drivers
test the handle, and on them `detach()` is followed by the export. -/
theorem C3_no_export_after_failed_open :
    (on_cpu_loader.load ex_lib_no_open (on_cpu_loader.init (-1) (-1) true true)).1 = -1 ∧
    (∀ fla : Bool,
      (test (on_cpu_loader.loader ex_outside_no_open) fla 5
        (Process.start (on_cpu_loader.init (-1) (-1) true true) ex_symbols)).calls
        = [Call.load, Call.detach] ∧
      (test (on_cpu_loader.loader ex_outside_no_open) fla 5
        (Process.start (on_cpu_loader.init (-1) (-1) true true) ex_symbols)).fault
        = some Fault.null_deref ∧
      (test (on_cpu_loader.loader ex_outside_no_open) fla 5
        (Process.start (on_cpu_loader.init (-1) (-1) true true) ex_symbols)).state.flatex
        = none ∧
      (test (on_cpu_loader.loader ex_outside_no_open) fla 5
        (Process.start (on_cpu_loader.init (-1) (-1) true true) ex_symbols)).state.report.isSome
        = false ∧
      (test (mem_loader.loader ex_outside_no_open) fla 5
        (Process.start (mem_loader.init (-1) (-1) true true "libc.so.6") ex_symbols)).calls
        = [Call.load, Call.detach] ∧
      (test (mem_loader.loader ex_outside_no_open) fla 5
        (Process.start (mem_loader.init (-1) (-1) true true "libc.so.6") ex_symbols)).fault
        = some Fault.null_deref) ∧
    (test (off_cpu_loader.loader ex_outside_no_open) false 5
      (Process.start (off_cpu_loader.init (-1) (-1) true true) ex_symbols)).calls
      = [Call.load, Call.detach, Call.data_save] ∧
    (test (off_cpu_loader.loader ex_outside_no_open) false 5
      (Process.start (off_cpu_loader.init (-1) (-1) true true) ex_symbols)).fault = none := by
  refine ⟨rfl, ?_, rfl, rfl⟩
  intro fla
  cases fla <;> exact ⟨rfl, rfl, rfl, rfl, rfl, rfl⟩

/-- C4 (counterexample): a run in which `load()`, `attach()` and the export all succeed makes
five calls, none of them `unload()`: it is called zero times, not once. -/
theorem C4_unload_not_called_example :
    (test (fixed_loader 0 0 0 0) false 5 ()).calls
      = [Call.load, Call.attach, Call.count_log, Call.detach, Call.data_save] ∧
    (test (fixed_loader 0 0 0 0) false 5 ()).calls.count Call.unload = 0 := by
  decide

/-- C4 (amended): on every path through `test()` (load fails, attach fails, the loop ends, or
a call stops the process) `unload()` is not called; when `test()` returns, the last call it
made is the export; and on each of the four drivers no run of `test()` destroys the
skeleton, which is what `unload()` does. -/
theorem C4_test_never_unloads (L : Loader σ) (fla : Bool) (run_time : Int) (s : σ) :
    (test L fla run_time s).calls.count Call.unload = 0 ∧
    ((test L fla run_time s).fault = none →
      (test L fla run_time s).calls.getLast?
        = some (if fla then Call.flame_save else Call.data_save)) ∧
    (∀ (o : Outside) (ps : Process on_cpu_loader), Release.skeleton_destroy ∉ ps.released →
      Release.skeleton_destroy ∉
        (test (on_cpu_loader.loader o) fla run_time ps).state.released) ∧
    (∀ (o : Outside) (ps : Process off_cpu_loader), Release.skeleton_destroy ∉ ps.released →
      Release.skeleton_destroy ∉
        (test (off_cpu_loader.loader o) fla run_time ps).state.released) ∧
    (∀ (o : Outside) (ps : Process mem_loader), Release.skeleton_destroy ∉ ps.released →
      Release.skeleton_destroy ∉
        (test (mem_loader.loader o) fla run_time ps).state.released) ∧
    (∀ (o : Outside) (ps : Process io_loader), Release.skeleton_destroy ∉ ps.released →
      Release.skeleton_destroy ∉
        (test (io_loader.loader o) fla run_time ps).state.released) := by
  refine ⟨?_, ?_, ?_, ?_, ?_, ?_⟩
  · rcases test_calls L fla run_time s with h | h | h <;>
      rcases test_lifecycle_calls L run_time s with hc | hc | hc <;>
      rw [h, hc] <;> cases fla <;> decide
  · intro hf
    rw [test_returns_calls L fla run_time s hf]
    rcases test_lifecycle_calls L run_time s with hc | hc | hc <;>
      rw [hc] <;> cases fla <;> decide
  · intro o ps h
    exact driver_keeps_skeleton o _ _ _ _ _ on_cpu_detach_no_skeleton fla run_time ps h
  · intro o ps h
    exact driver_keeps_skeleton o _ _ _ _ _ off_cpu_detach_no_skeleton fla run_time ps h
  · intro o ps h
    exact driver_keeps_skeleton o _ _ _ _ _ mem_detach_no_skeleton fla run_time ps h
  · intro o ps h
    exact driver_keeps_skeleton o _ _ _ _ _ io_detach_no_skeleton fla run_time ps h

/-- C4 (witness): a run that returns after the flame export, and a full run of the on-CPU
driver. -/
theorem C4_test_never_unloads_witness :
    (test (fixed_loader 0 0 0 0) true 5 ()).calls.getLast? = some Call.flame_save ∧
    Release.skeleton_destroy ∉
      (test (on_cpu_loader.loader ex_outside) true 7
        (Process.start (on_cpu_loader.init (-1) (-1) true true) ex_symbols)).state.released :=
  ⟨(C4_test_never_unloads (fixed_loader 0 0 0 0) true 5 ()).2.1 rfl,
    (C4_test_never_unloads (fixed_loader 0 0 0 0) true 7 ()).2.2.1 ex_outside
      (Process.start (on_cpu_loader.init (-1) (-1) true true) ex_symbols)
      (by simp [Process.start])⟩

/-- When `test()` returns, the value it returns is the value the export returned, whatever
`load()` and `attach()` returned. -/
theorem test_ret (L : Loader σ) (fla : Bool) (run_time : Int) (s : σ)
    (h : (test L fla run_time s).fault = none) :
    ∃ s1, (if fla then L.flame_save s1 else L.data_save s1).1
      = Except.ok (test L fla run_time s).ret := by
  unfold test at h ⊢
  simp only at h ⊢
  cases hf : (test_lifecycle L run_time s).fault with
  | some e =>
    rw [hf] at h
    simp only at h
    rw [hf] at h
    cases h
  | none =>
    rw [hf] at h
    simp only at h ⊢
    rcases hD : L.detach (test_lifecycle L run_time s).state with ⟨r4, s4⟩
    rw [hD] at h
    cases r4 with
    | error e => simp at h
    | ok u =>
      simp only at h ⊢
      rcases hE : (if fla = true then L.flame_save s4 else L.data_save s4) with ⟨r5, s5⟩
      rw [hE] at h
      cases r5 with
      | error e => simp at h
      | ok v => exact ⟨s4, by rw [hE]⟩

/-- C5 (failing input): `load()` returns 0, `attach()` returns -1 and the JSON export that
follows returns 0, as `data_save` does once `load()` has opened the four tables; `test()`
makes no further lifecycle call after the failed `attach()` and returns 0, the value of the
export. -/
theorem C5_attach_failure_returns_zero :
    (test (fixed_loader 0 (-1) 0 0) false 5 ()).calls
      = [Call.load, Call.attach, Call.detach, Call.data_save] ∧
    (test (fixed_loader 0 (-1) 0 0) false 5 ()).ret = 0 ∧
    (test (fixed_loader 0 (-1) 0 0) false 5 ()).fault = none ∧
    export_ret (data_save ex_db ex_world ex_loader ex_tables ex_symbols ex_junk) = some 0 := by
  decide

end TestClaims

section FlameLayout

theorem flame_pad_eq (n : Nat) (line : String) : flame_pad n line = dots n ++ line := by
  induction n generalizing line with
  | zero => simp [flame_pad, dots]
  | succ n ih => simp [flame_pad, dots, ih, String.append_assoc]

theorem flame_kernel_frame_line (db : SymbolDb) (pid : Int) (st : FlameLine) (p : Nat) :
    (flame_kernel_frame db pid st p).line = (flame_kernel_name db p ++ ";") ++ st.line := by
  unfold flame_kernel_frame flame_kernel_name SymbolParser.find_kernel_symbol symbol.reset
  cases h : db.resolveKernel p <;> simp [h]

/-- The kernel-frame loop puts every frame in front of the line built so far. -/
theorem flame_kernel_fold_line (db : SymbolDb) (pid : Int) :
    ∀ (frames : List Nat) (st : FlameLine),
      (frames.foldl (flame_kernel_frame db pid) st).line
        = folded (frames.map (flame_kernel_name db)) ++ st.line := by
  intro frames
  induction frames with
  | nil => intro st; simp [folded]
  | cons p ps ih =>
    intro st
    simp only [List.foldl_cons, List.map_cons, folded]
    rw [ih, flame_kernel_frame_line]
    simp only [String.append_assoc]

theorem flame_user_frame_line (db : SymbolDb) (pid idpid : Int) (st : FlameUser) (p : Nat) :
    (flame_user_frame db pid idpid st p).line
      = (flame_user_name (flame_user_lookup db idpid st p) p ++ ";") ++ st.line ∧
    (flame_user_frame db pid idpid st p).deep = st.deep + 1 := by
  have hl : (flame_user_lookup db idpid st p).line = st.line ∧
      (flame_user_lookup db idpid st p).deep = st.deep := by
    unfold flame_user_lookup
    cases hc : (st.parser.find_symbol_in_cache idpid p).1 with
    | some name => simp [hc]
    | none =>
      simp only [hc]
      split <;> simp
  unfold flame_user_frame flame_user_name
  cases hs : (flame_user_lookup db idpid st p).s <;> simp [hs, hl.1, hl.2]

/-- The user-frame loop puts every frame in front of the line built so far and counts it. -/
theorem flame_user_fold_line (db : SymbolDb) (pid idpid : Int) :
    ∀ (frames : List Nat) (st : FlameUser),
      (frames.foldl (flame_user_frame db pid idpid) st).line
        = folded (flame_user_names db pid idpid st frames) ++ st.line ∧
      (frames.foldl (flame_user_frame db pid idpid) st).deep = st.deep + frames.length := by
  intro frames
  induction frames with
  | nil => intro st; simp [folded, flame_user_names]
  | cons p ps ih =>
    intro st
    simp only [List.foldl_cons, flame_user_names, folded, List.length_cons]
    obtain ⟨h1, h2⟩ := ih (flame_user_frame db pid idpid st p)
    obtain ⟨h3, h4⟩ := flame_user_frame_line db pid idpid st p
    rw [h1, h2, h3, h4]
    refine ⟨?_, by omega⟩
    simp only [String.append_assoc]

theorem to_int32_small (c : Nat) (h : c < 2 ^ 31) : to_int32 c = (c : Int) := by
  have h1 : c % 2 ^ 32 = c := Nat.mod_eq_of_lt (by omega)
  unfold to_int32
  rw [h1, if_pos h]

theorem toString_natCast (c : Nat) : toString ((c : Nat) : Int) = toString c := rfl

/-- The chunk `flame_key` writes for one key, section by section. -/
theorem flame_key_tex (db : SymbolDb) (L : bpf_loader) (T : Tables) (max_deep : Int)
    (lp : FlameLoop) (id : psid) :
    (flame_key db L T max_deep lp id).tex = lp.tex ++
      [(bpf_map_lookup_elem T.comm id.pid).getD lp.cmd ++ ":" ++ toString id.pid ++ ";" ++
        (dots (flame_pad_count max_deep
            (flame_user_section db L T (flame_kernel_section db L T lp id).1
              (flame_kernel_section db L T lp id).2
              ("----------------;" ++ (flame_kernel_section db L T lp id).1.line) id).1.deep) ++
          (flame_user_section db L T (flame_kernel_section db L T lp id).1
              (flame_kernel_section db L T lp id).2
              ("----------------;" ++ (flame_kernel_section db L T lp id).1.line) id).1.line) ++
        (" " ++ toString (((bpf_map_lookup_elem T.count id).map to_int32).getD lp.count)
          ++ "\n")] := by
  simp [flame_key, flame_pad_eq]

end FlameLayout

section FlameClaims

/-- C6 (counterexample): for a key with kernel trace (leaf `k_leaf`, then `k_root`) and user
trace (leaf `u_leaf`, then `u_root`) the line has the user section before the separator and
the kernel section after it, and in each section the leaf comes last. -/
theorem C6_flame_line_user_first_root_first :
    flame_text (flame_save ex_db ex_world ex_loader ex_tables ex_symbols ex_junk)
      = some "a:1;u_root;u_leaf;----------------;k_root;k_leaf; 7\n" := by
  decide

/-- C6 (amended): for a key whose name, count (below 2^31) and stack traces are in the
tables, the line `flame_save` builds is `{name}:{pid};`, the `.;` placeholders, the user
frames in root-to-leaf order (the frame at index 0 of the stored trace last) or
`[MISSING USER STACK];`, the separator `----------------;`, the kernel frames in root-to-leaf
order or `[MISSING KERNEL STACK];`, every frame followed by `;`, then a space, the count and a
newline. -/
theorem C6_flame_line_layout (db : SymbolDb) (L : bpf_loader) (T : Tables) (max_deep : Int)
    (lp : FlameLoop) (id : psid) (cmd : String) (c : Nat) (ktrace utrace : List Nat)
    (hcmd : bpf_map_lookup_elem T.comm id.pid = some cmd)
    (hc : bpf_map_lookup_elem T.count id = some c) (hc31 : c < 2 ^ 31)
    (hk : 0 ≤ id.ksid → bpf_map_lookup_elem T.trace id.ksid = some ktrace)
    (hu : 0 ≤ id.usid → bpf_map_lookup_elem T.trace id.usid = some utrace) :
    (flame_key db L T max_deep lp id).tex = lp.tex ++
      [cmd ++ ":" ++ toString id.pid ++ ";" ++
        (dots (flame_pad_count max_deep
            (if 0 ≤ id.usid then (live_frames utrace).length else 1)) ++
          ((if 0 ≤ id.usid then
              folded (flame_user_names db L.pid id.pid
                (flame_user_start (flame_kernel_section db L T lp id).1
                  ("----------------;" ++ (flame_kernel_section db L T lp id).1.line))
                (live_frames utrace))
            else "[MISSING USER STACK];") ++
           ("----------------;" ++
            (if 0 ≤ id.ksid then folded ((live_frames ktrace).map (flame_kernel_name db))
             else "[MISSING KERNEL STACK];")))) ++
        (" " ++ toString c ++ "\n")] := by
  rw [flame_key_tex]
  have hkl : (flame_kernel_section db L T lp id).1.line
      = if 0 ≤ id.ksid then folded ((live_frames ktrace).map (flame_kernel_name db))
        else "[MISSING KERNEL STACK];" := by
    unfold flame_kernel_section
    by_cases h : 0 ≤ id.ksid
    · simp only [h, if_true, hk h, Option.getD_some]
      rw [flame_kernel_fold_line]
      simp
    · simp [h]
  have hul : (flame_user_section db L T (flame_kernel_section db L T lp id).1
      (flame_kernel_section db L T lp id).2
      ("----------------;" ++ (flame_kernel_section db L T lp id).1.line) id).1.line
      = (if 0 ≤ id.usid then
            folded (flame_user_names db L.pid id.pid
              (flame_user_start (flame_kernel_section db L T lp id).1
                ("----------------;" ++ (flame_kernel_section db L T lp id).1.line))
              (live_frames utrace))
          else "[MISSING USER STACK];")
        ++ ("----------------;" ++ (flame_kernel_section db L T lp id).1.line) ∧
      (flame_user_section db L T (flame_kernel_section db L T lp id).1
      (flame_kernel_section db L T lp id).2
      ("----------------;" ++ (flame_kernel_section db L T lp id).1.line) id).1.deep
      = if 0 ≤ id.usid then (live_frames utrace).length else 1 := by
    unfold flame_user_section
    by_cases h : 0 ≤ id.usid
    · simp only [h, if_true, hu h, Option.getD_some]
      obtain ⟨h1, h2⟩ := flame_user_fold_line db L.pid id.pid (live_frames utrace)
        (flame_user_start (flame_kernel_section db L T lp id).1
          ("----------------;" ++ (flame_kernel_section db L T lp id).1.line))
      rw [h1, h2]
      simp [flame_user_start]
    · simp [h]
  rw [hul.1, hul.2, hkl, hcmd, hc]
  simp only [Option.getD_some, Option.map_some', to_int32_small c hc31, toString_natCast]

/-- C6 (witness): the amended layout at the key of `ex_tables`. -/
theorem C6_flame_line_layout_witness :
    (flame_key ex_db ex_loader ex_tables 2 ⟨[], ex_symbols, [], "", 0⟩ ⟨1, 5, 10⟩).tex = [] ++
      ["a" ++ ":" ++ toString (1 : Int) ++ ";" ++
        (dots (flame_pad_count 2 (if (0 : Int) ≤ 10 then (live_frames [8192, 8193, 0]).length else 1)) ++
          ((if (0 : Int) ≤ 10 then
              folded (flame_user_names ex_db (-1) 1
                (flame_user_start
                  (flame_kernel_section ex_db ex_loader ex_tables ⟨[], ex_symbols, [], "", 0⟩
                    ⟨1, 5, 10⟩).1
                  ("----------------;" ++
                    (flame_kernel_section ex_db ex_loader ex_tables ⟨[], ex_symbols, [], "", 0⟩
                      ⟨1, 5, 10⟩).1.line))
                (live_frames [8192, 8193, 0]))
            else "[MISSING USER STACK];") ++
           ("----------------;" ++
            (if (0 : Int) ≤ 5 then folded ((live_frames [4096, 4097, 0]).map (flame_kernel_name ex_db))
             else "[MISSING KERNEL STACK];")))) ++
        (" " ++ toString 7 ++ "\n")] :=
  C6_flame_line_layout ex_db ex_loader ex_tables 2 ⟨[], ex_symbols, [], "", 0⟩ ⟨1, 5, 10⟩
    "a" 7 [4096, 4097, 0] [8192, 8193, 0] (by decide) (by decide) (by decide)
    (fun _ => by decide) (fun _ => by decide)

end FlameClaims

section FlameOrder

end FlameOrder

section FlameDepth

end FlameDepth

section FlameDepthClaims

end FlameDepthClaims

section SymbolCalls

theorem calls_extend_refl (bad : SymCall → Bool) (g : SymbolParser) : calls_extend bad g g :=
  ⟨[], by simp, by simp⟩

theorem calls_extend_trans {bad : SymCall → Bool} {g1 g2 g3 : SymbolParser}
    (h1 : calls_extend bad g1 g2) (h2 : calls_extend bad g2 g3) : calls_extend bad g1 g3 := by
  obtain ⟨n1, e1, b1⟩ := h1
  obtain ⟨n2, e2, b2⟩ := h2
  refine ⟨n1 ++ n2, by rw [e2, e1, List.append_assoc], ?_⟩
  intro c hc
  rcases List.mem_append.mp hc with h | h
  · exact b1 c h
  · exact b2 c h

theorem calls_extend_one {bad : SymCall → Bool} {g g2 : SymbolParser} (c : SymCall)
    (h : g2.calls = g.calls ++ [c]) (hc : bad c = false) : calls_extend bad g g2 :=
  ⟨[c], h, by simpa using hc⟩

theorem find_kernel_symbol_calls (db : SymbolDb) (g : SymbolParser) (sym : symbol) :
    (g.find_kernel_symbol db sym).2.2.calls
      = g.calls ++ [SymCall.find_kernel_symbol sym.ip] := by
  unfold SymbolParser.find_kernel_symbol
  cases db.resolveKernel sym.ip <;> rfl

theorem resolve_user_calls (db : SymbolDb) (g : SymbolParser) (pid : Int) (sym : symbol) :
    (g.resolve_user db pid sym).2.2.calls
      = g.calls ++ [SymCall.get_symbol_info pid sym.ip] := by
  unfold SymbolParser.resolve_user
  cases db.resolveUser pid sym.ip <;> rfl

theorem putin_calls (g : SymbolParser) (pid : Int) (ip : Nat) (name : String) :
    (g.putin_symbol_cache pid ip name).calls
      = g.calls ++ [SymCall.putin_symbol_cache pid ip name] := rfl

theorem flame_kernel_frame_calls (db : SymbolDb) (pid : Int) (st : FlameLine) (p : Nat) :
    calls_extend SymCall.is_user_lookup st.parser (flame_kernel_frame db pid st p).parser := by
  have h1 : calls_extend SymCall.is_user_lookup st.parser
      (st.parser.find_kernel_symbol db (st.sym.reset p)).2.2 :=
    calls_extend_one _ (find_kernel_symbol_calls _ _ _) rfl
  unfold flame_kernel_frame
  simp only
  split
  · exact h1
  · exact calls_extend_trans h1 (calls_extend_one _ (putin_calls _ _ _ _) rfl)

theorem data_kernel_frame_calls (db : SymbolDb) (pid : Int) (st : DataFrames) (p : Nat) :
    calls_extend SymCall.is_user_lookup st.parser (data_kernel_frame db pid st p).parser := by
  have h1 : calls_extend SymCall.is_user_lookup st.parser
      (st.parser.find_kernel_symbol db (st.sym.reset p)).2.2 :=
    calls_extend_one _ (find_kernel_symbol_calls _ _ _) rfl
  unfold data_kernel_frame
  simp only
  split
  · exact h1
  · exact calls_extend_trans h1 (calls_extend_one _ (putin_calls _ _ _ _) rfl)

theorem flame_user_lookup_calls (db : SymbolDb) (idpid : Int) (st : FlameUser) (p : Nat) :
    calls_extend SymCall.is_kernel_lookup st.parser (flame_user_lookup db idpid st p).parser := by
  have h1 : calls_extend SymCall.is_kernel_lookup st.parser
      (st.parser.find_symbol_in_cache idpid p).2 :=
    calls_extend_one (SymCall.find_symbol_in_cache idpid p) rfl rfl
  have h2 : calls_extend SymCall.is_kernel_lookup st.parser
      ((st.parser.find_symbol_in_cache idpid p).2.resolve_user db idpid (st.sym.reset p)).2.2 :=
    calls_extend_trans h1 (calls_extend_one _ (resolve_user_calls _ _ _ _) rfl)
  unfold flame_user_lookup
  cases hc : (st.parser.find_symbol_in_cache idpid p).1 with
  | some name => simpa [hc] using h1
  | none =>
    simp only [hc]
    split
    · exact calls_extend_trans h2 (calls_extend_one _ (putin_calls _ _ _ _) rfl)
    · exact h2

theorem flame_user_frame_calls (db : SymbolDb) (pid idpid : Int) (st : FlameUser) (p : Nat) :
    calls_extend SymCall.is_kernel_lookup st.parser
      (flame_user_frame db pid idpid st p).parser := by
  have h1 := flame_user_lookup_calls db idpid st p
  unfold flame_user_frame
  cases hs : (flame_user_lookup db idpid st p).s with
  | null =>
    simp only [hs]
    exact calls_extend_trans h1 (calls_extend_one _ (putin_calls _ _ _ _) rfl)
  | symbol => simpa [hs] using h1
  | sym_name => simpa [hs] using h1

theorem data_user_frame_calls (db : SymbolDb) (w : World) (idpid : Int) (st : DataFrames)
    (p : Nat) :
    calls_extend SymCall.is_kernel_lookup st.parser
      (data_user_frame db w idpid st p).parser := by
  have h1 : calls_extend SymCall.is_kernel_lookup st.parser
      (st.parser.find_symbol_in_cache idpid p).2 :=
    calls_extend_one (SymCall.find_symbol_in_cache idpid p) rfl rfl
  have h2 : calls_extend SymCall.is_kernel_lookup st.parser
      ((st.parser.find_symbol_in_cache idpid p).2.resolve_user db idpid (st.sym.reset p)).2.2 :=
    calls_extend_trans h1 (calls_extend_one _ (resolve_user_calls _ _ _ _) rfl)
  have h3 : ∀ name, calls_extend SymCall.is_kernel_lookup st.parser
      (((st.parser.find_symbol_in_cache idpid p).2.resolve_user db idpid
        (st.sym.reset p)).2.2.putin_symbol_cache idpid p name) :=
    fun name => calls_extend_trans h2 (calls_extend_one _ (putin_calls _ _ _ _) rfl)
  unfold data_user_frame
  cases hc : (st.parser.find_symbol_in_cache idpid p).1 with
  | some name =>
    simp only [hc]
    split
    · exact h1
    · exact h1
  | none =>
    simp only [hc]
    split
    · split
      · exact h3 _
      · exact h3 _
    · exact h3 _

/-- A loop whose body only adds harmless calls only adds harmless calls. -/
theorem fold_calls_extend {σ : Type} (bad : SymCall → Bool) (parser : σ → SymbolParser)
    (step : σ → Nat → σ) (hstep : ∀ st p, calls_extend bad (parser st) (parser (step st p))) :
    ∀ (frames : List Nat) (st : σ),
      calls_extend bad (parser st) (parser (frames.foldl step st)) := by
  intro frames
  induction frames with
  | nil => intro st; exact calls_extend_refl _ _
  | cons p ps ih => intro st; exact calls_extend_trans (hstep st p) (ih (step st p))

end SymbolCalls

section DataFramesLemmas

theorem data_kernel_frame_trace (db : SymbolDb) (pid : Int) (st : DataFrames) (p : Nat) :
    (data_kernel_frame db pid st p).trace = st.trace ++ [data_kernel_name db p] := by
  unfold data_kernel_frame data_kernel_name SymbolParser.find_kernel_symbol symbol.reset
  cases h : db.resolveKernel p <;> simp [h]

/-- The kernel-frame loop of `data_save` pushes one frame per address, in order. -/
theorem data_kernel_fold_trace (db : SymbolDb) (pid : Int) :
    ∀ (frames : List Nat) (st : DataFrames),
      (frames.foldl (data_kernel_frame db pid) st).trace
        = st.trace ++ frames.map (data_kernel_name db) := by
  intro frames
  induction frames with
  | nil => intro st; simp
  | cons p ps ih =>
    intro st
    simp only [List.foldl_cons, List.map_cons]
    rw [ih, data_kernel_frame_trace]
    simp

theorem data_user_frame_trace (db : SymbolDb) (w : World) (idpid : Int) (st : DataFrames)
    (p : Nat) :
    (data_user_frame db w idpid st p).trace = st.trace ++ [data_user_name db w idpid st p] := by
  unfold data_user_frame data_user_name
  cases hc : (st.parser.find_symbol_in_cache idpid p).1 with
  | some name =>
    simp only [hc]
    split <;> rfl
  | none =>
    simp only [hc, SymbolParser.resolve_user, symbol.reset]
    cases hr : db.resolveUser idpid p with
    | some r =>
      simp only [hr, if_true]
      by_cases ha : w.alive idpid = true
      · simp [ha]
      · simp [ha]
    | none => simp [hr]

/-- The user-frame loop of `data_save` pushes one frame per address, in order. -/
theorem data_user_fold_trace (db : SymbolDb) (w : World) (idpid : Int) :
    ∀ (frames : List Nat) (st : DataFrames),
      (frames.foldl (data_user_frame db w idpid) st).trace
        = st.trace ++ data_user_names db w idpid st frames := by
  intro frames
  induction frames with
  | nil => intro st; simp [data_user_names]
  | cons p ps ih =>
    intro st
    simp only [List.foldl_cons, data_user_names]
    rw [ih, data_user_frame_trace]
    simp

theorem data_user_names_length (db : SymbolDb) (w : World) (idpid : Int) :
    ∀ (frames : List Nat) (st : DataFrames),
      (data_user_names db w idpid st frames).length = frames.length := by
  intro frames
  induction frames with
  | nil => intro st; rfl
  | cons p ps ih => intro st; simp [data_user_names, ih]

end DataFramesLemmas

section MissingStacks

theorem flame_kernel_section_missing (db : SymbolDb) (L : bpf_loader) (T : Tables)
    (lp : FlameLoop) (id : psid) (h : id.ksid < 0) :
    (flame_kernel_section db L T lp id).1.line = "[MISSING KERNEL STACK];" ∧
    (flame_kernel_section db L T lp id).1.parser = lp.parser := by
  have h0 : ¬ 0 ≤ id.ksid := by omega
  simp [flame_kernel_section, h0]

theorem flame_kernel_section_calls (db : SymbolDb) (L : bpf_loader) (T : Tables)
    (lp : FlameLoop) (id : psid) :
    calls_extend SymCall.is_user_lookup lp.parser (flame_kernel_section db L T lp id).1.parser := by
  unfold flame_kernel_section
  split
  · exact fold_calls_extend _ FlameLine.parser _ (flame_kernel_frame_calls db L.pid) _ _
  · exact calls_extend_refl _ _

theorem flame_user_section_calls (db : SymbolDb) (L : bpf_loader) (T : Tables)
    (k : FlameLine) (ip : List Nat) (line : String) (id : psid) :
    calls_extend SymCall.is_kernel_lookup k.parser
      (flame_user_section db L T k ip line id).1.parser := by
  unfold flame_user_section
  split
  · exact fold_calls_extend _ FlameUser.parser _ (flame_user_frame_calls db L.pid id.pid) _
      (flame_user_start k line)
  · exact calls_extend_refl _ _

theorem flame_user_section_line (db : SymbolDb) (L : bpf_loader) (T : Tables)
    (k : FlameLine) (ip : List Nat) (line : String) (id : psid) :
    ∃ U, (flame_user_section db L T k ip line id).1.line = U ++ line := by
  unfold flame_user_section
  split
  · exact ⟨_, (flame_user_fold_line db L.pid id.pid _ (flame_user_start k line)).1⟩
  · exact ⟨_, rfl⟩

theorem flame_user_section_missing (db : SymbolDb) (L : bpf_loader) (T : Tables)
    (k : FlameLine) (ip : List Nat) (line : String) (id : psid) (h : id.usid < 0) :
    (flame_user_section db L T k ip line id).1.line = "[MISSING USER STACK];" ++ line ∧
    (flame_user_section db L T k ip line id).1.deep = 1 ∧
    (flame_user_section db L T k ip line id).1.parser = k.parser := by
  have h0 : ¬ 0 ≤ id.usid := by omega
  simp [flame_user_section, h0]

theorem flame_key_parser_eq (db : SymbolDb) (L : bpf_loader) (T : Tables) (max_deep : Int)
    (lp : FlameLoop) (id : psid) :
    (flame_key db L T max_deep lp id).parser
      = (flame_user_section db L T (flame_kernel_section db L T lp id).1
          (flame_kernel_section db L T lp id).2
          ("----------------;" ++ (flame_kernel_section db L T lp id).1.line) id).1.parser := rfl

theorem data_kernel_section_calls (db : SymbolDb) (L : bpf_loader) (T : Tables)
    (g : SymbolParser) (ip : List Nat) (d : pksid_count) :
    calls_extend SymCall.is_user_lookup g (data_kernel_section db L T g ip d).1.parser := by
  unfold data_kernel_section
  split
  · exact fold_calls_extend _ DataFrames.parser _ (data_kernel_frame_calls db L.pid) _
      ⟨[], symbol.init, g, ""⟩
  · exact calls_extend_refl _ _

theorem data_user_section_calls (db : SymbolDb) (w : World) (T : Tables) (k : DataFrames)
    (ip : List Nat) (d : pksid_count) :
    calls_extend SymCall.is_kernel_lookup k.parser (data_user_section db w T k ip d).1.parser := by
  unfold data_user_section
  split
  · exact fold_calls_extend _ DataFrames.parser _ (data_user_frame_calls db w d.pid) _ k
  · exact calls_extend_refl _ _

theorem data_user_section_trace (db : SymbolDb) (w : World) (T : Tables) (k : DataFrames)
    (ip : List Nat) (d : pksid_count) :
    ∃ U, (data_user_section db w T k ip d).1.trace = k.trace ++ U := by
  unfold data_user_section
  split
  · exact ⟨_, data_user_fold_trace db w d.pid _ k⟩
  · exact ⟨_, rfl⟩

/-- C9: in `flame_save` and in `data_save`, a key whose kernel stack id is negative (-1 in
particular) gets `[MISSING KERNEL STACK]` as its whole kernel section and no call of
`find_kernel_symbol` is made for it; a key whose user stack id is negative gets
`[MISSING USER STACK]` as its whole user section and no call of `find_symbol_in_cache` or
`get_symbol_info` is made for it; when both ids are negative the symbol parser is not called
at all, the JSON trace is exactly `[MISSING KERNEL STACK]`, `----------------`,
`[MISSING USER STACK]`, and the folded line holds both placeholders around the separator. -/
theorem C9_missing_stack_placeholders (db : SymbolDb) (w : World) (L : bpf_loader)
    (T : Tables) (max_deep : Int) (lp : FlameLoop) (g : SymbolParser) (ip : List Nat)
    (id : psid) (c : Nat) :
    (id.ksid < 0 →
      (∃ head, (flame_key db L T max_deep lp id).tex = lp.tex ++
        [head ++ ("----------------;" ++ "[MISSING KERNEL STACK];") ++
          (" " ++ toString (((bpf_map_lookup_elem T.count id).map to_int32).getD lp.count)
            ++ "\n")]) ∧
      calls_extend SymCall.is_kernel_lookup lp.parser (flame_key db L T max_deep lp id).parser ∧
      (∃ U, (data_symbolize db w L T g ip ⟨id.pid, id.ksid, id.usid, c⟩).1.trace
        = "[MISSING KERNEL STACK]" :: "----------------" :: U) ∧
      calls_extend SymCall.is_kernel_lookup g
        (data_symbolize db w L T g ip ⟨id.pid, id.ksid, id.usid, c⟩).1.parser) ∧
    (id.usid < 0 →
      (∃ tail, (flame_key db L T max_deep lp id).tex = lp.tex ++
        [(bpf_map_lookup_elem T.comm id.pid).getD lp.cmd ++ ":" ++ toString id.pid ++ ";" ++
          (dots (flame_pad_count max_deep 1) ++
            ("[MISSING USER STACK];" ++ ("----------------;" ++ tail)))]) ∧
      calls_extend SymCall.is_user_lookup lp.parser (flame_key db L T max_deep lp id).parser ∧
      (data_symbolize db w L T g ip ⟨id.pid, id.ksid, id.usid, c⟩).1.trace
        = (data_kernel_section db L T g ip ⟨id.pid, id.ksid, id.usid, c⟩).1.trace
          ++ ["----------------", "[MISSING USER STACK]"] ∧
      calls_extend SymCall.is_user_lookup g
        (data_symbolize db w L T g ip ⟨id.pid, id.ksid, id.usid, c⟩).1.parser) ∧
    (id.ksid < 0 → id.usid < 0 →
      (flame_key db L T max_deep lp id).tex = lp.tex ++
        [(bpf_map_lookup_elem T.comm id.pid).getD lp.cmd ++ ":" ++ toString id.pid ++ ";" ++
          (dots (flame_pad_count max_deep 1) ++
            ("[MISSING USER STACK];" ++ ("----------------;" ++ "[MISSING KERNEL STACK];"))) ++
          (" " ++ toString (((bpf_map_lookup_elem T.count id).map to_int32).getD lp.count)
            ++ "\n")] ∧
      (flame_key db L T max_deep lp id).parser = lp.parser ∧
      (data_symbolize db w L T g ip ⟨id.pid, id.ksid, id.usid, c⟩).1.trace
        = ["[MISSING KERNEL STACK]", "----------------", "[MISSING USER STACK]"] ∧
      (data_symbolize db w L T g ip ⟨id.pid, id.ksid, id.usid, c⟩).1.parser = g) := by
  refine ⟨?_, ?_, ?_⟩
  · intro hk
    have hk0 : ¬ (0 : Int) ≤ id.ksid := by omega
    obtain ⟨hkl, hkp⟩ := flame_kernel_section_missing db L T lp id hk
    refine ⟨?_, ?_, ?_, ?_⟩
    · obtain ⟨U, hU⟩ := flame_user_section_line db L T (flame_kernel_section db L T lp id).1
        (flame_kernel_section db L T lp id).2
        ("----------------;" ++ (flame_kernel_section db L T lp id).1.line) id
      refine ⟨(bpf_map_lookup_elem T.comm id.pid).getD lp.cmd ++ ":" ++ toString id.pid ++ ";" ++
        (dots (flame_pad_count max_deep
          (flame_user_section db L T (flame_kernel_section db L T lp id).1
            (flame_kernel_section db L T lp id).2
            ("----------------;" ++ (flame_kernel_section db L T lp id).1.line) id).1.deep) ++ U),
        ?_⟩
      rw [flame_key_tex, hU, hkl]
      simp only [String.append_assoc]
    · rw [flame_key_parser_eq, ← hkp]
      exact flame_user_section_calls db L T _ _ _ id
    · obtain ⟨U, hU⟩ := data_user_section_trace db w T
        { (data_kernel_section db L T g ip ⟨id.pid, id.ksid, id.usid, c⟩).1 with
          trace := (data_kernel_section db L T g ip ⟨id.pid, id.ksid, id.usid, c⟩).1.trace
            ++ ["----------------"] }
        (data_kernel_section db L T g ip ⟨id.pid, id.ksid, id.usid, c⟩).2
        ⟨id.pid, id.ksid, id.usid, c⟩
      refine ⟨U, ?_⟩
      unfold data_symbolize
      simp only
      rw [hU]
      simp [data_kernel_section, hk0]
    · unfold data_symbolize
      simp only
      have hp : (data_kernel_section db L T g ip ⟨id.pid, id.ksid, id.usid, c⟩).1.parser = g := by
        simp [data_kernel_section, hk0]
      have := data_user_section_calls db w T
        { (data_kernel_section db L T g ip ⟨id.pid, id.ksid, id.usid, c⟩).1 with
          trace := (data_kernel_section db L T g ip ⟨id.pid, id.ksid, id.usid, c⟩).1.trace
            ++ ["----------------"] }
        (data_kernel_section db L T g ip ⟨id.pid, id.ksid, id.usid, c⟩).2
        ⟨id.pid, id.ksid, id.usid, c⟩
      simpa [hp] using this
  · intro hu
    have hu0 : ¬ (0 : Int) ≤ id.usid := by omega
    obtain ⟨hul, hud, hup⟩ := flame_user_section_missing db L T
      (flame_kernel_section db L T lp id).1 (flame_kernel_section db L T lp id).2
      ("----------------;" ++ (flame_kernel_section db L T lp id).1.line) id hu
    refine ⟨?_, ?_, ?_, ?_⟩
    · refine ⟨(flame_kernel_section db L T lp id).1.line ++
        (" " ++ toString (((bpf_map_lookup_elem T.count id).map to_int32).getD lp.count)
          ++ "\n"), ?_⟩
      rw [flame_key_tex, hul, hud]
      simp only [String.append_assoc]
    · rw [flame_key_parser_eq, hup]
      exact flame_kernel_section_calls db L T lp id
    · simp [data_symbolize, data_user_section, hu0]
    · have := data_kernel_section_calls db L T g ip ⟨id.pid, id.ksid, id.usid, c⟩
      simpa [data_symbolize, data_user_section, hu0] using this
  · intro hk hu
    have hk0 : ¬ (0 : Int) ≤ id.ksid := by omega
    have hu0 : ¬ (0 : Int) ≤ id.usid := by omega
    obtain ⟨hkl, hkp⟩ := flame_kernel_section_missing db L T lp id hk
    obtain ⟨hul, hud, hup⟩ := flame_user_section_missing db L T
      (flame_kernel_section db L T lp id).1 (flame_kernel_section db L T lp id).2
      ("----------------;" ++ (flame_kernel_section db L T lp id).1.line) id hu
    refine ⟨?_, ?_, ?_, ?_⟩
    · rw [flame_key_tex, hul, hud, hkl]
    · rw [flame_key_parser_eq, hup, hkp]
    · simp [data_symbolize, data_user_section, data_kernel_section, hk0, hu0]
    · simp [data_symbolize, data_user_section, data_kernel_section, hk0, hu0]

end MissingStacks

section MissingStacksWitness

/-- C9 (witness): the statement at a key with both stack ids -1. -/
theorem C9_missing_stack_placeholders_witness :
    ((∃ head, (flame_key ex_db ex_loader ex_tables_missing 1 ex_flame_loop ex_key_missing).tex
        = ex_flame_loop.tex ++
        [head ++ ("----------------;" ++ "[MISSING KERNEL STACK];") ++
          (" " ++ toString (((bpf_map_lookup_elem ex_tables_missing.count ex_key_missing).map
            to_int32).getD ex_flame_loop.count) ++ "\n")]) ∧
      calls_extend SymCall.is_kernel_lookup ex_flame_loop.parser
        (flame_key ex_db ex_loader ex_tables_missing 1 ex_flame_loop ex_key_missing).parser ∧
      (∃ U, (data_symbolize ex_db ex_world ex_loader ex_tables_missing ex_symbols []
          ⟨ex_key_missing.pid, ex_key_missing.ksid, ex_key_missing.usid, 2⟩).1.trace
        = "[MISSING KERNEL STACK]" :: "----------------" :: U) ∧
      calls_extend SymCall.is_kernel_lookup ex_symbols
        (data_symbolize ex_db ex_world ex_loader ex_tables_missing ex_symbols []
          ⟨ex_key_missing.pid, ex_key_missing.ksid, ex_key_missing.usid, 2⟩).1.parser) ∧
    ((∃ tail, (flame_key ex_db ex_loader ex_tables_missing 1 ex_flame_loop ex_key_missing).tex
        = ex_flame_loop.tex ++
        [(bpf_map_lookup_elem ex_tables_missing.comm ex_key_missing.pid).getD ex_flame_loop.cmd
            ++ ":" ++ toString ex_key_missing.pid ++ ";" ++
          (dots (flame_pad_count 1 1) ++
            ("[MISSING USER STACK];" ++ ("----------------;" ++ tail)))]) ∧
      calls_extend SymCall.is_user_lookup ex_flame_loop.parser
        (flame_key ex_db ex_loader ex_tables_missing 1 ex_flame_loop ex_key_missing).parser ∧
      (data_symbolize ex_db ex_world ex_loader ex_tables_missing ex_symbols []
          ⟨ex_key_missing.pid, ex_key_missing.ksid, ex_key_missing.usid, 2⟩).1.trace
        = (data_kernel_section ex_db ex_loader ex_tables_missing ex_symbols []
            ⟨ex_key_missing.pid, ex_key_missing.ksid, ex_key_missing.usid, 2⟩).1.trace
          ++ ["----------------", "[MISSING USER STACK]"] ∧
      calls_extend SymCall.is_user_lookup ex_symbols
        (data_symbolize ex_db ex_world ex_loader ex_tables_missing ex_symbols []
          ⟨ex_key_missing.pid, ex_key_missing.ksid, ex_key_missing.usid, 2⟩).1.parser) ∧
    ((flame_key ex_db ex_loader ex_tables_missing 1 ex_flame_loop ex_key_missing).tex
        = ex_flame_loop.tex ++
        [(bpf_map_lookup_elem ex_tables_missing.comm ex_key_missing.pid).getD ex_flame_loop.cmd
            ++ ":" ++ toString ex_key_missing.pid ++ ";" ++
          (dots (flame_pad_count 1 1) ++
            ("[MISSING USER STACK];" ++ ("----------------;" ++ "[MISSING KERNEL STACK];"))) ++
          (" " ++ toString (((bpf_map_lookup_elem ex_tables_missing.count ex_key_missing).map
            to_int32).getD ex_flame_loop.count) ++ "\n")] ∧
      (flame_key ex_db ex_loader ex_tables_missing 1 ex_flame_loop ex_key_missing).parser
        = ex_flame_loop.parser ∧
      (data_symbolize ex_db ex_world ex_loader ex_tables_missing ex_symbols []
          ⟨ex_key_missing.pid, ex_key_missing.ksid, ex_key_missing.usid, 2⟩).1.trace
        = ["[MISSING KERNEL STACK]", "----------------", "[MISSING USER STACK]"] ∧
      (data_symbolize ex_db ex_world ex_loader ex_tables_missing ex_symbols []
          ⟨ex_key_missing.pid, ex_key_missing.ksid, ex_key_missing.usid, 2⟩).1.parser
        = ex_symbols) :=
  ⟨(C9_missing_stack_placeholders ex_db ex_world ex_loader ex_tables_missing 1 ex_flame_loop
      ex_symbols [] ex_key_missing 2).1 (by decide),
    (C9_missing_stack_placeholders ex_db ex_world ex_loader ex_tables_missing 1 ex_flame_loop
      ex_symbols [] ex_key_missing 2).2.1 (by decide),
    (C9_missing_stack_placeholders ex_db ex_world ex_loader ex_tables_missing 1 ex_flame_loop
      ex_symbols [] ex_key_missing 2).2.2 (by decide) (by decide)⟩

end MissingStacksWitness

section DecimalStrings

theorem digitChar_decimal (n : Nat) (h : n < 10) :
    digit_value (Nat.digitChar n) = n ∧ is_decimal (Nat.digitChar n) = true := by
  interval_cases n <;> exact ⟨by decide, by decide⟩

theorem toDigitsCore_decode :
    ∀ (fuel n : Nat) (ds : List Char), n < fuel →
      decode_from 0 (Nat.toDigitsCore 10 fuel n ds) = decode_from n ds := by
  intro fuel
  induction fuel with
  | zero => intro n ds h; omega
  | succ fuel ih =>
    intro n ds h
    unfold Nat.toDigitsCore
    simp only
    have hd := (digitChar_decimal (n % 10) (Nat.mod_lt _ (by decide))).1
    by_cases h0 : n / 10 = 0
    · rw [if_pos h0]
      have hn : n % 10 = n := by omega
      simp only [decode_from, List.foldl_cons, Nat.mul_zero, Nat.zero_add]
      rw [hd, hn]
    · rw [if_neg h0, ih (n / 10) _ (by omega)]
      simp only [decode_from, List.foldl_cons, hd]
      have : 10 * (n / 10) + n % 10 = n := Nat.div_add_mod n 10
      rw [this]

theorem toDigitsCore_decimal :
    ∀ (fuel n : Nat) (ds : List Char), ∀ c ∈ Nat.toDigitsCore 10 fuel n ds,
      c ∈ ds ∨ is_decimal c = true := by
  intro fuel
  induction fuel with
  | zero => intro n ds c hc; left; simpa [Nat.toDigitsCore] using hc
  | succ fuel ih =>
    intro n ds c hc
    unfold Nat.toDigitsCore at hc
    simp only at hc
    have hd := (digitChar_decimal (n % 10) (Nat.mod_lt _ (by decide))).2
    by_cases h0 : n / 10 = 0
    · rw [if_pos h0] at hc
      rcases List.mem_cons.mp hc with rfl | hc
      · right; exact hd
      · left; exact hc
    · rw [if_neg h0] at hc
      rcases ih _ _ c hc with h | h
      · rcases List.mem_cons.mp h with rfl | h
        · right; exact hd
        · left; exact h
      · right; exact h

theorem toString_nat_data (n : Nat) : (toString n).data = Nat.toDigits 10 n := rfl

theorem toString_nat_injective (a b : Nat) (h : toString a = toString b) : a = b := by
  have hd : Nat.toDigits 10 a = Nat.toDigits 10 b := by
    rw [← toString_nat_data, ← toString_nat_data, h]
  have ha := toDigitsCore_decode (a + 1) a [] (by omega)
  have hb := toDigitsCore_decode (b + 1) b [] (by omega)
  unfold Nat.toDigits at hd
  rw [hd, hb] at ha
  simpa [decode_from] using ha.symm

theorem toString_nat_decimal (n : Nat) : ∀ c ∈ (toString n).data, is_decimal c = true := by
  intro c hc
  rw [toString_nat_data] at hc
  rcases toDigitsCore_decimal _ _ _ c hc with h | h
  · cases h
  · exact h

theorem toString_int_ofNat (m : Nat) : toString (Int.ofNat m) = toString m := rfl

theorem toString_int_negSucc (m : Nat) :
    toString (Int.negSucc m) = "-" ++ toString (m + 1) := rfl

/-- A decimal number is written with digits and possibly a leading minus sign. -/
theorem toString_int_chars (i : Int) :
    ∀ c ∈ (toString i).data, is_decimal c = true ∨ c = '-' := by
  intro c hc
  cases i with
  | ofNat m =>
    rw [toString_int_ofNat] at hc
    exact Or.inl (toString_nat_decimal m c hc)
  | negSucc m =>
    rw [toString_int_negSucc, String.data_append] at hc
    rcases List.mem_append.mp hc with h | h
    · right; simpa using h
    · exact Or.inl (toString_nat_decimal _ c h)

/-- `std::to_string` gives different strings for different integers. -/
theorem toString_int_injective (a b : Int) (h : toString a = toString b) : a = b := by
  have hdata := congrArg String.data h
  cases a with
  | ofNat m =>
    cases b with
    | ofNat n =>
      rw [toString_int_ofNat, toString_int_ofNat] at h
      rw [toString_nat_injective m n h]
    | negSucc n =>
      rw [toString_int_ofNat, toString_int_negSucc, String.data_append] at hdata
      have hmem : '-' ∈ (toString m).data := by rw [hdata]; simp
      have := toString_nat_decimal m _ hmem
      exact absurd this (by decide)
  | negSucc m =>
    cases b with
    | ofNat n =>
      rw [toString_int_ofNat, toString_int_negSucc, String.data_append] at hdata
      have hmem : '-' ∈ (toString n).data := by rw [← hdata]; simp
      have := toString_nat_decimal n _ hmem
      exact absurd this (by decide)
    | negSucc n =>
      rw [toString_int_negSucc, toString_int_negSucc, String.data_append,
        String.data_append] at hdata
      have h2 : (toString (m + 1)).data = (toString (n + 1)).data :=
        List.append_cancel_left hdata
      have h3 := toString_nat_injective _ _ (String.ext h2)
      have : m = n := by omega
      rw [this]

theorem split_at_separator {α : Type} (c : α) :
    ∀ (l1 l2 r1 r2 : List α), c ∉ l1 → c ∉ l2 → l1 ++ c :: r1 = l2 ++ c :: r2 →
      l1 = l2 ∧ r1 = r2 := by
  intro l1
  induction l1 with
  | nil =>
    intro l2 r1 r2 _ h2 h
    cases l2 with
    | nil => simpa using h
    | cons b l2 =>
      simp only [List.nil_append, List.cons_append, List.cons.injEq] at h
      exact absurd (h.1 ▸ List.mem_cons_self _ _) h2
  | cons a l1 ih =>
    intro l2 r1 r2 h1 h2 h
    cases l2 with
    | nil =>
      simp only [List.nil_append, List.cons_append, List.cons.injEq] at h
      exact absurd (h.1 ▸ List.mem_cons_self _ _) h1
    | cons b l2 =>
      simp only [List.cons_append, List.cons.injEq] at h
      obtain ⟨e1, e2⟩ := ih l2 r1 r2 (fun m => h1 (List.mem_cons_of_mem _ m))
        (fun m => h2 (List.mem_cons_of_mem _ m)) h.2
      exact ⟨by rw [h.1, e1], e2⟩

theorem comma_not_in_toString (i : Int) : ',' ∉ (toString i).data := by
  intro h
  rcases toString_int_chars i _ h with h | h
  · exact absurd h (by decide)
  · exact absurd h (by decide)

/-- The member names `"{usid},{ksid}"` of two records are equal only when both stack ids
are. -/
theorem sid_name_injective (a b : pksid_count) (h : sid_name a = sid_name b) :
    a.usid = b.usid ∧ a.ksid = b.ksid := by
  have hdata := congrArg String.data h
  simp only [sid_name, String.data_append] at hdata
  simp only [List.append_assoc, List.singleton_append] at hdata
  obtain ⟨h1, h2⟩ := split_at_separator ',' _ _ _ _ (comma_not_in_toString a.usid)
    (comma_not_in_toString b.usid) hdata
  exact ⟨toString_int_injective _ _ (String.ext h1), toString_int_injective _ _ (String.ext h2)⟩

end DecimalStrings

section JsonLemmas

theorem find_member_append (ms : List (String × Json)) (n : String) (x : Json) (k : String) :
    find_member (ms ++ [(n, x)]) k
      = match find_member ms k with
        | some y => some y
        | none => if n = k then some x else none := by
  induction ms with
  | nil => simp [find_member]
  | cons e ms ih =>
    obtain ⟨n0, x0⟩ := e
    by_cases h : n0 = k
    · simp [find_member, h]
    · simp [find_member, h, ih]

theorem find_member_append_some (ms : List (String × Json)) (n : String) (x y : Json)
    (k : String) (h : find_member ms k = some y) : find_member (ms ++ [(n, x)]) k = some y := by
  rw [find_member_append, h]

theorem find_member_append_new (ms : List (String × Json)) (n : String) (x : Json)
    (h : find_member ms n = none) : find_member (ms ++ [(n, x)]) n = some x := by
  rw [find_member_append, h]
  simp

theorem modify_member_spec (f : Json → Option Json) (k : String) (x y : Json)
    (hf : f x = some y) :
    ∀ ms : List (String × Json), find_member ms k = some x →
      ∃ ms2, modify_member ms k f = some ms2 ∧ find_member ms2 k = some y ∧
        ∀ k2, k2 ≠ k → find_member ms2 k2 = find_member ms k2 := by
  intro ms
  induction ms with
  | nil => intro h; simp [find_member] at h
  | cons e ms ih =>
    obtain ⟨n0, x0⟩ := e
    intro h
    by_cases hn : n0 = k
    · simp only [find_member, hn, if_true, Option.some.injEq] at h
      subst h
      refine ⟨(n0, y) :: ms, by simp [modify_member, hn, hf], by simp [find_member, hn], ?_⟩
      intro k2 hk2
      have : ¬ n0 = k2 := fun e => hk2 (e.symm.trans hn)
      simp [find_member, this]
    · simp only [find_member, hn, if_false] at h
      obtain ⟨ms2, h1, h2, h3⟩ := ih h
      refine ⟨(n0, x0) :: ms2, by simp [modify_member, hn, h1], by simp [find_member, hn, h2], ?_⟩
      intro k2 hk2
      by_cases hn2 : n0 = k2
      · simp [find_member, hn2]
      · simp [find_member, hn2, h3 k2 hk2]

theorem modify_member_append_new (f : Json → Option Json) (k : String) (x y : Json)
    (hf : f x = some y) :
    ∀ ms : List (String × Json), find_member ms k = none →
      modify_member (ms ++ [(k, x)]) k f = some (ms ++ [(k, y)]) := by
  intro ms
  induction ms with
  | nil => intro _; simp [modify_member, hf]
  | cons e ms ih =>
    obtain ⟨n0, x0⟩ := e
    intro h
    by_cases hn : n0 = k
    · simp [find_member, hn] at h
    · simp only [find_member, hn, if_false] at h
      simp [modify_member, hn, ih h]

theorem get_modify (v : Json) (f : Json → Option Json) (k : String) (x y : Json)
    (hx : v.get k = some x) (hf : f x = some y) :
    ∃ v2, v.modify k f = some v2 ∧ v2.get k = some y ∧
      ∀ k2, k2 ≠ k → v2.get k2 = v.get k2 := by
  cases v with
  | obj ms =>
    obtain ⟨ms2, h1, h2, h3⟩ := modify_member_spec f k x y hf ms hx
    exact ⟨Json.obj ms2, by simp [Json.modify, h1], h2, h3⟩
  | null => simp [Json.get] at hx
  | uint n => simp [Json.get] at hx
  | str s => simp [Json.get] at hx
  | arr xs => simp [Json.get] at hx

theorem path_cons (v : Json) (n : String) (rest : List String) (x : Json)
    (h : v.get n = some x) : v.path (n :: rest) = x.path rest := by
  simp [Json.path, h]

theorem path_append (p q : List String) :
    ∀ v : Json, v.path (p ++ q) = (v.path p).bind (fun x => x.path q) := by
  induction p with
  | nil => intro v; simp [Json.path]
  | cons n rest ih =>
    intro v
    cases h : v.get n with
    | none => simp [Json.path, h]
    | some x => simp [Json.path, h, ih x]

/-- An in-place update through a path changes what the path reaches and nothing that a
diverging path reaches. -/
theorem modify_path_spec (f : Json → Option Json) (x y : Json) (hf : f x = some y) :
    ∀ (p : List String) (v : Json), v.path p = some x →
      ∃ v2, v.modify_path p f = some v2 ∧ v2.path p = some y ∧
        ∀ q, diverges p q → v2.path q = v.path q := by
  intro p
  induction p with
  | nil =>
    intro v h
    simp only [Json.path, Option.some.injEq] at h
    subst h
    exact ⟨y, by simp [Json.modify_path, hf], by simp [Json.path], by intro q hq; cases q <;> exact absurd hq (by simp [diverges])⟩
  | cons n rest ih =>
    intro v h
    cases hg : v.get n with
    | none => simp [Json.path, hg] at h
    | some x1 =>
      rw [path_cons v n rest x1 hg] at h
      obtain ⟨x2, h1, h2, h3⟩ := ih x1 h
      obtain ⟨v2, g1, g2, g3⟩ := get_modify v (fun z => z.modify_path rest f) n x1 x2 hg h1
      refine ⟨v2, by simpa [Json.modify_path] using g1, by rw [path_cons v2 n rest x2 g2]; exact h2, ?_⟩
      intro q hq
      cases q with
      | nil => exact absurd hq (by simp [diverges])
      | cons b q2 =>
        simp only [diverges] at hq
        rcases hq with hne | ⟨heq, hd⟩
        · have : v2.get b = v.get b := g3 b (fun e => hne e.symm)
          simp [Json.path, this]
        · subst heq
          rw [path_cons v2 n q2 x2 g2, path_cons v n q2 x1 hg]
          exact h3 q2 hd

end JsonLemmas

section RegistrationPass

theorem get_obj (ms : List (String × Json)) (k : String) :
    (Json.obj ms).get k = find_member ms k := rfl

theorem get_some_is_obj (v : Json) (k : String) (x : Json) (h : v.get k = some x) :
    ∃ ms, v = Json.obj ms := by
  cases v with
  | obj ms => exact ⟨ms, rfl⟩
  | null => simp [Json.get] at h
  | uint n => simp [Json.get] at h
  | str s => simp [Json.get] at h
  | arr xs => simp [Json.get] at h

theorem path_two (v : Json) (t p : String) :
    v.path [t, p] = (v.get t).bind (fun x => x.get p) := by
  cases h : v.get t with
  | none => simp [Json.path, h]
  | some x =>
    cases h2 : x.get p with
    | none => simp [Json.path, h, h2]
    | some z => simp [Json.path, h, h2]

theorem path_three (v : Json) (t p s : String) :
    v.path [t, p, s] = (v.path [t, p]).bind (fun x => x.get s) := by
  have := path_append [t, p] [s] v
  simp only [List.cons_append, List.nil_append] at this
  rw [this]
  congr 1
  funext x
  cases h : x.get s <;> simp [Json.path, h]

/-- One step of the first pass: a pid not yet registered is registered, and the pids
registered before stay registered. -/
theorem data_register_step (T : Tables) (st : DataState) (reg : List Int) (q : Int)
    (hinv : registered T st reg) (hq : q ∉ reg) (hk : q ∈ T.tgid.keys) :
    ∃ st2, data_register T st q = some st2 ∧ registered T st2 (q :: reg) := by
  obtain ⟨⟨top, htop⟩, g3, g2, g1, gm⟩ := hinv
  obtain ⟨tv, htv⟩ := lookup_of_mem_keys T.tgid q hk
  have htg : tgid_of T q = tv := by simp [tgid_of, htv]
  -- the member of the tgid after `AddMember(tgid_c, {})`
  obtain ⟨pm1, hx1, hnoq, hold⟩ : ∃ pm1,
      find_member (top ++ [(toString tv, Json.obj [])]) (toString tv) = some (Json.obj pm1) ∧
      find_member pm1 (toString q) = none ∧
      (∀ p z, find_member pm1 p = some z → st.ajson.path [toString tv, p] = some z) := by
    cases hf : find_member top (toString tv) with
    | some x =>
      obtain ⟨pm, hpm⟩ := g3 (toString tv) x (by rw [htop, get_obj, hf])
      subst hpm
      refine ⟨pm, find_member_append_some _ _ _ _ _ hf, ?_, ?_⟩
      · cases hfq : find_member pm (toString q) with
        | none => rfl
        | some z =>
          have hp : st.ajson.path [toString tv, toString q] = some z := by
            rw [path_two, htop, get_obj, hf]
            exact hfq
          obtain ⟨pid, hpid, he⟩ := g2 _ _ _ hp
          exact absurd (toString_int_injective _ _ he ▸ hpid) hq
      · intro p z hz
        rw [path_two, htop, get_obj, hf]
        exact hz
    | none =>
      refine ⟨[], find_member_append_new _ _ _ hf, rfl, ?_⟩
      intro p z hz
      simp [find_member] at hz
  -- the three updates
  have ha1 : st.ajson.add_member (toString tv) (Json.obj [])
      = some (Json.obj (top ++ [(toString tv, Json.obj [])])) := by
    rw [htop]; rfl
  obtain ⟨a2, ha2, ha2get, ha2other⟩ := get_modify
    (Json.obj (top ++ [(toString tv, Json.obj [])]))
    (fun t => t.add_member (toString q) (Json.obj [])) (toString tv) (Json.obj pm1)
    (Json.obj (pm1 ++ [(toString q, Json.obj [])])) hx1 rfl
  obtain ⟨y3, hy3, hy3get, hy3other⟩ := get_modify
    (Json.obj (pm1 ++ [(toString q, Json.obj [])]))
    (fun p => p.add_member "stacks" (Json.obj [])) (toString q) (Json.obj [])
    (Json.obj [("stacks", Json.obj [])]) (find_member_append_new _ _ _ hnoq) rfl
  obtain ⟨a3, ha3, ha3get, ha3other⟩ := get_modify a2
    (fun t => t.modify (toString q) (fun p => p.add_member "stacks" (Json.obj [])))
    (toString tv) _ y3 ha2get hy3
  have hreg : data_register T st q
      = some { st with ajson := a3, pidtgid_map := (q, tv) :: st.pidtgid_map, tgid := tv } := by
    simp only [data_register, htv, Option.getD_some, ha1, ha2, ha3]
  refine ⟨_, hreg, ?_⟩
  -- what the new document holds under a tgid other than the new one
  have hother : ∀ k, k ≠ toString tv → a3.get k = st.ajson.get k := by
    intro k hk
    rw [ha3other k hk, ha2other k hk, get_obj, htop, get_obj, find_member_append]
    cases hf : find_member top k with
    | some y => rfl
    | none =>
      have hne : ¬ toString tv = k := fun e => hk e.symm
      simp [hne]
  -- what the new document holds under the new tgid
  have hnew : ∀ p, p ≠ toString q → y3.get p = find_member pm1 p := by
    intro p hp
    rw [hy3other p hp, get_obj, find_member_append]
    cases hf : find_member pm1 p with
    | some y => rfl
    | none =>
      have hne : ¬ toString q = p := fun e => hp e.symm
      simp [hne]
  refine ⟨get_some_is_obj a3 _ _ ha3get, ?_, ?_, ?_, ?_⟩
  · intro k x hx
    by_cases hkt : k = toString tv
    · subst hkt
      rw [ha3get] at hx
      cases hx
      exact get_some_is_obj _ _ _ hy3get
    · rw [hother k hkt] at hx
      exact g3 k x hx
  · intro k p z hz
    by_cases hkt : k = toString tv
    · subst hkt
      by_cases hpq : p = toString q
      · exact ⟨q, List.mem_cons_self _ _, hpq.symm⟩
      · rw [path_two, ha3get] at hz
        simp only [Option.some_bind] at hz
        rw [hnew p hpq] at hz
        obtain ⟨pid, hpid, he⟩ := g2 _ _ _ (hold p z hz)
        exact ⟨pid, List.mem_cons_of_mem _ hpid, he⟩
    · rw [path_two, hother k hkt, ← path_two] at hz
      obtain ⟨pid, hpid, he⟩ := g2 _ _ _ hz
      exact ⟨pid, List.mem_cons_of_mem _ hpid, he⟩
  · intro pid hpid
    rcases List.mem_cons.mp hpid with rfl | hpid
    · rw [htg, path_three, path_two, ha3get]
      simp only [Option.some_bind]
      rw [hy3get]
      rfl
    · have hne : toString pid ≠ toString q := fun e =>
        hq (toString_int_injective _ _ e ▸ hpid)
      have hold1 := g1 pid hpid
      by_cases hkt : toString (tgid_of T pid) = toString tv
      · rw [hkt] at hold1 ⊢
        rw [path_three, path_two, ha3get]
        simp only [Option.some_bind]
        rw [hnew _ hne]
        rw [path_three, path_two, htop, get_obj] at hold1
        cases hf : find_member top (toString tv) with
        | none => simp [hf] at hold1
        | some x =>
          have hx := find_member_append_some top (toString tv) (Json.obj []) x _ hf
          rw [hx] at hx1
          cases hx1
          rw [hf] at hold1
          exact hold1
      · rw [path_three, path_two, hother _ hkt, ← path_two, ← path_three]
        exact hold1
  · intro pid hpid
    rcases List.mem_cons.mp hpid with rfl | hpid
    · simp [pidtgid_get, bpf_map_lookup_elem, htg]
    · have hne : q ≠ pid := fun e => hq (e ▸ hpid)
      simpa [pidtgid_get, bpf_map_lookup_elem, hne] using gm pid hpid

/-- The first pass never asserts and registers every pid it meets. -/
theorem data_register_fold (T : Tables) :
    ∀ (pids : List Int) (st : DataState) (reg : List Int), registered T st reg →
      pids.Nodup → (∀ q ∈ pids, q ∉ reg) → (∀ q ∈ pids, q ∈ T.tgid.keys) →
      ∃ st2, fold_opt (data_register T) pids st = some st2 ∧
        registered T st2 (pids.reverse ++ reg) := by
  intro pids
  induction pids with
  | nil => intro st reg h _ _ _; exact ⟨st, rfl, by simpa using h⟩
  | cons q pids ih =>
    intro st reg h hnd hnot hkeys
    obtain ⟨st1, h1, hreg1⟩ := data_register_step T st reg q h
      (hnot q (List.mem_cons_self _ _)) (hkeys q (List.mem_cons_self _ _))
    obtain ⟨hq, hnd2⟩ := List.nodup_cons.mp hnd
    obtain ⟨st2, h2, hreg2⟩ := ih st1 (q :: reg) hreg1 hnd2
      (fun p hp hmem => by
        rcases List.mem_cons.mp hmem with rfl | hmem
        · exact hq hp
        · exact hnot p (List.mem_cons_of_mem _ hp) hmem)
      (fun p hp => hkeys p (List.mem_cons_of_mem _ hp))
    refine ⟨st2, by simp [fold_opt, h1, h2], ?_⟩
    simpa using hreg2

end RegistrationPass

section NamePass

theorem modify_path_two (v : Json) (a b : String) (f : Json → Option Json) :
    v.modify_path [a, b] f = v.modify a (fun x => x.modify b f) := rfl

theorem modify_path_three (v : Json) (a b c : String) (f : Json → Option Json) :
    v.modify_path [a, b, c] f = v.modify a (fun x => x.modify b (fun y => y.modify c f)) := rfl

theorem diverges_of_second (t t2 p p2 : String) (rest rest2 : List String) (h : p ≠ p2) :
    diverges (t :: p :: rest) (t2 :: p2 :: rest2) := by
  by_cases ht : t = t2
  · exact Or.inr ⟨ht, Or.inl h⟩
  · exact Or.inl ht

/-- One step of the second pass: the name of a registered pid is added and every `stacks`
object stays as it is. -/
theorem data_name_step (T : Tables) (st : DataState) (reg : List Int)
    (content : Int → List (String × Json)) (q : Int) (hq : q ∈ reg)
    (hmap : pidtgid_get st.pidtgid_map q = tgid_of T q)
    (hready : stacks_ready T st.ajson reg content) :
    ∃ st2, data_name T st q = some st2 ∧ st2.pidtgid_map = st.pidtgid_map ∧
      stacks_ready T st2.ajson reg content := by
  have hpath := hready q hq
  rw [path_three] at hpath
  cases hx : st.ajson.path [toString (tgid_of T q), toString q] with
  | none => simp [hx] at hpath
  | some x =>
    rw [hx] at hpath
    simp only [Option.some_bind] at hpath
    obtain ⟨pm, hpm⟩ := get_some_is_obj x _ _ hpath
    subst hpm
    obtain ⟨a, ha, hap, hframe⟩ := modify_path_spec
      (fun p => p.add_member "name"
        (Json.str ((bpf_map_lookup_elem T.comm q).getD st.cmd))) (Json.obj pm)
      (Json.obj (pm ++ [("name", Json.str ((bpf_map_lookup_elem T.comm q).getD st.cmd))])) rfl
      [toString (tgid_of T q), toString q] st.ajson hx
    rw [modify_path_two] at ha
    refine ⟨{ st with ajson := a, cmd := (bpf_map_lookup_elem T.comm q).getD st.cmd }, ?_, rfl, ?_⟩
    · simp only [data_name, hmap, ha]
    · intro pid hpid
      by_cases he : pid = q
      · subst he
        rw [path_three, hap]
        simp only [Option.some_bind, get_obj]
        exact find_member_append_some _ _ _ _ _ hpath
      · have hne : toString q ≠ toString pid := fun e =>
          he (toString_int_injective _ _ e).symm
        rw [hframe _ (diverges_of_second _ _ _ _ [] ["stacks"] hne)]
        exact hready pid hpid

/-- The second pass never asserts when every pid it meets is registered. -/
theorem data_name_fold (T : Tables) (reg : List Int) (content : Int → List (String × Json)) :
    ∀ (names : List Int) (st : DataState), (∀ q ∈ names, q ∈ reg) →
      (∀ q ∈ reg, pidtgid_get st.pidtgid_map q = tgid_of T q) →
      stacks_ready T st.ajson reg content →
      ∃ st2, fold_opt (data_name T) names st = some st2 ∧
        st2.pidtgid_map = st.pidtgid_map ∧ stacks_ready T st2.ajson reg content := by
  intro names
  induction names with
  | nil => intro st _ _ h; exact ⟨st, rfl, rfl, h⟩
  | cons q names ih =>
    intro st hreg hmap hready
    obtain ⟨st1, h1, hm1, hr1⟩ := data_name_step T st reg content q
      (hreg q (List.mem_cons_self _ _)) (hmap q (hreg q (List.mem_cons_self _ _))) hready
    obtain ⟨st2, h2, hm2, hr2⟩ := ih st1 (fun p hp => hreg p (List.mem_cons_of_mem _ hp))
      (fun p hp => by rw [hm1]; exact hmap p hp) hr1
    exact ⟨st2, by simp [fold_opt, h1, h2], by rw [hm2, hm1], hr2⟩

end NamePass

section RecordPass

theorem find_member_stack_members (pid : Int) (k : String) :
    ∀ (dfs : List (pksid_count × List String)) (z : Json),
      find_member (stack_members pid dfs) k = some z →
      ∃ df ∈ dfs, df.1.pid = pid ∧ sid_name df.1 = k := by
  intro dfs
  induction dfs with
  | nil => intro z h; simp [stack_members, find_member] at h
  | cons df dfs ih =>
    intro z h
    by_cases hp : df.1.pid = pid
    · by_cases hk : sid_name df.1 = k
      · exact ⟨df, List.mem_cons_self _ _, hp, hk⟩
      · have h2 : find_member (stack_members pid dfs) k = some z := by
          simpa [stack_members, hp, find_member, stack_member, hk] using h
        obtain ⟨df2, hm, h3⟩ := ih z h2
        exact ⟨df2, List.mem_cons_of_mem _ hm, h3⟩
    · have h2 : find_member (stack_members pid dfs) k = some z := by
        simpa [stack_members, hp] using h
      obtain ⟨df2, hm, h3⟩ := ih z h2
      exact ⟨df2, List.mem_cons_of_mem _ hm, h3⟩

theorem stack_members_append (pid : Int) (dfs : List (pksid_count × List String))
    (d : pksid_count) (frames : List String) :
    stack_members pid (dfs ++ [(d, frames)])
      = if d.pid = pid then stack_members pid dfs ++ [stack_member d frames]
        else stack_members pid dfs := by
  by_cases h : d.pid = pid <;> simp [stack_members, List.filter_append, h]

theorem modify_obj_append_new (f : Json → Option Json) (k : String) (x y : Json)
    (hf : f x = some y) (ms : List (String × Json)) (h : find_member ms k = none) :
    (Json.obj (ms ++ [(k, x)])).modify k f = some (Json.obj (ms ++ [(k, y)])) := by
  show Option.map Json.obj (modify_member (ms ++ [(k, x)]) k f) = _
  rw [modify_member_append_new f k x y hf ms h]
  rfl

/-- The insertion of a record and the pushes of its frames, seen on the `stacks` object. -/
theorem data_insert_push (stk : List (String × Json)) (d : pksid_count)
    (frames : List String) (h : find_member stk (sid_name d) = none) :
    data_insert_stacks d (Json.obj stk)
      = some (Json.obj (stk ++ [(sid_name d,
          Json.obj [("count", Json.uint d.count), ("trace", Json.arr [])])])) ∧
    data_push_stacks d frames (Json.obj (stk ++ [(sid_name d,
        Json.obj [("count", Json.uint d.count), ("trace", Json.arr [])])]))
      = some (Json.obj (stk ++ [stack_member d frames])) := by
  have e0 : (Json.obj stk).add_member (sid_name d) (Json.obj [])
      = some (Json.obj (stk ++ [(sid_name d, Json.obj [])])) := rfl
  have e1 := modify_obj_append_new
    (fun m => m.add_member "count" (Json.uint d.count)) (sid_name d) (Json.obj [])
    (Json.obj [("count", Json.uint d.count)]) rfl stk h
  have e2 := modify_obj_append_new
    (fun m => m.add_member "trace" (Json.arr [])) (sid_name d)
    (Json.obj [("count", Json.uint d.count)])
    (Json.obj [("count", Json.uint d.count), ("trace", Json.arr [])]) rfl stk h
  have e3 := modify_obj_append_new
    (fun m => m.modify "trace" (fun tr => tr.push_back_all frames)) (sid_name d)
    (Json.obj [("count", Json.uint d.count), ("trace", Json.arr [])])
    (Json.obj [("count", Json.uint d.count), ("trace", Json.arr (frames.map Json.str))])
    (by simp [Json.modify, modify_member, Json.push_back_all]) stk h
  refine ⟨?_, ?_⟩
  · unfold data_insert_stacks
    rw [e0]
    simp only
    rw [e1]
    simp only
    exact e2
  · unfold data_push_stacks
    exact e3

/-- One step of the third pass: the record gets its member at the end of the `stacks` object
of its pid, the other `stacks` objects stay as they are. -/
theorem data_key_step (db : SymbolDb) (w : World) (L : bpf_loader) (T : Tables)
    (pidtgid_map : BpfMap Int Int) (reg : List Int) (lp : DataLoop)
    (done : List (pksid_count × List String)) (d : pksid_count) (hd : d.pid ∈ reg)
    (hmap : pidtgid_get pidtgid_map d.pid = tgid_of T d.pid)
    (hfresh : ∀ df ∈ done, key_of df.1 ≠ key_of d)
    (hready : stacks_ready T lp.ajson reg (fun pid => stack_members pid done)) :
    ∃ lp2, data_key db w L T pidtgid_map lp d = some lp2 ∧
      lp2.parser = (data_symbolize db w L T lp.parser lp.ip d).1.parser ∧
      lp2.ip = (data_symbolize db w L T lp.parser lp.ip d).2 ∧
      stacks_ready T lp2.ajson reg (fun pid => stack_members pid
        (done ++ [(d, (data_symbolize db w L T lp.parser lp.ip d).1.trace)])) := by
  have hpath := hready d.pid hd
  have hnone : find_member (stack_members d.pid done) (sid_name d) = none := by
    cases hf : find_member (stack_members d.pid done) (sid_name d) with
    | none => rfl
    | some z =>
      obtain ⟨df, hm, hp, hs⟩ := find_member_stack_members _ _ _ _ hf
      obtain ⟨hu, hk⟩ := sid_name_injective _ _ hs
      exact absurd (by simp [key_of, hp, hu, hk]) (hfresh df hm)
  obtain ⟨hins, hpush⟩ := data_insert_push (stack_members d.pid done) d
    (data_symbolize db w L T lp.parser lp.ip d).1.trace hnone
  obtain ⟨a1, ha1, ha1p, ha1f⟩ := modify_path_spec _ _ _ hins
    [toString (tgid_of T d.pid), toString d.pid, "stacks"] lp.ajson hpath
  obtain ⟨a2, ha2, ha2p, ha2f⟩ := modify_path_spec _ _ _ hpush
    [toString (tgid_of T d.pid), toString d.pid, "stacks"] a1 ha1p
  rw [modify_path_three] at ha1 ha2
  refine ⟨⟨a2, (data_symbolize db w L T lp.parser lp.ip d).1.parser,
    (data_symbolize db w L T lp.parser lp.ip d).2⟩, ?_, rfl, rfl, ?_⟩
  · simp only [data_key, hmap, data_insert, ha1, data_push, ha2]
  · intro pid hpid
    simp only [stack_members_append]
    by_cases he : d.pid = pid
    · subst he
      simpa using ha2p
    · have hne : toString d.pid ≠ toString pid := fun e => he (toString_int_injective _ _ e)
      rw [if_neg he, ha2f _ (diverges_of_second _ _ _ _ ["stacks"] ["stacks"] hne),
        ha1f _ (diverges_of_second _ _ _ _ ["stacks"] ["stacks"] hne)]
      exact hready pid hpid

/-- The third pass never asserts when the pids of the records are registered and the keys
are distinct; it appends the member of every record, in the order of the records. -/
theorem data_key_fold (db : SymbolDb) (w : World) (L : bpf_loader) (T : Tables)
    (pidtgid_map : BpfMap Int Int) (reg : List Int) :
    ∀ (todo : List pksid_count) (lp : DataLoop) (done : List (pksid_count × List String)),
      (∀ d ∈ todo, d.pid ∈ reg ∧ pidtgid_get pidtgid_map d.pid = tgid_of T d.pid) →
      ((done.map (fun df => key_of df.1)) ++ todo.map key_of).Nodup →
      stacks_ready T lp.ajson reg (fun pid => stack_members pid done) →
      ∃ (lp2 : DataLoop) (frs : List (List String)),
        fold_opt (data_key db w L T pidtgid_map) todo lp = some lp2 ∧
        frs.length = todo.length ∧
        stacks_ready T lp2.ajson reg (fun pid => stack_members pid (done ++ todo.zip frs)) ∧
        ∀ df ∈ todo.zip frs, ∃ g0 ip0, df.2 = (data_symbolize db w L T g0 ip0 df.1).1.trace := by
  intro todo
  induction todo with
  | nil =>
    intro lp done _ _ h
    exact ⟨lp, [], rfl, rfl, by simpa using h, by simp⟩
  | cons d todo ih =>
    intro lp done hreg hnd hready
    have hfresh : ∀ df ∈ done, key_of df.1 ≠ key_of d := by
      intro df hdf e
      have hdisj := (List.nodup_append.mp hnd).2.2
      exact hdisj (List.mem_map_of_mem (fun df => key_of df.1) hdf)
        (e ▸ List.mem_map_of_mem key_of (List.mem_cons_self d todo))
    obtain ⟨lp1, h1, _, _, hr1⟩ := data_key_step db w L T pidtgid_map reg lp done d
      (hreg d (List.mem_cons_self _ _)).1 (hreg d (List.mem_cons_self _ _)).2 hfresh hready
    have hnd2 : (((done ++ [(d, (data_symbolize db w L T lp.parser lp.ip d).1.trace)]).map
        (fun df => key_of df.1)) ++ todo.map key_of).Nodup := by
      simpa [List.append_assoc] using hnd
    obtain ⟨lp2, frs, h2, hl, hr2, hfr⟩ := ih lp1
      (done ++ [(d, (data_symbolize db w L T lp.parser lp.ip d).1.trace)])
      (fun e he => hreg e (List.mem_cons_of_mem _ he)) hnd2 hr1
    refine ⟨lp2, (data_symbolize db w L T lp.parser lp.ip d).1.trace :: frs,
      by simp [fold_opt, h1, h2], by simp [hl], ?_, ?_⟩
    · simpa [List.append_assoc] using hr2
    · intro df hdf
      simp only [List.zip_cons_cons, List.mem_cons] at hdf
      rcases hdf with rfl | hdf
      · exact ⟨lp.parser, lp.ip, rfl⟩
      · exact hfr df hdf

end RecordPass

section DataSaveReport

theorem data_symbolize_trace (db : SymbolDb) (w : World) (L : bpf_loader) (T : Tables)
    (g : SymbolParser) (ip : List Nat) (d : pksid_count) :
    ∃ K U, (data_symbolize db w L T g ip d).1.trace = K ++ "----------------" :: U ∧
      (∀ kt, 0 ≤ d.ksid → bpf_map_lookup_elem T.trace d.ksid = some kt →
        K = (live_frames kt).map (data_kernel_name db)) ∧
      (d.ksid < 0 → K = ["[MISSING KERNEL STACK]"]) ∧
      (∀ ut, 0 ≤ d.usid → bpf_map_lookup_elem T.trace d.usid = some ut →
        ∃ st, U = data_user_names db w d.pid st (live_frames ut)) ∧
      (d.usid < 0 → U = ["[MISSING USER STACK]"]) := by
  refine ⟨(data_kernel_section db L T g ip d).1.trace,
    if 0 ≤ d.usid then
      data_user_names db w d.pid
        { (data_kernel_section db L T g ip d).1 with
          trace := (data_kernel_section db L T g ip d).1.trace ++ ["----------------"] }
        (live_frames ((bpf_map_lookup_elem T.trace d.usid).getD
          (data_kernel_section db L T g ip d).2))
    else ["[MISSING USER STACK]"], ?_, ?_, ?_, ?_, ?_⟩
  · unfold data_symbolize data_user_section
    by_cases hu : 0 ≤ d.usid
    · simp only [hu, if_true]
      rw [data_user_fold_trace]
      simp
    · simp [hu]
  · intro kt hk hkt
    simp only [data_kernel_section, hk, if_true, hkt, Option.getD_some]
    rw [data_kernel_fold_trace]
    simp
  · intro hk
    have hk0 : ¬ 0 ≤ d.ksid := by omega
    simp [data_kernel_section, hk0]
  · intro ut hu hut
    refine ⟨{ (data_kernel_section db L T g ip d).1 with
      trace := (data_kernel_section db L T g ip d).1.trace ++ ["----------------"] }, ?_⟩
    simp only [hu, if_true, hut, Option.getD_some]
  · intro hu
    have hu0 : ¬ 0 ≤ d.usid := by omega
    simp [hu0]

theorem exists_zip_of_mem {α β : Type} :
    ∀ (l : List α) (r : List β), r.length = l.length → ∀ a ∈ l, ∃ b, (a, b) ∈ l.zip r := by
  intro l
  induction l with
  | nil => intro r _ a ha; cases ha
  | cons x l ih =>
    intro r hr a ha
    cases r with
    | nil => simp at hr
    | cons y r =>
      rcases List.mem_cons.mp ha with rfl | ha
      · exact ⟨y, by simp⟩
      · obtain ⟨b, hb⟩ := ih r (by simpa using hr) a ha
        exact ⟨b, by simp [hb]⟩

/-- In the `stacks` object of a pid, the member of a record is found under its name. -/
theorem find_stack_member (d : pksid_count) (f : List String) :
    ∀ dfs : List (pksid_count × List String), (dfs.map (fun df => key_of df.1)).Nodup →
      (d, f) ∈ dfs →
      find_member (stack_members d.pid dfs) (sid_name d) = some (stack_member d f).2 := by
  intro dfs
  induction dfs with
  | nil => intro _ h; cases h
  | cons df dfs ih =>
    intro hnd hmem
    simp only [List.map_cons, List.nodup_cons] at hnd
    rcases List.mem_cons.mp hmem with rfl | hmem
    · simp [stack_members, find_member, stack_member]
    · have hrec := ih hnd.2 hmem
      by_cases hp : df.1.pid = d.pid
      · have hk : sid_name df.1 ≠ sid_name d := by
          intro e
          obtain ⟨hu, hk⟩ := sid_name_injective _ _ e
          apply hnd.1
          have : key_of df.1 = key_of d := by simp [key_of, hp, hu, hk]
          rw [this]
          exact List.mem_map_of_mem (fun df => key_of df.1) hmem
        simpa [stack_members, hp, find_member, stack_member, hk] using hrec
      · simpa [stack_members, hp] using hrec

theorem key_of_record_at (m : BpfMap psid Nat) (id : psid) : key_of (record_at m id) = id := rfl

end DataSaveReport

section DataSaveMain

theorem registered_init (T : Tables) (junk : Stale) :
    registered T ⟨Json.obj [], [], junk.tgid, junk.cmd⟩ [] := by
  refine ⟨⟨[], rfl⟩, ?_, ?_, ?_, ?_⟩
  · intro t x h; simp [Json.get, find_member] at h
  · intro t p z h; simp [Json.path, Json.get, find_member] at h
  · intro pid h; cases h
  · intro pid h; cases h

/-- The first two passes: when every pid met in the pid→name table is met in the pid→tgid
table, they end without assertion, every pid met in the pid→tgid table has an empty `stacks`
object under its tgid and pid, and `pidtgid_map` holds its tgid. -/
theorem data_passes_ok (T : Tables) (junk : Stale) (hnd_tgid : T.tgid.keys.Nodup)
    (hnd_comm : T.comm.keys.Nodup)
    (hreg_comm : ∀ pid ∈ visited T.comm 0, pid ∈ visited T.tgid 0) :
    ∃ st2, data_passes T junk = Except.ok st2 ∧
      stacks_ready T st2.ajson (visited T.tgid 0) (fun _ => []) ∧
      ∀ pid ∈ visited T.tgid 0, pidtgid_get st2.pidtgid_map pid = tgid_of T pid := by
  obtain ⟨st1, h1, hreg1⟩ := data_register_fold T (visited T.tgid 0)
    ⟨Json.obj [], [], junk.tgid, junk.cmd⟩ [] (registered_init T junk)
    (visited_nodup T.tgid hnd_tgid 0) (fun q _ h => by cases h) (visited_subset T.tgid 0)
  obtain ⟨_, _, _, g1, gm⟩ := hreg1
  have hmem : ∀ pid, pid ∈ visited T.tgid 0 → pid ∈ (visited T.tgid 0).reverse ++ [] := by
    intro pid h; simpa using h
  have hready1 : stacks_ready T st1.ajson (visited T.tgid 0) (fun _ => []) :=
    fun pid h => g1 pid (hmem pid h)
  have hmap1 : ∀ pid ∈ visited T.tgid 0, pidtgid_get st1.pidtgid_map pid = tgid_of T pid :=
    fun pid h => gm pid (hmem pid h)
  obtain ⟨st2, h2, hm2, hready2⟩ := data_name_fold T (visited T.tgid 0) (fun _ => [])
    (visited T.comm 0) st1 hreg_comm hmap1 hready1
  refine ⟨st2, ?_, hready2, fun pid h => by rw [hm2]; exact hmap1 pid h⟩
  simp only [data_passes, iter_keys_eq T.tgid hnd_tgid, h1, iter_keys_eq T.comm hnd_comm, h2]

/-- What `data_save` writes: with the four tables opened, distinct keys, a writable file and
every pid met in the pid→name table and in the count table met in the pid→tgid table, it
returns 0, and the `stacks` object of every pid met holds the members of the records of that
pid, in the order of the reversed sorted aggregate. -/
theorem data_save_report (db : SymbolDb) (w : World) (L : bpf_loader) (T : Tables)
    (g : SymbolParser) (junk : Stale)
    (hcomm : 0 ≤ L.comm_fd) (htgid : 0 ≤ L.tgid_fd) (hcount : 0 ≤ L.count_fd)
    (htrace : 0 ≤ L.trace_fd) (hfopen : w.fopen_ok = true)
    (hnd_count : T.count.keys.Nodup) (hnd_tgid : T.tgid.keys.Nodup)
    (hnd_comm : T.comm.keys.Nodup)
    (hreg_comm : ∀ pid ∈ visited T.comm 0, pid ∈ visited T.tgid 0)
    (hreg_count : ∀ id ∈ visited T.count psid_zero, id.pid ∈ visited T.tgid 0) :
    ∃ (D : List pksid_count) (frs : List (List String)) (report : Json)
      (parser : SymbolParser),
      sortD L.count_fd T.count junk.count64 = some (some D) ∧
      data_save db w L T g junk = Except.ok ⟨0, some report, parser⟩ ∧
      sorted_by_count D ∧
      D.Perm ((visited T.count psid_zero).map (record_at T.count)) ∧
      frs.length = D.length ∧
      stacks_ready T report (visited T.tgid 0)
        (fun pid => stack_members pid (D.reverse.zip frs)) ∧
      ∀ df ∈ D.reverse.zip frs, ∃ g0 ip0, df.2 = (data_symbolize db w L T g0 ip0 df.1).1.trace := by
  obtain ⟨st2, hpass, hready, hmap⟩ := data_passes_ok T junk hnd_tgid hnd_comm hreg_comm
  obtain ⟨D, hD, hsorted, hperm, _⟩ := sortD_spec L.count_fd T.count junk.count64 hcount hnd_count
  have hkeys : (D.map key_of).Perm (visited T.count psid_zero) := by
    have := hperm.map key_of
    simpa [List.map_map, Function.comp_def, key_of_record_at] using this
  have hpid : ∀ d ∈ D.reverse,
      d.pid ∈ visited T.tgid 0 ∧ pidtgid_get st2.pidtgid_map d.pid = tgid_of T d.pid := by
    intro d hd
    have hd2 : key_of d ∈ visited T.count psid_zero :=
      hkeys.mem_iff.mp (List.mem_map_of_mem key_of (List.mem_reverse.mp hd))
    have := hreg_count _ hd2
    exact ⟨this, hmap _ this⟩
  have hnd : (([] : List (pksid_count × List String)).map (fun df => key_of df.1)
      ++ D.reverse.map key_of).Nodup := by
    simp only [List.map_nil, List.nil_append, List.map_reverse, List.nodup_reverse]
    exact hkeys.nodup_iff.mpr (visited_nodup T.count hnd_count psid_zero)
  obtain ⟨lp2, frs, hfold, hlen, hready2, hfr⟩ := data_key_fold db w L T st2.pidtgid_map
    (visited T.tgid 0) D.reverse ⟨st2.ajson, g, junk.ip_main⟩ [] hpid hnd
    (by simpa [stack_members] using hready)
  refine ⟨D, frs, lp2.ajson, lp2.parser, hD, ?_, hsorted, hperm, by simpa using hlen,
    by simpa using hready2, hfr⟩
  have h1 : ¬ L.comm_fd < 0 := by omega
  have h2 : ¬ L.tgid_fd < 0 := by omega
  have h3 : ¬ L.count_fd < 0 := by omega
  have h4 : ¬ L.trace_fd < 0 := by omega
  simp only [data_save, h1, h2, h3, h4, if_false, hpass, hD, hfold, hfopen, if_true]

end DataSaveMain

section DataSaveClaims

/-- With the four tables opened, distinct keys, a writable file, and every pid met in the
pid→name table and in the count table registered by the first pass, `data_save` returns 0
after visiting the records of the sorted aggregate in reverse; the `stacks` object under
`report[tgid of pid][pid]` holds, in visiting order, one member per record of that pid with its
`count` and `trace`. -/
theorem data_save_inserts_records (db : SymbolDb) (w : World) (L : bpf_loader)
    (T : Tables) (g : SymbolParser) (junk : Stale)
    (hcomm : 0 ≤ L.comm_fd) (htgid : 0 ≤ L.tgid_fd) (hcount : 0 ≤ L.count_fd)
    (htrace : 0 ≤ L.trace_fd) (hfopen : w.fopen_ok = true)
    (hnd_count : T.count.keys.Nodup) (hnd_tgid : T.tgid.keys.Nodup)
    (hnd_comm : T.comm.keys.Nodup)
    (hreg_comm : ∀ pid ∈ visited T.comm 0, pid ∈ visited T.tgid 0)
    (hreg_count : ∀ id ∈ visited T.count psid_zero, id.pid ∈ visited T.tgid 0) :
    ∃ (D : List pksid_count) (frs : List (List String)) (report : Json)
      (parser : SymbolParser),
      sortD L.count_fd T.count junk.count64 = some (some D) ∧
      data_save db w L T g junk = Except.ok ⟨0, some report, parser⟩ ∧
      D.reverse.Pairwise (fun a b => b.count ≤ a.count) ∧
      frs.length = D.length ∧
      (∀ pid ∈ visited T.tgid 0,
        report.path [toString (tgid_of T pid), toString pid, "stacks"]
          = some (Json.obj (stack_members pid (D.reverse.zip frs)))) ∧
      ∀ d ∈ D, ∃ (tgid : Int) (frames K U : List String),
        bpf_map_lookup_elem T.tgid d.pid = some tgid ∧
        report.path [toString tgid, toString d.pid, "stacks", sid_name d]
          = some (Json.obj [("count", Json.uint d.count),
              ("trace", Json.arr (frames.map Json.str))]) ∧
        frames = K ++ "----------------" :: U ∧
        (∀ kt, 0 ≤ d.ksid → bpf_map_lookup_elem T.trace d.ksid = some kt →
          K = (live_frames kt).map (data_kernel_name db)) ∧
        (d.ksid < 0 → K = ["[MISSING KERNEL STACK]"]) ∧
        (∀ ut, 0 ≤ d.usid → bpf_map_lookup_elem T.trace d.usid = some ut →
          ∃ st, U = data_user_names db w d.pid st (live_frames ut)) ∧
        (d.usid < 0 → U = ["[MISSING USER STACK]"]) := by
  obtain ⟨D, frs, report, parser, hD, hsave, hsorted, hperm, hlen, hready, hfr⟩ :=
    data_save_report db w L T g junk hcomm htgid hcount htrace hfopen hnd_count hnd_tgid
      hnd_comm hreg_comm hreg_count
  refine ⟨D, frs, report, parser, hD, hsave, List.pairwise_reverse.mpr hsorted, hlen, hready, ?_⟩
  intro d hd
  have hkeys : (D.map key_of).Perm (visited T.count psid_zero) := by
    have := hperm.map key_of
    simpa [List.map_map, Function.comp_def, key_of_record_at] using this
  have hpid : d.pid ∈ visited T.tgid 0 :=
    hreg_count _ (hkeys.mem_iff.mp (List.mem_map_of_mem key_of hd))
  obtain ⟨tv, htv⟩ := lookup_of_mem_keys T.tgid d.pid (visited_subset T.tgid 0 _ hpid)
  have htg : tgid_of T d.pid = tv := by simp [tgid_of, htv]
  obtain ⟨f, hf⟩ := exists_zip_of_mem D.reverse frs (by simpa using hlen) d
    (List.mem_reverse.mpr hd)
  obtain ⟨g0, ip0, hfe⟩ := hfr (d, f) hf
  simp only at hfe
  obtain ⟨K, U, hKU, hk1, hk2, hu1, hu2⟩ := data_symbolize_trace db w L T g0 ip0 d
  have hnd : ((D.reverse.zip frs).map (fun df => key_of df.1)).Nodup := by
    have hmap : (D.reverse.zip frs).map (fun df => key_of df.1)
        = ((D.reverse.zip frs).map Prod.fst).map key_of := by
      rw [List.map_map]; rfl
    rw [hmap, List.map_fst_zip _ _ (by simp [hlen]), List.map_reverse, List.nodup_reverse]
    exact hkeys.nodup_iff.mpr (visited_nodup T.count hnd_count psid_zero)
  refine ⟨tv, f, K, U, htv, ?_, by rw [hfe]; exact hKU, hk1, hk2, hu1, hu2⟩
  have hp := path_append [toString tv, toString d.pid, "stacks"] [sid_name d] report
  simp only [List.cons_append, List.nil_append] at hp
  rw [hp, ← htg, hready d.pid hpid]
  simp only [Option.some_bind, Json.path, get_obj, find_stack_member d f _ hnd hf]
  rfl

/-- C10 (the code at tables that hold a zero key): in the first tables the count table holds
the keys (1,5,10), the zero key and (1,6,10), and the pid→tgid table holds tgid 1 for pid 1;
`data_save` meets only the key after the zero key, so the `stacks` object of pid 1 gets the
member `10,6` and no member `10,5` for the key (1,5,10). In the second tables the pid→tgid
table holds tgid 5 for pid 5, but the first pass starts from pid 0, its last key, and
registers nothing; `data_save` stops at an assertion of the JSON library at the key of pid 5
and adds no member at all. -/
theorem C10_keys_not_visited_or_not_inserted :
    (⟨1, 5, 10⟩ : psid) ∈ ex_tables_pid_zero.count.keys ∧
    bpf_map_lookup_elem ex_tables_pid_zero.tgid 1 = some 1 ∧
    (∃ (report : Json) (parser : SymbolParser),
      data_save ex_db ex_world ex_loader ex_tables_pid_zero ex_symbols ex_junk
        = Except.ok ⟨0, some report, parser⟩ ∧
      (report.path ["1", "1", "stacks"]).map member_names = some ["10,6"] ∧
      report.path ["1", "1", "stacks", "10,5"] = none) ∧
    (⟨5, -1, -1⟩ : psid) ∈ ex_tables_before_zero.count.keys ∧
    bpf_map_lookup_elem ex_tables_before_zero.tgid 5 = some 5 ∧
    export_fault (data_save ex_db ex_world ex_loader ex_tables_before_zero ex_symbols ex_junk)
      = some Fault.json_assert ∧
    export_ret (data_save ex_db ex_world ex_loader ex_tables_before_zero ex_symbols ex_junk)
      = none :=
  ⟨by decide, by decide, ⟨_, _, rfl, rfl, rfl⟩, by decide, by decide, by decide, by decide⟩

end DataSaveClaims

section ZeroKeyInExports

/-- C11 (the code at a pid→tgid table that holds pid 0): the first pass of `data_save` starts
its iteration from the key 0, so with the pids 0 and 1 in the pid→tgid table (pid 0 first) it
meets pid 1 only; after both passes the report holds `stacks` and `name` under `["1"]["1"]`
and nothing at all under `["0"]["0"]`, although the pid→name table holds a name for pid 0. -/
theorem C11_pid_zero_not_registered :
    ex_tables_pid_zero.tgid.keys = [0, 1] ∧
    bpf_map_lookup_elem ex_tables_pid_zero.comm 0 = some "swapper" ∧
    iter_keys ex_tables_pid_zero.tgid 0 = some [1] ∧
    ∃ st, data_passes ex_tables_pid_zero ex_junk = Except.ok st ∧
      st.ajson = Json.obj [("1", Json.obj [("1",
        Json.obj [("stacks", Json.obj []), ("name", Json.str "a")])])] ∧
      st.ajson.path ["0", "0"] = none :=
  ⟨by decide, by decide, by decide, _, rfl, rfl, rfl⟩

/-- C12 (the code at tables that hold a zero key): every pid of the count table is a key of
the pid→tgid table and every stored count is positive. In the first tables the count table
stores 2 + 4 under the keys of process 1, but `data_save` starts the iteration of the count
table from the zero key, meets only the key after it, and the leaf counts under process 1 are
`[4]`. In the second tables pid 0 is the last key of the pid→tgid table, so the first pass
meets no pid at all and `data_save` stops at an assertion of the JSON library when it
reaches the key of process 5. -/
theorem C12_counts_lost_after_zero_key :
    (∀ e ∈ ex_tables_pid_zero.count, e.1.pid ∈ ex_tables_pid_zero.tgid.keys ∧ 0 < e.2) ∧
    table_count_of_pid ex_tables_pid_zero.count 1 = 6 ∧
    (∃ report parser,
      data_save ex_db ex_world ex_loader ex_tables_pid_zero ex_symbols ex_junk
        = Except.ok ⟨0, some report, parser⟩ ∧
      (report.path ["1", "1", "stacks"]).map leaf_counts = some [4]) ∧
    (∀ e ∈ ex_tables_before_zero.count,
      e.1.pid ∈ ex_tables_before_zero.tgid.keys ∧ 0 < e.2) ∧
    export_fault (data_save ex_db ex_world ex_loader ex_tables_before_zero ex_symbols ex_junk)
      = some Fault.json_assert :=
  ⟨by decide, by decide, ⟨_, _, rfl, rfl⟩, by decide, by decide⟩

end ZeroKeyInExports

section UserFrames

/-- C13 (the code at an address met twice in the stack of a living process): process 1 is
alive and the address 8196 lies 4 bytes into the symbol `u_fn` that starts at 8192. The first
occurrence is resolved and pushed with the offset 4; the second is answered from the cache,
which holds the name only, and its offset is computed from `sym.start` as `sym.reset` left
it: `data_save` pushes `u_fn +0x2004`, the whole address, where the offset from the start of
`u_fn` is 4. -/
theorem C13_cached_frame_offset_not_from_symbol_start :
    ex_world.alive 1 = true ∧
    ex_db_ranges.resolveUser 1 8196 = some ("u_fn", 8192) ∧
    sprintf_x 8196 8192 = "4" ∧
    (([8196, 8196] : List Nat).foldl (data_user_frame ex_db_ranges ex_world 1)
      ex_data_frames).trace = ["u_fn +0x4", "u_fn +0x2004"] ∧
    ∃ (report : Json) (parser : SymbolParser),
      data_save ex_db_ranges ex_world ex_loader ex_tables_twice ex_symbols ex_junk
        = Except.ok ⟨0, some report, parser⟩ ∧
      report.path ["1", "1", "stacks", "10,-1", "trace"]
        = some (Json.arr [Json.str "[MISSING KERNEL STACK]", Json.str "----------------",
            Json.str "u_fn +0x4", Json.str "u_fn +0x2004"]) :=
  ⟨by decide, by decide, by decide, by decide, _, _, rfl, rfl⟩

/-- C14 (the code at a user stack with an address that does not resolve): no pid filter is
set (the member `pid` is -1). In the stack of process 1 the leaf 8192 resolves to `u_leaf` and
its caller 9999 does not; `flame_save` prints `u_leaf` a second time in the place of 9999 and
caches nothing for it. In the stack of process 2 the address 9999 stands alone; `flame_save`
prints it as `0x000000000000270f` and caches the literal under pid -1, not under pid 2.
`data_save` pushes the literal for both stacks and caches it under the pids 1 and 2. -/
theorem C14_flame_save_unresolved_user_address :
    ex_loader.pid = -1 ∧
    ex_db.resolveUser 1 9999 = none ∧
    sprintf_0x016llx 9999 = "0x000000000000270f" ∧
    flame_text (flame_save ex_db ex_world ex_loader ex_tables_stale ex_symbols ex_junk)
      = some ("a:1;u_leaf;u_leaf;----------------;[MISSING KERNEL STACK]; 1\n" ++
          "b:2;.;0x000000000000270f;----------------;[MISSING KERNEL STACK]; 1\n") ∧
    flame_cache (flame_save ex_db ex_world ex_loader ex_tables_stale ex_symbols ex_junk)
      = some [((1, 8192), "u_leaf"), ((-1, 9999), "0x000000000000270f")] ∧
    data_cache (data_save ex_db ex_world ex_loader ex_tables_stale ex_symbols ex_junk)
      = some [((1, 8192), "u_leaf"), ((1, 9999), "0x000000000000270f"),
          ((2, 9999), "0x000000000000270f")] := by
  decide

end UserFrames

section SymbolCache

theorem lookup_append_entry {K V : Type} [DecidableEq K] (k : K) (v : V) (key : K) :
    ∀ m : BpfMap K V, bpf_map_lookup_elem (m ++ [(k, v)]) key
      = match bpf_map_lookup_elem m key with
        | some x => some x
        | none => if k = key then some v else none
  | [] => by simp [bpf_map_lookup_elem]
  | (k0, v0) :: rest => by
    by_cases h : k0 = key
    · simp [bpf_map_lookup_elem, h]
    · simpa [bpf_map_lookup_elem, h] using lookup_append_entry k v key rest

/-- What the cache holds after `putin_symbol_cache`: what it held, and the new string under
the new key when the key was free. -/
theorem putin_lookup (g : SymbolParser) (pid : Int) (ip : Nat) (name : String)
    (k : Int × Nat) :
    bpf_map_lookup_elem (g.putin_symbol_cache pid ip name).cache k
      = match bpf_map_lookup_elem g.cache k with
        | some x => some x
        | none => if (pid, ip) = k then some name else none := by
  unfold SymbolParser.putin_symbol_cache
  cases h : bpf_map_lookup_elem g.cache (pid, ip) with
  | some x =>
    simp only
    cases hk : bpf_map_lookup_elem g.cache k with
    | some y => rfl
    | none =>
      have hne : ¬ (pid, ip) = k := fun e => by
        rw [e] at h; rw [h] at hk; cases hk
      simp [hne]
  | none =>
    simp only
    rw [lookup_append_entry (pid, ip) name k g.cache]
    cases bpf_map_lookup_elem g.cache k with
    | some y => rfl
    | none => by_cases he : (pid, ip) = k <;> simp [he]

theorem cache_extends_refl (g : SymbolParser) : cache_extends g g := fun _ _ h => h

theorem cache_extends_trans {g1 g2 g3 : SymbolParser} (h1 : cache_extends g1 g2)
    (h2 : cache_extends g2 g3) : cache_extends g1 g3 :=
  fun k v h => h2 k v (h1 k v h)

theorem cache_extends_of_eq {g g2 : SymbolParser} (h : g2.cache = g.cache) :
    cache_extends g g2 := fun k v hk => by rw [h]; exact hk

theorem putin_extends (g : SymbolParser) (pid : Int) (ip : Nat) (name : String) :
    cache_extends g (g.putin_symbol_cache pid ip name) := by
  intro k v h
  rw [putin_lookup, h]

/-- An entry `putin_symbol_cache(pid, ip, name)` adds is stored under `pid`. -/
theorem putin_new_entry (g : SymbolParser) (pid : Int) (ip : Nat) (name : String)
    (k : Int × Nat) (v : String)
    (h : bpf_map_lookup_elem (g.putin_symbol_cache pid ip name).cache k = some v) :
    bpf_map_lookup_elem g.cache k = some v ∨ (k = (pid, ip) ∧ v = name) := by
  rw [putin_lookup] at h
  cases hk : bpf_map_lookup_elem g.cache k with
  | some x => rw [hk] at h; exact Or.inl h
  | none =>
    rw [hk] at h
    by_cases he : (pid, ip) = k
    · simp [he] at h
      exact Or.inr ⟨he.symm, h.symm⟩
    · simp [he] at h

end SymbolCache

section FrameCaches

/-- A user frame of `data_save` whose address is in the cache: one call, the cache lookup. -/
theorem data_user_frame_hit (db : SymbolDb) (w : World) (idpid : Int) (st : DataFrames)
    (p : Nat) (name : String)
    (hc : bpf_map_lookup_elem st.parser.cache (idpid, p) = some name) :
    (data_user_frame db w idpid st p).parser
      = { st.parser with calls := st.parser.calls ++ [SymCall.find_symbol_in_cache idpid p] } := by
  unfold data_user_frame
  simp only [SymbolParser.find_symbol_in_cache, hc]
  split <;> rfl

/-- A user frame of `data_save` whose address is not in the cache: the cache lookup, one call
of the resolver, and one write of the cache under the pid of the key. -/
theorem data_user_frame_miss (db : SymbolDb) (w : World) (idpid : Int) (st : DataFrames)
    (p : Nat) (hc : bpf_map_lookup_elem st.parser.cache (idpid, p) = none) :
    ∃ lit, (data_user_frame db w idpid st p).parser
      = SymbolParser.putin_symbol_cache
          { st.parser with calls := st.parser.calls ++
            [SymCall.find_symbol_in_cache idpid p, SymCall.get_symbol_info idpid p] }
          idpid p lit := by
  unfold data_user_frame
  simp only [SymbolParser.find_symbol_in_cache, hc, SymbolParser.resolve_user, symbol.reset]
  cases hr : db.resolveUser idpid p with
  | some r =>
    refine ⟨r.1, ?_⟩
    simp only [hr, if_true]
    by_cases ha : w.alive idpid = true <;> simp [ha]
  | none =>
    refine ⟨sprintf_0x016llx p, ?_⟩
    simp [hr]

/-- The symbol parser after a kernel frame of `data_save`: the kernel resolver was called, and
a literal was cached under the member `pid` when it failed. -/
theorem data_kernel_frame_symbols (db : SymbolDb) (pid : Int) (st : DataFrames) (p : Nat) :
    (data_kernel_frame db pid st p).parser
      = match db.resolveKernel p with
        | some _ =>
          { st.parser with calls := st.parser.calls ++ [SymCall.find_kernel_symbol p] }
        | none => SymbolParser.putin_symbol_cache
            { st.parser with calls := st.parser.calls ++ [SymCall.find_kernel_symbol p] }
            pid p (sprintf_0x016llx p) := by
  unfold data_kernel_frame
  simp only [SymbolParser.find_kernel_symbol, symbol.reset]
  cases hr : db.resolveKernel p <;> simp

/-- The symbol parser after a kernel frame of `flame_save`: as after one of `data_save`. -/
theorem flame_kernel_frame_symbols (db : SymbolDb) (pid : Int) (st : FlameLine) (p : Nat) :
    (flame_kernel_frame db pid st p).parser
      = match db.resolveKernel p with
        | some _ =>
          { st.parser with calls := st.parser.calls ++ [SymCall.find_kernel_symbol p] }
        | none => SymbolParser.putin_symbol_cache
            { st.parser with calls := st.parser.calls ++ [SymCall.find_kernel_symbol p] }
            pid p (sprintf_0x016llx p) := by
  unfold flame_kernel_frame
  simp only [SymbolParser.find_kernel_symbol, symbol.reset]
  cases hr : db.resolveKernel p <;> simp

end FrameCaches

section CacheGrowth

/-- A relation between symbol parsers that every step of a loop keeps is kept by the loop. -/
theorem fold_parser_rel {σ : Type} (R : SymbolParser → SymbolParser → Prop)
    (hrefl : ∀ g, R g g) (htrans : ∀ g1 g2 g3, R g1 g2 → R g2 g3 → R g1 g3)
    (parser : σ → SymbolParser) (f : σ → Nat → σ)
    (hstep : ∀ st p, R (parser st) (parser (f st p))) :
    ∀ (frames : List Nat) (st : σ), R (parser st) (parser (frames.foldl f st)) := by
  intro frames
  induction frames with
  | nil => intro st; exact hrefl _
  | cons p ps ih => intro st; exact htrans _ _ _ (hstep st p) (ih (f st p))

theorem data_user_frame_extends (db : SymbolDb) (w : World) (idpid : Int) (st : DataFrames)
    (p : Nat) : cache_extends st.parser (data_user_frame db w idpid st p).parser := by
  cases hc : bpf_map_lookup_elem st.parser.cache (idpid, p) with
  | some name =>
    rw [data_user_frame_hit db w idpid st p name hc]
    exact cache_extends_of_eq rfl
  | none =>
    obtain ⟨lit, h⟩ := data_user_frame_miss db w idpid st p hc
    rw [h]
    exact cache_extends_trans (cache_extends_of_eq rfl) (putin_extends _ _ _ _)

theorem data_kernel_frame_extends (db : SymbolDb) (pid : Int) (st : DataFrames) (p : Nat) :
    cache_extends st.parser (data_kernel_frame db pid st p).parser := by
  rw [data_kernel_frame_symbols]
  cases db.resolveKernel p with
  | some r => exact cache_extends_of_eq rfl
  | none => exact cache_extends_trans (cache_extends_of_eq rfl) (putin_extends _ _ _ _)

theorem flame_kernel_frame_extends (db : SymbolDb) (pid : Int) (st : FlameLine) (p : Nat) :
    cache_extends st.parser (flame_kernel_frame db pid st p).parser := by
  rw [flame_kernel_frame_symbols]
  cases db.resolveKernel p with
  | some r => exact cache_extends_of_eq rfl
  | none => exact cache_extends_trans (cache_extends_of_eq rfl) (putin_extends _ _ _ _)

theorem flame_user_lookup_extends (db : SymbolDb) (idpid : Int) (st : FlameUser) (p : Nat) :
    cache_extends st.parser (flame_user_lookup db idpid st p).parser := by
  unfold flame_user_lookup
  cases hc : (st.parser.find_symbol_in_cache idpid p).1 with
  | some name =>
    simp only [hc]
    exact cache_extends_of_eq rfl
  | none =>
    simp only [hc, SymbolParser.resolve_user, symbol.reset]
    cases hr : db.resolveUser idpid p with
    | some r =>
      simp only [if_true]
      exact cache_extends_trans (cache_extends_of_eq rfl) (putin_extends _ _ _ _)
    | none =>
      simp only [Bool.false_eq_true, if_false]
      exact cache_extends_of_eq rfl

theorem flame_user_frame_extends (db : SymbolDb) (pid idpid : Int) (st : FlameUser) (p : Nat) :
    cache_extends st.parser (flame_user_frame db pid idpid st p).parser := by
  have h1 := flame_user_lookup_extends db idpid st p
  unfold flame_user_frame
  cases hs : (flame_user_lookup db idpid st p).s with
  | null =>
    simp only [hs]
    exact cache_extends_trans h1 (putin_extends _ _ _ _)
  | symbol => simpa [hs] using h1
  | sym_name => simpa [hs] using h1

theorem data_user_fold_extends (db : SymbolDb) (w : World) (idpid : Int) (frames : List Nat)
    (st : DataFrames) :
    cache_extends st.parser (frames.foldl (data_user_frame db w idpid) st).parser :=
  fold_parser_rel cache_extends cache_extends_refl (fun _ _ _ h1 h2 => cache_extends_trans h1 h2)
    DataFrames.parser _ (data_user_frame_extends db w idpid) frames st

theorem data_kernel_fold_extends (db : SymbolDb) (pid : Int) (frames : List Nat)
    (st : DataFrames) :
    cache_extends st.parser (frames.foldl (data_kernel_frame db pid) st).parser :=
  fold_parser_rel cache_extends cache_extends_refl (fun _ _ _ h1 h2 => cache_extends_trans h1 h2)
    DataFrames.parser _ (data_kernel_frame_extends db pid) frames st

theorem flame_user_fold_extends (db : SymbolDb) (pid idpid : Int) (frames : List Nat)
    (st : FlameUser) :
    cache_extends st.parser (frames.foldl (flame_user_frame db pid idpid) st).parser :=
  fold_parser_rel cache_extends cache_extends_refl (fun _ _ _ h1 h2 => cache_extends_trans h1 h2)
    FlameUser.parser _ (flame_user_frame_extends db pid idpid) frames st

/-- The symbolization of a record by `data_save` keeps every entry of the cache. -/
theorem data_symbolize_extends (db : SymbolDb) (w : World) (L : bpf_loader) (T : Tables)
    (g : SymbolParser) (ip : List Nat) (d : pksid_count) :
    cache_extends g (data_symbolize db w L T g ip d).1.parser := by
  have hk : cache_extends g (data_kernel_section db L T g ip d).1.parser := by
    unfold data_kernel_section
    split
    · exact data_kernel_fold_extends db L.pid _ ⟨[], symbol.init, g, ""⟩
    · exact cache_extends_refl g
  unfold data_symbolize data_user_section
  simp only
  split
  · exact cache_extends_trans hk
      (data_user_fold_extends db w d.pid
        (live_frames ((bpf_map_lookup_elem T.trace d.usid).getD
          (data_kernel_section db L T g ip d).2))
        { (data_kernel_section db L T g ip d).1 with
          trace := (data_kernel_section db L T g ip d).1.trace ++ ["----------------"] })
  · exact hk

end CacheGrowth

section KernelScope

theorem kernel_scoped_refl (scope : Int) (g : SymbolParser) : kernel_scoped scope g g :=
  fun _ _ h => Or.inl h

theorem kernel_scoped_trans (scope : Int) (g1 g2 g3 : SymbolParser)
    (h1 : kernel_scoped scope g1 g2) (h2 : kernel_scoped scope g2 g3) :
    kernel_scoped scope g1 g3 := by
  intro k v h
  rcases h2 k v h with h | h
  · exact h1 k v h
  · exact Or.inr h

theorem data_kernel_frame_scoped (db : SymbolDb) (pid : Int) (st : DataFrames) (p : Nat) :
    kernel_scoped pid st.parser (data_kernel_frame db pid st p).parser := by
  rw [data_kernel_frame_symbols]
  cases db.resolveKernel p with
  | some r => exact fun _ _ h => Or.inl h
  | none =>
    intro k v h
    rcases putin_new_entry _ _ _ _ k v h with h | ⟨hk, hv⟩
    · exact Or.inl h
    · subst hk
      exact Or.inr ⟨rfl, hv⟩

theorem flame_kernel_frame_scoped (db : SymbolDb) (pid : Int) (st : FlameLine) (p : Nat) :
    kernel_scoped pid st.parser (flame_kernel_frame db pid st p).parser := by
  rw [flame_kernel_frame_symbols]
  cases db.resolveKernel p with
  | some r => exact fun _ _ h => Or.inl h
  | none =>
    intro k v h
    rcases putin_new_entry _ _ _ _ k v h with h | ⟨hk, hv⟩
    · exact Or.inl h
    · subst hk
      exact Or.inr ⟨rfl, hv⟩

/-- The kernel frames of a record of `data_save` add cache entries under the member `pid`
only. -/
theorem data_kernel_section_scoped (db : SymbolDb) (L : bpf_loader) (T : Tables)
    (g : SymbolParser) (ip : List Nat) (d : pksid_count) :
    kernel_scoped L.pid g (data_kernel_section db L T g ip d).1.parser := by
  unfold data_kernel_section
  split
  · exact fold_parser_rel (kernel_scoped L.pid) (kernel_scoped_refl L.pid)
      (kernel_scoped_trans L.pid) DataFrames.parser _ (data_kernel_frame_scoped db L.pid) _
      ⟨[], symbol.init, g, ""⟩
  · exact kernel_scoped_refl L.pid g

/-- The kernel frames of a key of `flame_save` add cache entries under the member `pid`
only. -/
theorem flame_kernel_section_scoped (db : SymbolDb) (L : bpf_loader) (T : Tables)
    (lp : FlameLoop) (id : psid) :
    kernel_scoped L.pid lp.parser (flame_kernel_section db L T lp id).1.parser := by
  unfold flame_kernel_section
  split
  · exact fold_parser_rel (kernel_scoped L.pid) (kernel_scoped_refl L.pid)
      (kernel_scoped_trans L.pid) FlameLine.parser _ (flame_kernel_frame_scoped db L.pid) _
      ⟨"", symbol.init, lp.parser⟩
  · exact kernel_scoped_refl L.pid lp.parser

theorem data_kernel_section_extends (db : SymbolDb) (L : bpf_loader) (T : Tables)
    (g : SymbolParser) (ip : List Nat) (d : pksid_count) :
    cache_extends g (data_kernel_section db L T g ip d).1.parser := by
  unfold data_kernel_section
  split
  · exact data_kernel_fold_extends db L.pid _ ⟨[], symbol.init, g, ""⟩
  · exact cache_extends_refl g

theorem flame_kernel_section_extends (db : SymbolDb) (L : bpf_loader) (T : Tables)
    (lp : FlameLoop) (id : psid) :
    cache_extends lp.parser (flame_kernel_section db L T lp id).1.parser := by
  unfold flame_kernel_section
  split
  · exact fold_parser_rel cache_extends cache_extends_refl
      (fun _ _ _ h1 h2 => cache_extends_trans h1 h2) FlameLine.parser _
      (flame_kernel_frame_extends db L.pid) _ ⟨"", symbol.init, lp.parser⟩
  · exact cache_extends_refl lp.parser

/-- A lookup under a pid other than `scope` sees no entry added under `scope`. -/
theorem lookup_other_scope (scope : Int) (g g2 : SymbolParser) (hext : cache_extends g g2)
    (hsc : kernel_scoped scope g g2) (idpid : Int) (a : Nat) (hne : idpid ≠ scope) :
    bpf_map_lookup_elem g2.cache (idpid, a) = bpf_map_lookup_elem g.cache (idpid, a) := by
  cases h2 : bpf_map_lookup_elem g2.cache (idpid, a) with
  | some v =>
    rcases hsc _ _ h2 with h | ⟨hk, _⟩
    · exact h.symm
    · exact absurd hk hne
  | none =>
    cases h : bpf_map_lookup_elem g.cache (idpid, a) with
    | none => rfl
    | some v => rw [hext _ _ h] at h2; cases h2

end KernelScope

section CacheClaims

/-- C16 (counterexample): with the pid filter set to process 1, the literal of the kernel
address 8196 is cached under pid 1, the pid of the sampled process; the lookup made for the
user address 8196 of process 1 then returns that entry, and the user frame is emitted from
it, where without the filter it is resolved to `u_fn`. -/
theorem C16_kernel_entry_under_sampled_pid :
    ex_loader_filter.pid = 1 ∧
    (data_kernel_section ex_db_ranges ex_loader_filter ex_tables_shared ex_symbols []
        ⟨1, 5, 10, 1⟩).1.parser.cache = [((1, 8196), "0x0000000000002004")] ∧
    (data_symbolize ex_db_ranges ex_world ex_loader_filter ex_tables_shared ex_symbols []
        ⟨1, 5, 10, 1⟩).1.trace
      = ["0x0000000000002004", "----------------", "0x0000000000002004 +0x2004"] ∧
    (data_symbolize ex_db_ranges ex_world ex_loader ex_tables_shared ex_symbols []
        ⟨1, 5, 10, 1⟩).1.trace
      = ["0x0000000000002004", "----------------", "u_fn +0x4"] ∧
    flame_text (flame_save ex_db_ranges ex_world ex_loader_filter ex_tables_shared ex_symbols
        ex_junk)
      = some "a:1;0x0000000000002004;----------------;0x0000000000002004; 1\n" ∧
    flame_text (flame_save ex_db_ranges ex_world ex_loader ex_tables_shared ex_symbols ex_junk)
      = some "a:1;u_fn;----------------;0x0000000000002004; 1\n" := by
  decide

/-- C16 (amended): every cache entry the kernel frames of the exporters write is the literal
of the address, stored under the member `pid` of the loader (the pid filter, -1 when none is
set); so the cache lookups for a pid other than the member `pid` return after the kernel
frames what they returned before them. -/
theorem C16_kernel_entries_under_member_pid (db : SymbolDb) (L : bpf_loader) (T : Tables) :
    (∀ (g : SymbolParser) (ip : List Nat) (d : pksid_count),
      kernel_scoped L.pid g (data_kernel_section db L T g ip d).1.parser ∧
      ∀ (idpid : Int) (a : Nat), idpid ≠ L.pid →
        bpf_map_lookup_elem (data_kernel_section db L T g ip d).1.parser.cache (idpid, a)
          = bpf_map_lookup_elem g.cache (idpid, a)) ∧
    (∀ (lp : FlameLoop) (id : psid),
      kernel_scoped L.pid lp.parser (flame_kernel_section db L T lp id).1.parser ∧
      ∀ (idpid : Int) (a : Nat), idpid ≠ L.pid →
        bpf_map_lookup_elem (flame_kernel_section db L T lp id).1.parser.cache (idpid, a)
          = bpf_map_lookup_elem lp.parser.cache (idpid, a)) :=
  ⟨fun g ip d => ⟨data_kernel_section_scoped db L T g ip d, fun idpid a hne =>
      lookup_other_scope L.pid _ _ (data_kernel_section_extends db L T g ip d)
        (data_kernel_section_scoped db L T g ip d) idpid a hne⟩,
    fun lp id => ⟨flame_kernel_section_scoped db L T lp id, fun idpid a hne =>
      lookup_other_scope L.pid _ _ (flame_kernel_section_extends db L T lp id)
        (flame_kernel_section_scoped db L T lp id) idpid a hne⟩⟩

/-- C16 (witness): without a pid filter, the kernel frames of the key of process 1 leave the
lookup for the user address 8196 of process 1 as it was. -/
theorem C16_kernel_entries_under_member_pid_witness :
    bpf_map_lookup_elem (data_kernel_section ex_db_ranges ex_loader ex_tables_shared ex_symbols
        [] ⟨1, 5, 10, 1⟩).1.parser.cache (1, 8196)
      = bpf_map_lookup_elem ex_symbols.cache (1, 8196) :=
  ((C16_kernel_entries_under_member_pid ex_db_ranges ex_loader ex_tables_shared).1
    ex_symbols [] ⟨1, 5, 10, 1⟩).2 1 8196 (by decide)

end CacheClaims

section Drivers

/-- C17 (the code at an attached on-CPU driver): after a successful `load()` and `attach()`
the first `detach()` destroys the binding 100 and closes the descriptor 7 and writes no
member, so a second `detach()` destroys the same binding and closes the same descriptor
again. A driver that was loaded and never attached closes the descriptor -1 at every
`detach()`. -/
theorem C17_on_cpu_detach_releases_again :
    on_cpu_loader.load ex_lib (on_cpu_loader.init (-1) (-1) true true) = (0, ex_on_cpu_loaded) ∧
    on_cpu_loader.attach ex_lib ex_on_cpu_loaded = Except.ok (0, ex_on_cpu_attached) ∧
    on_cpu_loader.detach ex_on_cpu_attached
      = Except.ok (ex_on_cpu_attached, [Release.bpf_link__destroy 100, Release.close 7]) ∧
    on_cpu_loader.detach_again (on_cpu_loader.detach ex_on_cpu_attached)
      = Except.ok (ex_on_cpu_attached, [Release.bpf_link__destroy 100, Release.close 7]) ∧
    on_cpu_loader.detach_again (on_cpu_loader.detach ex_on_cpu_loaded)
      = Except.ok (ex_on_cpu_loaded, [Release.close (-1)]) :=
  ⟨rfl, rfl, rfl, rfl, rfl⟩

/-- C18: for each of the four drivers and from every state, `unload()` returns with the
skeleton handle null, having destroyed the skeleton when the handle was not null and released
nothing otherwise; a second `unload()` releases nothing and leaves the state as it is. -/
theorem C18_unload_nulls_handle_and_is_idempotent :
    (∀ s : on_cpu_loader, (on_cpu_loader.unload s).1.skel = none ∧
      (s.skel = none → on_cpu_loader.unload s = (s, [])) ∧
      on_cpu_loader.unload (on_cpu_loader.unload s).1 = ((on_cpu_loader.unload s).1, [])) ∧
    (∀ s : off_cpu_loader, (off_cpu_loader.unload s).1.skel = none ∧
      (s.skel = none → off_cpu_loader.unload s = (s, [])) ∧
      off_cpu_loader.unload (off_cpu_loader.unload s).1 = ((off_cpu_loader.unload s).1, [])) ∧
    (∀ s : mem_loader, (mem_loader.unload s).1.skel = none ∧
      (s.skel = none → mem_loader.unload s = (s, [])) ∧
      mem_loader.unload (mem_loader.unload s).1 = ((mem_loader.unload s).1, [])) ∧
    (∀ s : io_loader, (io_loader.unload s).1.skel = none ∧
      (s.skel = none → io_loader.unload s = (s, [])) ∧
      io_loader.unload (io_loader.unload s).1 = ((io_loader.unload s).1, [])) := by
  refine ⟨fun s => ⟨rfl, ?_, rfl⟩, fun s => ⟨rfl, ?_, rfl⟩, fun s => ⟨rfl, ?_, rfl⟩,
    fun s => ⟨rfl, ?_, rfl⟩⟩
  · intro h
    cases s
    simp_all [on_cpu_loader.unload]
  · intro h
    cases s
    simp_all [off_cpu_loader.unload]
  · intro h
    cases s
    simp_all [mem_loader.unload]
  · intro h
    cases s
    simp_all [io_loader.unload]

/-- C18 (witness): a driver that was never loaded. -/
theorem C18_unload_nulls_handle_and_is_idempotent_witness :
    on_cpu_loader.unload (on_cpu_loader.init (-1) (-1) true true)
      = (on_cpu_loader.init (-1) (-1) true true, []) :=
  (C18_unload_nulls_handle_and_is_idempotent.1
    (on_cpu_loader.init (-1) (-1) true true)).2.1 rfl

/-- C19 (the code at an attached memory driver): after a successful `load()` and `attach()`
the skeleton holds the ten bindings 101 to 110 made by `attach()`; `detach()` destroys the
bindings of `free_enter`, `malloc_exit` and `malloc_enter` and no other, so the seven bindings
of the calloc, realloc, mmap and munmap probes are not destroyed. -/
theorem C19_mem_detach_destroys_three_of_ten :
    ∃ (s1 s2 : mem_loader) (sk : mem_count_bpf) (rel : List Release),
      mem_loader.load ex_lib (mem_loader.init (-1) (-1) true true "libc.so.6") = (0, s1) ∧
      mem_loader.attach ex_lib s1 = Except.ok (0, s2) ∧
      s2.skel = some sk ∧
      mem_bindings sk = [101, 102, 103, 104, 105, 106, 107, 108, 109, 110] ∧
      mem_loader.detach s2 = Except.ok (s2, rel) ∧
      rel = [Release.bpf_link__destroy 107, Release.bpf_link__destroy 102,
        Release.bpf_link__destroy 101] ∧
      (mem_bindings sk).filter (fun l => decide (Release.bpf_link__destroy l ∉ rel))
        = [103, 104, 105, 106, 108, 109, 110] :=
  ⟨_, _, _, _, rfl, rfl, rfl, rfl, rfl, rfl, by decide⟩

end Drivers

section CountLogLoop

/-- The loop of `count_log` ends when it has fuel for the time left: it runs the intervals
whose boundary condition holds, up to the first boundary where it fails. -/
theorem count_log_loop_spec (L : bpf_loader) (tl : Timeline) (count0 : Nat)
    (hfd : 0 ≤ L.count_fd) (hnd : ∀ i, (tl.count i).keys.Nodup) :
    ∀ (fuel i : Nat) (time : Int) (printed : List (List pksid_count)), time.toNat < fuel →
      ∃ (n : Nat) (outs : List (List pksid_count)),
        count_log_loop L tl count0 fuel i time printed
          = Except.ok ⟨time - 5 * (n : Int), printed ++ outs⟩ ∧
        outs.length = n ∧
        (∀ j, j < n → count_log_continues L tl (i + j) (time - 5 * (j : Int)) = true) ∧
        count_log_continues L tl (i + n) (time - 5 * (n : Int)) = false ∧
        (∀ j, j < n → ∃ D, sortD L.count_fd (tl.count (i + j)) count0 = some (some D) ∧
          outs.get? j = some D) := by
  intro fuel
  induction fuel with
  | zero => intro i time printed h; omega
  | succ fuel ih =>
    intro i time printed hfuel
    by_cases hc : count_log_continues L tl i time = true
    · have htime : 0 < time := by
        simp only [count_log_continues, Bool.and_eq_true, decide_eq_true_eq] at hc
        exact hc.2.1
      have hD := sortD_returns L.count_fd (tl.count i) count0 hfd (hnd i)
      obtain ⟨n, outs, hrun, hlen, hcont, hstop, hout⟩ :=
        ih (i + 1) (time - 5)
          (printed ++ [((visited (tl.count i) psid_zero).foldl (sortD_step (tl.count i))
            ⟨[], count0⟩).D]) (by omega)
      refine ⟨n + 1, ((visited (tl.count i) psid_zero).foldl (sortD_step (tl.count i))
        ⟨[], count0⟩).D :: outs, ?_, by simp [hlen], ?_, ?_, ?_⟩
      · simp only [count_log_loop, hc, if_true, hD, hrun]
        have e1 : time - 5 - 5 * (n : Int) = time - 5 * ((n + 1 : Nat) : Int) := by
          push_cast; ring
        rw [e1, List.append_assoc]
        rfl
      · intro j hj
        cases j with
        | zero => simpa using hc
        | succ j =>
          have := hcont j (by omega)
          have e1 : time - 5 - 5 * (j : Int) = time - 5 * ((j + 1 : Nat) : Int) := by
            push_cast; ring
          rw [e1, Nat.add_assoc, Nat.add_comm 1 j] at this
          exact this
      · have e1 : time - 5 - 5 * (n : Int) = time - 5 * ((n + 1 : Nat) : Int) := by
          push_cast; ring
        rw [e1, Nat.add_assoc, Nat.add_comm 1 n] at hstop
        exact hstop
      · intro j hj
        cases j with
        | zero => exact ⟨_, hD, rfl⟩
        | succ j =>
          obtain ⟨D, h1, h2⟩ := hout j (by omega)
          rw [Nat.add_assoc, Nat.add_comm 1 j] at h1
          exact ⟨D, h1, by simpa using h2⟩
    · have hc2 : count_log_continues L tl i time = false := by
        cases h : count_log_continues L tl i time with
        | true => exact absurd h hc
        | false => rfl
      refine ⟨0, [], ?_, rfl, fun j hj => by omega, by simpa using hc2, fun j hj => by omega⟩
      simp [count_log_loop, hc2]

end CountLogLoop

section CountLogClaim

/-- C20: with the count table opened (and distinct keys in every snapshot of it),
`count_log(T)` returns for every `T`, every cancellation flag and every liveness probe. It
runs `n` intervals, each printing the sorted aggregate of the table, where the loop condition
(not cancelled, remaining time positive, and the process alive when a pid was requested) holds
at the boundaries `0 .. n - 1` and fails at the boundary `n`, and it returns `T - 5 * n`.
Never cancelled and with the target alive, `n` is `⌈T / 5⌉` (0 for `T ≤ 0`); with `T ≤ 0` or
the requested process dead at the first check, no interval is run and `T` is returned. -/
theorem C20_count_log_intervals (L : bpf_loader) (tl : Timeline) (count0 : Nat) (T : Int)
    (hfd : 0 ≤ L.count_fd) (hnd : ∀ i, (tl.count i).keys.Nodup) :
    ∃ (n : Nat) (printed : List (List pksid_count)),
      count_log L tl count0 T = Except.ok ⟨T - 5 * (n : Int), printed⟩ ∧
      printed.length = n ∧
      (∀ j, j < n → tl.exiting j = false ∧ 0 < T - 5 * (j : Int) ∧
        (L.pid < 0 ∨ tl.alive j = true)) ∧
      ¬ (tl.exiting n = false ∧ 0 < T - 5 * (n : Int) ∧ (L.pid < 0 ∨ tl.alive n = true)) ∧
      (∀ j, j < n → ∃ D, sortD L.count_fd (tl.count j) count0 = some (some D) ∧
        printed.get? j = some D) ∧
      ((∀ i, tl.exiting i = false) → (∀ i, L.pid < 0 ∨ tl.alive i = true) →
        n = ((T + 4) / 5).toNat) ∧
      ((T ≤ 0 ∨ (0 ≤ L.pid ∧ tl.alive 0 = false)) →
        n = 0 ∧ count_log L tl count0 T = Except.ok ⟨T, []⟩) := by
  have hcond : ∀ (i : Nat) (t : Int), count_log_continues L tl i t = true ↔
      (tl.exiting i = false ∧ 0 < t ∧ (L.pid < 0 ∨ tl.alive i = true)) := by
    intro i t
    simp [count_log_continues]
  obtain ⟨n, outs, hrun, hlen, hcont, hstop, hout⟩ :=
    count_log_loop_spec L tl count0 hfd hnd (T.toNat + 1) 0 T [] (by omega)
  have hneg : ¬ L.count_fd < 0 := by omega
  have hlog : count_log L tl count0 T = Except.ok ⟨T - 5 * (n : Int), outs⟩ := by
    simp only [count_log, hneg, if_false, hrun, List.nil_append]
  have hcont2 : ∀ j, j < n → tl.exiting j = false ∧ 0 < T - 5 * (j : Int) ∧
      (L.pid < 0 ∨ tl.alive j = true) := by
    intro j hj
    have := hcont j hj
    rw [Nat.zero_add] at this
    exact (hcond j _).mp this
  have hstop2 : ¬ (tl.exiting n = false ∧ 0 < T - 5 * (n : Int) ∧
      (L.pid < 0 ∨ tl.alive n = true)) := by
    intro h
    rw [Nat.zero_add] at hstop
    have := (hcond n _).mpr h
    rw [hstop] at this
    cases this
  refine ⟨n, outs, hlog, hlen, hcont2, hstop2, ?_, ?_, ?_⟩
  · intro j hj
    obtain ⟨D, h1, h2⟩ := hout j hj
    rw [Nat.zero_add] at h1
    exact ⟨D, h1, h2⟩
  · intro hex hal
    have hlast : ¬ 0 < T - 5 * (n : Int) := fun h => hstop2 ⟨hex n, h, hal n⟩
    cases n with
    | zero =>
      simp only [Nat.cast_zero, mul_zero, sub_zero] at hlast
      omega
    | succ m =>
      have hprev := (hcont2 m (by omega)).2.1
      push_cast at hlast
      omega
  · intro h
    have hn : n = 0 := by
      cases n with
      | zero => rfl
      | succ m =>
        have h0 := hcont2 0 (by omega)
        simp only [Nat.cast_zero, mul_zero, sub_zero] at h0
        rcases h with h | ⟨hp, ha⟩
        · omega
        · rcases h0.2.2 with h1 | h1
          · omega
          · rw [ha] at h1; cases h1
    subst hn
    have hnil : outs = [] := List.length_eq_zero.mp hlen
    refine ⟨rfl, ?_⟩
    rw [hlog, hnil]
    simp

/-- C20 (witness): nobody cancels and no pid is requested; `count_log(7)` on the tables of
the example. -/
theorem C20_count_log_intervals_witness :
    ∃ (n : Nat) (printed : List (List pksid_count)),
      count_log ex_loader ex_timeline 0 7 = Except.ok ⟨7 - 5 * (n : Int), printed⟩ ∧
      printed.length = n ∧
      (∀ j, j < n → ex_timeline.exiting j = false ∧ 0 < (7 : Int) - 5 * (j : Int) ∧
        (ex_loader.pid < 0 ∨ ex_timeline.alive j = true)) ∧
      ¬ (ex_timeline.exiting n = false ∧ 0 < (7 : Int) - 5 * (n : Int) ∧
        (ex_loader.pid < 0 ∨ ex_timeline.alive n = true)) ∧
      (∀ j, j < n → ∃ D, sortD ex_loader.count_fd (ex_timeline.count j) 0 = some (some D) ∧
        printed.get? j = some D) ∧
      ((∀ i, ex_timeline.exiting i = false) →
        (∀ i, ex_loader.pid < 0 ∨ ex_timeline.alive i = true) →
        n = (((7 : Int) + 4) / 5).toNat) ∧
      (((7 : Int) ≤ 0 ∨ (0 ≤ ex_loader.pid ∧ ex_timeline.alive 0 = false)) →
        n = 0 ∧ count_log ex_loader ex_timeline 0 7 = Except.ok ⟨7, []⟩) :=
  C20_count_log_intervals ex_loader ex_timeline 0 7 (by decide)
    (fun _ => (by decide : ex_tables.count.keys.Nodup))

end CountLogClaim

section FoldedLineShape

/-- C21 (counterexample): the pid→name table holds the name `kworker/0:1` for process 7; the
line `flame_save` writes for its key starts with that name, and since the name holds a `:`
the line does not match `^[^:]+:[0-9]+;.*\s[0-9]+$`, while the line of a process named `a`
does. And with a name that holds a line break the text of one key has two lines, the first
of which does not match. -/
theorem C21_name_with_colon_breaks_pattern :
    flame_text (flame_save ex_db ex_world ex_loader ex_tables_kworker ex_symbols ex_junk)
      = some "kworker/0:1:7;u_root;u_leaf;----------------;[MISSING KERNEL STACK]; 3\n" ∧
    split_lines
        "kworker/0:1:7;u_root;u_leaf;----------------;[MISSING KERNEL STACK]; 3\n".data
      = ["kworker/0:1:7;u_root;u_leaf;----------------;[MISSING KERNEL STACK]; 3".data] ∧
    line_matches "kworker/0:1:7;u_root;u_leaf;----------------;[MISSING KERNEL STACK]; 3".data
      = false ∧
    line_matches "a:7;u_root;u_leaf;----------------;[MISSING KERNEL STACK]; 3".data
      = true ∧
    ex_tables_line_break.count.keys.length = 1 ∧
    flame_text (flame_save ex_db ex_world ex_loader ex_tables_line_break ex_symbols ex_junk)
      = some "a\nb:7;u_root;u_leaf;----------------;[MISSING KERNEL STACK]; 3\n" ∧
    split_lines "a\nb:7;u_root;u_leaf;----------------;[MISSING KERNEL STACK]; 3\n".data
      = ["a".data, "b:7;u_root;u_leaf;----------------;[MISSING KERNEL STACK]; 3".data] ∧
    line_matches "a".data = false := by
  decide

theorem takeWhile_append_stop (p : Char → Bool) (c : Char) (r : List Char) (hc : p c = false) :
    ∀ l : List Char, (∀ x ∈ l, p x = true) →
      (l ++ c :: r).takeWhile p = l ∧ (l ++ c :: r).dropWhile p = c :: r
  | [], _ => by simp [List.takeWhile, List.dropWhile, hc]
  | x :: l, hl => by
    have hx : p x = true := hl x (List.mem_cons_self _ _)
    obtain ⟨h1, h2⟩ := takeWhile_append_stop p c r hc l
      (fun y hy => hl y (List.mem_cons_of_mem _ hy))
    simp [List.takeWhile, List.dropWhile, hx, h1, h2]

theorem decimal_not_lf (c : Char) (h : is_decimal c = true) : c ≠ '\n' := by
  intro e
  rw [e] at h
  exact absurd h (by decide)

/-- A line made of a non-empty name without `:`, then `:`, digits, `;`, any frames, a space
and digits matches the pattern, when neither the name nor the frames hold a line break. -/
theorem line_matches_parts (name pid body cnt : List Char)
    (hn : name ≠ []) (hn2 : ∀ c ∈ name, c ≠ ':') (hn3 : ∀ c ∈ name, c ≠ '\n')
    (hp : pid ≠ []) (hp2 : ∀ c ∈ pid, is_decimal c = true)
    (hb : ∀ c ∈ body, c ≠ '\n')
    (hc : cnt ≠ []) (hc2 : ∀ c ∈ cnt, is_decimal c = true) :
    line_matches (name ++ ':' :: (pid ++ ';' :: (body ++ ' ' :: cnt))) = true := by
  obtain ⟨a1, a2⟩ := takeWhile_append_stop (fun c => c != ':') ':'
    (pid ++ ';' :: (body ++ ' ' :: cnt)) (by decide) name
    (fun x hx => by simpa using hn2 x hx)
  obtain ⟨b1, b2⟩ := takeWhile_append_stop is_decimal ';' (body ++ ' ' :: cnt) (by decide) pid hp2
  have hrev : (body ++ ' ' :: cnt).reverse = cnt.reverse ++ ' ' :: body.reverse := by simp
  obtain ⟨c1, c2⟩ := takeWhile_append_stop is_decimal ' ' body.reverse (by decide) cnt.reverse
    (fun x hx => hc2 x (List.mem_reverse.mp hx))
  have htail : tail_matches (body ++ ' ' :: cnt) = true := by
    unfold tail_matches
    rw [hrev, c1, c2]
    have : is_space ' ' = true := by decide
    simp [this, hc]
  have hall : (name ++ ':' :: (pid ++ ';' :: (body ++ ' ' :: cnt))).all (fun c => c != '\n')
      = true := by
    rw [List.all_eq_true]
    intro c hmem
    have hne : c ≠ '\n' := by
      simp only [List.mem_append, List.mem_cons] at hmem
      rcases hmem with h | h | h | h | h | h | h
      · exact hn3 c h
      · rw [h]; decide
      · exact decimal_not_lf c (hp2 c h)
      · rw [h]; decide
      · exact hb c h
      · rw [h]; decide
      · exact decimal_not_lf c (hc2 c h)
    simpa using hne
  unfold line_matches
  rw [hall, a1, a2]
  simp only [Bool.true_and]
  rw [b1, b2]
  simp [hn, hp, htail]

theorem toDigitsCore_ne_nil :
    ∀ (fuel n : Nat) (ds : List Char), fuel ≠ 0 ∨ ds ≠ [] →
      Nat.toDigitsCore 10 fuel n ds ≠ [] := by
  intro fuel
  induction fuel with
  | zero =>
    intro n ds h
    rcases h with h | h
    · exact absurd rfl h
    · simpa [Nat.toDigitsCore] using h
  | succ fuel ih =>
    intro n ds _
    unfold Nat.toDigitsCore
    simp only
    split
    · simp
    · exact ih _ _ (Or.inr (by simp))

/-- A natural number is written with at least one digit. -/
theorem toString_nat_ne_nil (n : Nat) : (toString n).data ≠ [] := by
  rw [toString_nat_data]
  exact toDigitsCore_ne_nil (n + 1) n [] (Or.inl (by omega))

/-- The lines of a text that starts with a line and its line break. -/
theorem split_lines_from_line (rest : List Char) :
    ∀ (content cur : List Char), (∀ c ∈ content, c ≠ '\n') →
      split_lines_from cur (content ++ '\n' :: rest)
        = (cur.reverse ++ content) :: split_lines_from [] rest
  | [], cur, _ => by simp [split_lines_from]
  | x :: content, cur, h => by
    have hx : x ≠ '\n' := h x (List.mem_cons_self _ _)
    have ih := split_lines_from_line rest content (x :: cur)
      (fun c hc => h c (List.mem_cons_of_mem _ hc))
    simp [split_lines_from, hx, ih]

theorem foldl_append_data (l : List String) :
    ∀ acc : String, (l.foldl (fun r s => r ++ s) acc).data
      = acc.data ++ (l.map String.data).flatten := by
  induction l with
  | nil => intro acc; simp
  | cons x l ih => intro acc; simp [ih, String.data_append]

/-- The characters of `String.join`. -/
theorem join_data (l : List String) : (String.join l).data = (l.map String.data).flatten := by
  unfold String.join
  rw [foldl_append_data]
  rfl

/-- A text made of lines without line breaks, each followed by a line break, has these
lines. -/
theorem split_lines_join (lines : List String) (h : ∀ l ∈ lines, no_lf l) :
    split_lines (String.join (lines.map (fun l => l ++ "\n"))).data
      = lines.map String.data := by
  rw [join_data]
  unfold split_lines
  induction lines with
  | nil => simp [split_lines_from]
  | cons l lines ih =>
    have hl : ∀ c ∈ l.data, c ≠ '\n' := h l (List.mem_cons_self _ _)
    have e : ((List.map (fun l => l ++ "\n") (l :: lines)).map String.data).flatten
        = l.data ++ '\n' :: ((List.map (fun l => l ++ "\n") lines).map String.data).flatten := by
      simp [String.data_append]
    rw [e, split_lines_from_line _ l.data [] hl, ih (fun x hx => h x (List.mem_cons_of_mem _ hx))]
    simp

end FoldedLineShape

section FoldedLineBreaks

theorem no_lf_append {a b : String} (ha : no_lf a) (hb : no_lf b) : no_lf (a ++ b) := by
  intro c hc
  rw [String.data_append, List.mem_append] at hc
  rcases hc with h | h
  · exact ha c h
  · exact hb c h

theorem hex_digit_not_lf (n : Nat) (h : n < 16) : Nat.digitChar n ≠ '\n' := by
  interval_cases n <;> decide

theorem toDigitsCore_hex_not_lf :
    ∀ (fuel n : Nat) (ds : List Char), (∀ c ∈ ds, c ≠ '\n') →
      ∀ c ∈ Nat.toDigitsCore 16 fuel n ds, c ≠ '\n' := by
  intro fuel
  induction fuel with
  | zero => intro n ds h c hc; exact h c (by simpa [Nat.toDigitsCore] using hc)
  | succ fuel ih =>
    intro n ds h c hc
    unfold Nat.toDigitsCore at hc
    simp only at hc
    have hcons : ∀ x ∈ Nat.digitChar (n % 16) :: ds, x ≠ '\n' := by
      intro x hx
      rcases List.mem_cons.mp hx with rfl | hx
      · exact hex_digit_not_lf _ (Nat.mod_lt _ (by decide))
      · exact h x hx
    by_cases h0 : n / 16 = 0
    · rw [if_pos h0] at hc
      exact hcons c hc
    · rw [if_neg h0] at hc
      exact ih _ _ hcons c hc

/-- An address printed as `0x%016llx` holds no line break. -/
theorem sprintf_0x016llx_no_lf (p : Nat) : no_lf (sprintf_0x016llx p) := by
  intro c hc
  unfold sprintf_0x016llx at hc
  rw [String.data_append] at hc
  simp only [List.mem_append, List.mem_replicate] at hc
  rcases hc with h | h | h
  · intro e
    rw [e] at h
    exact absurd h (by decide)
  · rw [h.2]; decide
  · exact toDigitsCore_hex_not_lf _ _ [] (fun _ hx => absurd hx (List.not_mem_nil _)) c h

theorem dots_no_lf : ∀ n : Nat, no_lf (dots n)
  | 0 => by intro c hc; simp [dots] at hc
  | n + 1 => by
    unfold dots
    exact no_lf_append (dots_no_lf n) (by intro c hc; simp at hc; rcases hc with h | h <;> rw [h] <;> decide)

theorem putin_clean (g : SymbolParser) (pid : Int) (ip : Nat) (name : String)
    (hg : cache_clean g) (hn : no_lf name) : cache_clean (g.putin_symbol_cache pid ip name) := by
  intro k v h
  rcases putin_new_entry g pid ip name k v h with h1 | ⟨_, h2⟩
  · exact hg k v h1
  · rw [h2]; exact hn

theorem semicolon_no_lf : no_lf ";" := by
  intro c hc
  have : c = ';' := by simpa using hc
  rw [this]; decide

/-- A kernel frame of `flame_save` brings no line break into the line, the symbol record or
the cache. -/
theorem flame_kernel_frame_clean (db : SymbolDb) (hdb : db_clean db) (pid : Int)
    (st : FlameLine) (p : Nat) (h : st.clean) : (flame_kernel_frame db pid st p).clean := by
  obtain ⟨h1, h2, h3⟩ := h
  unfold flame_kernel_frame SymbolParser.find_kernel_symbol
  simp only [symbol.reset]
  cases hr : db.resolveKernel p with
  | some r =>
    have hn : no_lf r.1 := hdb.1 p r hr
    simp only [if_true]
    exact ⟨no_lf_append (no_lf_append hn semicolon_no_lf) h1, hn, h3⟩
  | none =>
    simp only [Bool.false_eq_true, if_false]
    refine ⟨no_lf_append (no_lf_append (sprintf_0x016llx_no_lf p) semicolon_no_lf) h1, h2, ?_⟩
    exact putin_clean _ _ _ _ h3 (sprintf_0x016llx_no_lf p)

end FoldedLineBreaks

section FoldedLineBreaksUser

theorem flame_user_lookup_clean (db : SymbolDb) (hdb : db_clean db) (idpid : Int)
    (st : FlameUser) (p : Nat) (h : st.clean) : (flame_user_lookup db idpid st p).clean := by
  obtain ⟨h1, h2, h3, h4⟩ := h
  unfold flame_user_lookup SymbolParser.find_symbol_in_cache
  simp only
  cases hc : bpf_map_lookup_elem st.parser.cache (idpid, p) with
  | some name =>
    exact ⟨h1, h2, h4 _ _ hc, h4⟩
  | none =>
    simp only [SymbolParser.resolve_user, symbol.reset]
    cases hr : db.resolveUser idpid p with
    | some r =>
      have hn : no_lf r.1 := hdb.2 idpid p r hr
      simp only [if_true]
      exact ⟨h1, hn, h3, putin_clean _ _ _ _ h4 hn⟩
    | none =>
      simp only [Bool.false_eq_true, if_false]
      exact ⟨h1, h2, h3, h4⟩

/-- A user frame of `flame_save` brings no line break into the line, the symbol record, the
string found in the cache or the cache. -/
theorem flame_user_frame_clean (db : SymbolDb) (hdb : db_clean db) (pid idpid : Int)
    (st : FlameUser) (p : Nat) (h : st.clean) : (flame_user_frame db pid idpid st p).clean := by
  obtain ⟨h1, h2, h3, h4⟩ := flame_user_lookup_clean db hdb idpid st p h
  unfold flame_user_frame
  simp only
  cases hs : (flame_user_lookup db idpid st p).s with
  | null =>
    exact ⟨no_lf_append (no_lf_append (sprintf_0x016llx_no_lf p) semicolon_no_lf) h1, h2, h3,
      putin_clean _ _ _ _ h4 (sprintf_0x016llx_no_lf p)⟩
  | symbol => exact ⟨no_lf_append (no_lf_append h3 semicolon_no_lf) h1, h2, h3, h4⟩
  | sym_name => exact ⟨no_lf_append (no_lf_append h2 semicolon_no_lf) h1, h2, h3, h4⟩

theorem foldl_kernel_clean (db : SymbolDb) (hdb : db_clean db) (pid : Int) :
    ∀ (ps : List Nat) (st : FlameLine), st.clean →
      (ps.foldl (flame_kernel_frame db pid) st).clean
  | [], _, h => h
  | p :: ps, st, h =>
    foldl_kernel_clean db hdb pid ps _ (flame_kernel_frame_clean db hdb pid st p h)

theorem foldl_user_clean (db : SymbolDb) (hdb : db_clean db) (pid idpid : Int) :
    ∀ (ps : List Nat) (st : FlameUser), st.clean →
      (ps.foldl (flame_user_frame db pid idpid) st).clean
  | [], _, h => h
  | p :: ps, st, h =>
    foldl_user_clean db hdb pid idpid ps _ (flame_user_frame_clean db hdb pid idpid st p h)

theorem text_no_lf (s : String) (h : s.data.all (fun c => c != '\n') = true) : no_lf s := by
  intro c hc
  have := List.all_eq_true.mp h c hc
  simpa using this

/-- The kernel section of a key brings no line break. -/
theorem flame_kernel_section_clean (db : SymbolDb) (hdb : db_clean db) (L : bpf_loader)
    (T : Tables) (lp : FlameLoop) (id : psid) (hg : cache_clean lp.parser) :
    (flame_kernel_section db L T lp id).1.clean := by
  have hinit : no_lf symbol.init.name := text_no_lf _ (by decide)
  have hempty : no_lf "" := text_no_lf "" (by decide)
  have hmiss : no_lf ("[MISSING KERNEL STACK];" ++ "") := text_no_lf _ (by decide)
  unfold flame_kernel_section
  split
  · exact foldl_kernel_clean db hdb L.pid _ _ ⟨hempty, hinit, hg⟩
  · exact ⟨hmiss, hinit, hg⟩

/-- The user section of a key brings no line break. -/
theorem flame_user_section_clean (db : SymbolDb) (hdb : db_clean db) (L : bpf_loader)
    (T : Tables) (k : FlameLine) (ip : List Nat) (line : String) (id : psid)
    (hk : k.clean) (hl : no_lf line) :
    (flame_user_section db L T k ip line id).1.clean := by
  have hempty : no_lf "" := text_no_lf "" (by decide)
  have hmiss : no_lf "[MISSING USER STACK];" := text_no_lf _ (by decide)
  unfold flame_user_section
  split
  · exact foldl_user_clean db hdb L.pid id.pid _ _ ⟨hl, hk.2.1, hempty, hk.2.2⟩
  · exact ⟨no_lf_append hmiss hl, hk.2.1, hempty, hk.2.2⟩

theorem flame_key_symbols (db : SymbolDb) (L : bpf_loader) (T : Tables) (max_deep : Int)
    (lp : FlameLoop) (id : psid) :
    (flame_key db L T max_deep lp id).parser
      = (flame_user_section db L T (flame_kernel_section db L T lp id).1
          (flame_kernel_section db L T lp id).2
          ("----------------;" ++ (flame_kernel_section db L T lp id).1.line) id).1.parser := rfl

/-- The chunk `flame_key` writes for a key of the count table whose process has a name: the
line of the key and a newline; the frames hold no line break when no symbol name does, and
neither does the cache afterwards. -/
theorem flame_key_line (db : SymbolDb) (hdb : db_clean db) (L : bpf_loader) (T : Tables)
    (max_deep : Int) (lp : FlameLoop) (id : psid) (hg : cache_clean lp.parser)
    (h : id ∈ T.count.keys) (hn : id.pid ∈ T.comm.keys) :
    ∃ body, no_lf body ∧ cache_clean (flame_key db L T max_deep lp id).parser ∧
      (flame_key db L T max_deep lp id).tex
        = lp.tex ++ [flame_line_content T body id ++ "\n"] := by
  obtain ⟨c, hc⟩ := lookup_of_mem_keys T.count id h
  obtain ⟨name, hname⟩ := lookup_of_mem_keys T.comm id.pid hn
  have hk := flame_kernel_section_clean db hdb L T lp id hg
  have hu := flame_user_section_clean db hdb L T (flame_kernel_section db L T lp id).1
    (flame_kernel_section db L T lp id).2
    ("----------------;" ++ (flame_kernel_section db L T lp id).1.line) id hk
    (no_lf_append (text_no_lf "----------------;" (by decide)) hk.1)
  rw [flame_key_tex, flame_key_symbols]
  refine ⟨dots (flame_pad_count max_deep
      (flame_user_section db L T (flame_kernel_section db L T lp id).1
        (flame_kernel_section db L T lp id).2
        ("----------------;" ++ (flame_kernel_section db L T lp id).1.line) id).1.deep) ++
    (flame_user_section db L T (flame_kernel_section db L T lp id).1
      (flame_kernel_section db L T lp id).2
      ("----------------;" ++ (flame_kernel_section db L T lp id).1.line) id).1.line,
    no_lf_append (dots_no_lf _) hu.1, hu.2.2.2, ?_⟩
  simp only [flame_line_content, comm_of, flame_count_field, hc, hname, Option.getD_some,
    Option.map_some', String.append_assoc]

/-- The main loop writes the line of each key, in the order of the keys. -/
theorem flame_fold_lines (db : SymbolDb) (hdb : db_clean db) (L : bpf_loader) (T : Tables)
    (max_deep : Int) :
    ∀ (ks : List psid) (lp : FlameLoop), cache_clean lp.parser →
      (∀ id ∈ ks, id ∈ T.count.keys) → (∀ id ∈ ks, id.pid ∈ T.comm.keys) →
      ∃ bodies : List String, bodies.length = ks.length ∧ (∀ b ∈ bodies, no_lf b) ∧
        (ks.foldl (flame_key db L T max_deep) lp).tex = lp.tex ++
          List.zipWith (fun b id => flame_line_content T b id ++ "\n") bodies ks := by
  intro ks
  induction ks with
  | nil => intro lp _ _ _; exact ⟨[], rfl, by simp, by simp⟩
  | cons id ks ih =>
    intro lp hg hk hn
    obtain ⟨b, hb1, hb2, hb⟩ := flame_key_line db hdb L T max_deep lp id hg
      (hk id (List.mem_cons_self _ _)) (hn id (List.mem_cons_self _ _))
    obtain ⟨bs, hl, hclean, hbs⟩ := ih (flame_key db L T max_deep lp id) hb2
      (fun k hk2 => hk k (List.mem_cons_of_mem _ hk2))
      (fun k hk2 => hn k (List.mem_cons_of_mem _ hk2))
    refine ⟨b :: bs, by simp [hl], ?_, ?_⟩
    · intro x hx
      rcases List.mem_cons.mp hx with rfl | hx
      · exact hb1
      · exact hclean x hx
    · simp only [List.foldl_cons, List.zipWith_cons_cons]
      rw [hbs, hb]
      simp

end FoldedLineBreaksUser

section FoldedLines

theorem mem_keys_of_lookup {K V : Type} [DecidableEq K] (m : BpfMap K V) (k : K) (v : V)
    (h : bpf_map_lookup_elem m k = some v) : k ∈ m.keys := by
  induction m with
  | nil => simp [bpf_map_lookup_elem] at h
  | cons e m ih =>
    obtain ⟨k0, v0⟩ := e
    by_cases hk : k0 = k
    · simp [BpfMap.keys, hk]
    · have hm : bpf_map_lookup_elem m k = some v := by
        simpa [bpf_map_lookup_elem, hk] using h
      have := ih hm
      simp only [BpfMap.keys, List.map_cons, List.mem_cons] at this ⊢
      exact Or.inr this

theorem toString_int_no_lf (i : Int) : no_lf (toString i) := by
  intro c hc
  rcases toString_int_chars i c hc with h | h
  · exact decimal_not_lf c h
  · rw [h]; decide

/-- The line of a key holds no line break when the name of its process and its frames hold
none. -/
theorem flame_line_content_no_lf (T : Tables) (body : String) (id : psid)
    (hname : no_lf (comm_of T id.pid)) (hbody : no_lf body) :
    no_lf (flame_line_content T body id) := by
  unfold flame_line_content flame_count_field
  exact no_lf_append (no_lf_append (no_lf_append (no_lf_append (no_lf_append
    (no_lf_append hname (text_no_lf ":" (by decide))) (toString_int_no_lf _)) semicolon_no_lf)
    hbody) (text_no_lf " " (by decide))) (toString_int_no_lf _)

/-- The line of a key whose process has a non-empty name without `:` or line break, whose
frames hold no line break, whose pid is not negative and whose count field is a natural
number matches the pattern. -/
theorem flame_line_content_matches (T : Tables) (body : String) (id : psid) (name : String)
    (c : Nat) (hname : bpf_map_lookup_elem T.comm id.pid = some name)
    (hfield : flame_count_field T id = toString c)
    (hne : name ≠ "") (hcolon : ∀ x ∈ name.data, x ≠ ':') (hlf : no_lf name)
    (hbody : no_lf body) (hpid : 0 ≤ id.pid) :
    line_matches (flame_line_content T body id).data = true := by
  obtain ⟨m, hm⟩ : ∃ m : Nat, id.pid = Int.ofNat m := ⟨id.pid.toNat, by simp; omega⟩
  have hdata : (flame_line_content T body id).data
      = name.data ++ ':' :: ((toString m).data ++ ';' :: (body.data ++ ' ' :: (toString c).data)) := by
    have hname2 : comm_of T id.pid = name := by simp [comm_of, hname]
    have hpid2 : toString id.pid = toString m := by rw [hm]; rfl
    unfold flame_line_content
    rw [hname2, hpid2, hfield]
    simp [String.data_append]
  rw [hdata]
  refine line_matches_parts _ _ _ _ ?_ hcolon hlf (toString_nat_ne_nil m)
    (toString_nat_decimal m) hbody (toString_nat_ne_nil c) (toString_nat_decimal c)
  intro h
  exact hne (String.ext h)

theorem zipWith_lines_no_lf (T : Tables) :
    ∀ (bodies : List String) (ks : List psid), (∀ b ∈ bodies, no_lf b) →
      (∀ id ∈ ks, no_lf (comm_of T id.pid)) →
      ∀ l ∈ List.zipWith (fun b id => flame_line_content T b id) bodies ks, no_lf l
  | [], _, _, _ => by intro l hl; simp at hl
  | _ :: _, [], _, _ => by intro l hl; simp at hl
  | b :: bodies, id :: ks, hb, hk => by
    intro l hl
    rw [List.zipWith_cons_cons] at hl
    rcases List.mem_cons.mp hl with rfl | hl
    · exact flame_line_content_no_lf T b id (hk id (List.mem_cons_self _ _))
        (hb b (List.mem_cons_self _ _))
    · exact zipWith_lines_no_lf T bodies ks (fun x hx => hb x (List.mem_cons_of_mem _ hx))
        (fun x hx => hk x (List.mem_cons_of_mem _ hx)) l hl

/-- C21 (amended): with the needed tables opened, a writable `flatex.log`, a count table
that does not hold the zero key, for the pid of every key a name without line break in the
pid→name table, and no line break in the symbol names and the cached strings, `flame_save`
returns after writing a text that has exactly one line per key of the count table, in
iteration order; each line is the name the pid→name table holds, `:`, the pid, `;`, the
frames, a space and the count field. A line matches `^[^:]+:[0-9]+;.*\s[0-9]+$`, and its
count field is the stored count in decimal, when the name is not empty and holds no `:`,
the pid is not negative and the stored count is below 2^31. -/
theorem C21_flame_lines_shape (db : SymbolDb) (w : World) (L : bpf_loader)
    (T : Tables) (g : SymbolParser) (junk : Stale)
    (hcount : 0 ≤ L.count_fd) (htrace : 0 ≤ L.trace_fd) (hcomm : 0 ≤ L.comm_fd)
    (hnd : T.count.keys.Nodup) (hfo : w.fopen_ok = true)
    (hzero : psid_zero ∉ T.count.keys) (hdb : db_clean db) (hg : cache_clean g)
    (hnames : ∀ id ∈ T.count.keys,
      ∃ name, bpf_map_lookup_elem T.comm id.pid = some name ∧ no_lf name) :
    ∃ (bodies : List String) (r : FlameResult) (text : String),
      bodies.length = T.count.keys.length ∧
      flame_save db w L T g junk = Except.ok r ∧
      r.flatex = some text ∧
      (split_lines text.data).length = T.count.keys.length ∧
      split_lines text.data
        = (List.zipWith (fun b id => flame_line_content T b id) bodies T.count.keys).map
            String.data ∧
      ∀ p ∈ bodies.zip T.count.keys, ∀ (name : String) (c : Nat),
        bpf_map_lookup_elem T.comm p.2.pid = some name →
        bpf_map_lookup_elem T.count p.2 = some c → c < 2 ^ 31 →
        name ≠ "" → (∀ x ∈ name.data, x ≠ ':') → 0 ≤ p.2.pid →
        flame_count_field T p.2 = toString c ∧
        line_matches (flame_line_content T p.1 p.2).data = true := by
  have hvis : visited T.count psid_zero = T.count.keys := by simp [visited, hzero]
  have hkeys : ∀ id ∈ T.count.keys, id.pid ∈ T.comm.keys := by
    intro id hid
    obtain ⟨name, hname, _⟩ := hnames id hid
    exact mem_keys_of_lookup T.comm id.pid name hname
  have hcomm_lf : ∀ id ∈ T.count.keys, no_lf (comm_of T id.pid) := by
    intro id hid
    obtain ⟨name, hname, hlf⟩ := hnames id hid
    simpa [comm_of, hname] using hlf
  obtain ⟨bs, hl, hclean, hbs⟩ := flame_fold_lines db hdb L T
    (flame_max_deep T junk T.count.keys) T.count.keys
    ⟨[], g, junk.ip_main, junk.cmd, junk.count⟩ hg (fun _ h => h) hkeys
  have h1 : ¬ L.count_fd < 0 := by omega
  have h2 : ¬ L.trace_fd < 0 := by omega
  have h3 : ¬ L.comm_fd < 0 := by omega
  have hsave : ∃ r, flame_save db w L T g junk = Except.ok r ∧
      r.flatex = some (String.join (flame_lines db L T g junk T.count.keys).tex) := by
    unfold flame_save
    rw [if_neg h1, if_neg h2, if_neg h3]
    simp only [iter_keys_eq _ hnd, hfo, hvis]
    by_cases hp : w.popen_ok = true
    · simp only [hp, not_true_eq_false, if_false]
      split
      · exact ⟨_, rfl, rfl⟩
      · exact ⟨_, rfl, rfl⟩
    · simp [hp]
  obtain ⟨r, hr1, hr2⟩ := hsave
  have htex : (flame_lines db L T g junk T.count.keys).tex
      = (List.zipWith (fun b id => flame_line_content T b id) bs T.count.keys).map
          (fun l => l ++ "\n") := by
    simp only [flame_lines, hbs, List.nil_append, List.map_zipWith]
  have hsplit := split_lines_join _ (zipWith_lines_no_lf T bs T.count.keys hclean hcomm_lf)
  rw [← htex] at hsplit
  refine ⟨bs, r, _, hl, hr1, hr2, ?_, hsplit, ?_⟩
  · rw [hsplit]
    simp [hl]
  · intro p hp name c hname hc hsmall hne hcolon hpid
    obtain ⟨hp1, hp2⟩ := List.of_mem_zip hp
    have hfield : flame_count_field T p.2 = toString c := by
      simp only [flame_count_field, hc, Option.getD_some, to_int32_small c hsmall]
      rfl
    have hlf : no_lf name := by
      obtain ⟨name2, hname2, hlf2⟩ := hnames p.2 hp2
      rw [hname] at hname2
      cases hname2
      exact hlf2
    exact ⟨hfield, flame_line_content_matches T p.1 p.2 name c hname hfield hne hcolon hlf
      (hclean p.1 hp1) hpid⟩

end FoldedLines

section FoldedLinesWitness

theorem ex_db_clean : db_clean ex_db := by
  constructor
  · intro p r h
    unfold ex_db at h
    simp only at h
    split_ifs at h <;> cases h <;> exact text_no_lf _ (by decide)
  · intro pid p r h
    unfold ex_db at h
    simp only at h
    split_ifs at h <;> cases h <;> exact text_no_lf _ (by decide)

theorem ex_symbols_clean : cache_clean ex_symbols := by
  intro k v h
  simp [ex_symbols, bpf_map_lookup_elem] at h

theorem ex_tables_two_names : ∀ id ∈ ex_tables_two.count.keys,
    ∃ name, bpf_map_lookup_elem ex_tables_two.comm id.pid = some name ∧ no_lf name := by
  intro id hid
  simp only [ex_tables_two, BpfMap.keys, List.map_cons, List.map_nil, List.mem_cons,
    List.mem_singleton, List.not_mem_nil, or_false] at hid
  rcases hid with rfl | rfl
  · exact ⟨"a", by decide, text_no_lf "a" (by decide)⟩
  · exact ⟨"b", by decide, text_no_lf "b" (by decide)⟩

/-- C21 (witness): the tables of two processes named `a` and `b`. -/
theorem C21_flame_lines_shape_witness :
    ∃ (bodies : List String) (r : FlameResult) (text : String),
      bodies.length = ex_tables_two.count.keys.length ∧
      flame_save ex_db ex_world ex_loader ex_tables_two ex_symbols ex_junk = Except.ok r ∧
      r.flatex = some text ∧
      (split_lines text.data).length = ex_tables_two.count.keys.length ∧
      split_lines text.data
        = (List.zipWith (fun b id => flame_line_content ex_tables_two b id) bodies
            ex_tables_two.count.keys).map String.data ∧
      ∀ p ∈ bodies.zip ex_tables_two.count.keys, ∀ (name : String) (c : Nat),
        bpf_map_lookup_elem ex_tables_two.comm p.2.pid = some name →
        bpf_map_lookup_elem ex_tables_two.count p.2 = some c → c < 2 ^ 31 →
        name ≠ "" → (∀ x ∈ name.data, x ≠ ':') → 0 ≤ p.2.pid →
        flame_count_field ex_tables_two p.2 = toString c ∧
        line_matches (flame_line_content ex_tables_two p.1 p.2).data = true :=
  C21_flame_lines_shape ex_db ex_world ex_loader ex_tables_two ex_symbols ex_junk
    (by decide) (by decide) (by decide) (by decide) (by decide) (by decide)
    ex_db_clean ex_symbols_clean ex_tables_two_names

/-- The text of the two processes named `a` and `b`, and its lines. -/
theorem flame_two_lines :
    flame_text (flame_save ex_db ex_world ex_loader ex_tables_two ex_symbols ex_junk)
      = some "a:1;u_root;u_leaf;----------------;k_root;k_leaf; 1\nb:2;u_root;u_leaf;----------------;k_root;k_leaf; 2\n" ∧
    (split_lines "a:1;u_root;u_leaf;----------------;k_root;k_leaf; 1\nb:2;u_root;u_leaf;----------------;k_root;k_leaf; 2\n".data).map
        line_matches = [true, true] := by
  decide

end FoldedLinesWitness





section RendererAndHandles

/-- C22 (counterexample): `flame_save` does not return 0 when the renderer cannot be started.
When the pipe to the renderer cannot be opened, it has written the folded text to
`flatex.log`, pipes nothing and returns -1. When the pipe is opened and the shell behind it
has gone because the renderer is missing, the text written to the pipe raises SIGPIPE and
`flame_save` does not return at all; the text is in `flatex.log` in both cases. -/
theorem C22_renderer_failure_not_zero :
    ex_world_no_renderer.popen_ok = false ∧
    flame_ret (flame_save ex_db ex_world_no_renderer ex_loader ex_tables ex_symbols ex_junk)
      = some (-1) ∧
    flame_text (flame_save ex_db ex_world_no_renderer ex_loader ex_tables ex_symbols ex_junk)
      = some "a:1;u_root;u_leaf;----------------;k_root;k_leaf; 7\n" ∧
    flame_piped (flame_save ex_db ex_world_no_renderer ex_loader ex_tables ex_symbols ex_junk)
      = none ∧
    (ex_world_renderer_gone.popen_ok = true ∧ ex_world_renderer_gone.renderer_reads = false) ∧
    flame_ret (flame_save ex_db ex_world_renderer_gone ex_loader ex_tables ex_symbols ex_junk)
      = none ∧
    flame_text (flame_save ex_db ex_world_renderer_gone ex_loader ex_tables ex_symbols ex_junk)
      = some "a:1;u_root;u_leaf;----------------;k_root;k_leaf; 7\n" := by
  decide

/-- C22 (amended): with the needed tables opened and a writable `flatex.log`, `flame_save`
writes the whole folded text to `flatex.log` before it opens the pipe to the renderer, so the
text written is the same whatever happens at the pipe and to the renderer; it returns -1 with
nothing piped when the pipe does not open, and returns 0 with the text piped when the pipe
opens and the shell of the renderer reads what is written (or there is nothing to write). -/
theorem C22_text_written_before_renderer (db : SymbolDb) (w : World) (L : bpf_loader)
    (T : Tables) (g : SymbolParser) (junk : Stale)
    (hcount : 0 ≤ L.count_fd) (htrace : 0 ≤ L.trace_fd) (hcomm : 0 ≤ L.comm_fd)
    (hnd : T.count.keys.Nodup) (hfo : w.fopen_ok = true) :
    ∃ (text : String) (parser : SymbolParser),
      (∀ w2 : World, w2.fopen_ok = true →
        flame_text (flame_save db w2 L T g junk) = some text) ∧
      (w.popen_ok = false →
        flame_save db w L T g junk = Except.ok ⟨some (-1), some text, none, parser⟩) ∧
      (w.popen_ok = true → (w.renderer_reads = true ∨ text = "") →
        flame_save db w L T g junk = Except.ok ⟨some 0, some text, some text, parser⟩) := by
  have h1 : ¬ L.count_fd < 0 := by omega
  have h2 : ¬ L.trace_fd < 0 := by omega
  have h3 : ¬ L.comm_fd < 0 := by omega
  refine ⟨String.join (flame_lines db L T g junk (visited T.count psid_zero)).tex,
    (flame_lines db L T g junk (visited T.count psid_zero)).parser, ?_, ?_, ?_⟩
  · intro w2 hfo2
    unfold flame_save
    rw [if_neg h1, if_neg h2, if_neg h3]
    simp only [iter_keys_eq _ hnd, hfo2]
    by_cases hp : w2.popen_ok = true
    · simp only [hp, not_true_eq_false, if_false]
      split <;> rfl
    · simp [hp, flame_text]
  · intro hp
    unfold flame_save
    rw [if_neg h1, if_neg h2, if_neg h3]
    simp [iter_keys_eq _ hnd, hfo, hp]
  · intro hp hr
    unfold flame_save
    rw [if_neg h1, if_neg h2, if_neg h3]
    simp only [iter_keys_eq _ hnd, hfo, hp, not_true_eq_false, if_false]
    rcases hr with hr | hr
    · simp [hr]
    · simp [hr]

/-- C22 (witness): the tables of the example, the pipe not opening. -/
theorem C22_text_written_before_renderer_witness :
    ∃ (text : String) (parser : SymbolParser),
      (∀ w2 : World, w2.fopen_ok = true →
        flame_text (flame_save ex_db w2 ex_loader ex_tables ex_symbols ex_junk) = some text) ∧
      flame_save ex_db ex_world_no_renderer ex_loader ex_tables ex_symbols ex_junk
        = Except.ok ⟨some (-1), some text, none, parser⟩ := by
  obtain ⟨text, parser, hall, hfail, _⟩ :=
    C22_text_written_before_renderer ex_db ex_world_no_renderer ex_loader ex_tables ex_symbols
      ex_junk (by decide) (by decide) (by decide) (by decide) rfl
  exact ⟨text, parser, hall, hfail rfl⟩

/-- `data_save` returns -1, writes nothing and calls nothing when one of its four tables is
not opened. -/
theorem data_save_unopened (db : SymbolDb) (w : World) (L : bpf_loader) (T : Tables)
    (g : SymbolParser) (junk : Stale)
    (h : L.comm_fd < 0 ∨ L.tgid_fd < 0 ∨ L.count_fd < 0 ∨ L.trace_fd < 0) :
    data_save db w L T g junk = Except.ok ⟨-1, none, g⟩ := by
  unfold data_save
  by_cases h1 : L.comm_fd < 0
  · simp [h1]
  · by_cases h2 : L.tgid_fd < 0
    · simp [h1, h2]
    · by_cases h3 : L.count_fd < 0
      · simp [h1, h2, h3]
      · have h4 : L.trace_fd < 0 := by
          rcases h with h | h | h | h
          · exact absurd h h1
          · exact absurd h h2
          · exact absurd h h3
          · exact h
        simp [h1, h2, h3, h4]

/-- `flame_save` returns -1, writes nothing and calls nothing when one of the count, trace
and name tables is not opened. -/
theorem flame_save_unopened (db : SymbolDb) (w : World) (L : bpf_loader) (T : Tables)
    (g : SymbolParser) (junk : Stale)
    (h : L.count_fd < 0 ∨ L.trace_fd < 0 ∨ L.comm_fd < 0) :
    flame_save db w L T g junk = Except.ok ⟨some (-1), none, none, g⟩ := by
  unfold flame_save
  by_cases h1 : L.count_fd < 0
  · simp [h1]
  · by_cases h2 : L.trace_fd < 0
    · simp [h1, h2]
    · have h3 : L.comm_fd < 0 := by
        rcases h with h | h | h
        · exact absurd h h1
        · exact absurd h h2
        · exact h
      simp [h1, h2, h3]

/-- A `load()` that fails leaves the four table handles as it found them, in each driver. -/
theorem load_failed_keeps_handles (lib : LibBpf) :
    (∀ s : on_cpu_loader, (on_cpu_loader.load lib s).1 ≠ 0 →
      (on_cpu_loader.load lib s).2.base.count_fd = s.base.count_fd ∧
      (on_cpu_loader.load lib s).2.base.tgid_fd = s.base.tgid_fd ∧
      (on_cpu_loader.load lib s).2.base.comm_fd = s.base.comm_fd ∧
      (on_cpu_loader.load lib s).2.base.trace_fd = s.base.trace_fd) ∧
    (∀ s : off_cpu_loader, (off_cpu_loader.load lib s).1 ≠ 0 →
      (off_cpu_loader.load lib s).2.base.count_fd = s.base.count_fd ∧
      (off_cpu_loader.load lib s).2.base.tgid_fd = s.base.tgid_fd ∧
      (off_cpu_loader.load lib s).2.base.comm_fd = s.base.comm_fd ∧
      (off_cpu_loader.load lib s).2.base.trace_fd = s.base.trace_fd) ∧
    (∀ s : mem_loader, (mem_loader.load lib s).1 ≠ 0 →
      (mem_loader.load lib s).2.base.count_fd = s.base.count_fd ∧
      (mem_loader.load lib s).2.base.tgid_fd = s.base.tgid_fd ∧
      (mem_loader.load lib s).2.base.comm_fd = s.base.comm_fd ∧
      (mem_loader.load lib s).2.base.trace_fd = s.base.trace_fd) ∧
    (∀ s : io_loader, (io_loader.load lib s).1 ≠ 0 →
      (io_loader.load lib s).2.base.count_fd = s.base.count_fd ∧
      (io_loader.load lib s).2.base.tgid_fd = s.base.tgid_fd ∧
      (io_loader.load lib s).2.base.comm_fd = s.base.comm_fd ∧
      (io_loader.load lib s).2.base.trace_fd = s.base.trace_fd) := by
  refine ⟨?_, ?_, ?_, ?_⟩
  · intro s
    unfold on_cpu_loader.load
    by_cases ho : lib.skel_open = true <;> by_cases hl : lib.skel_load = 0 <;> simp [ho, hl]
  · intro s
    unfold off_cpu_loader.load
    by_cases ho : lib.skel_open = true <;> by_cases hl : lib.skel_load = 0 <;> simp [ho, hl]
  · intro s
    unfold mem_loader.load
    by_cases ho : lib.skel_open = true <;> by_cases hl : lib.skel_load = 0 <;> simp [ho, hl]
  · intro s
    unfold io_loader.load
    by_cases ho : lib.skel_open = true <;> by_cases hl : lib.skel_load = 0 <;> simp [ho, hl]

/-- C23 (the code with all handles open and an output file that cannot be opened): the four
handles of the loader are open, `fopen("stack_count.json", "w")` fails, and `data_save` hands
the null file to the JSON writer instead of returning; `flame_save` checks the result of its
`fopen` and returns -1 in the same situation. -/
theorem C23_data_save_open_handles_no_return :
    (0 ≤ ex_loader.count_fd ∧ 0 ≤ ex_loader.trace_fd ∧ 0 ≤ ex_loader.tgid_fd ∧
      0 ≤ ex_loader.comm_fd) ∧
    ex_world_no_file.fopen_ok = false ∧
    export_ret (data_save ex_db ex_world_no_file ex_loader ex_tables ex_symbols ex_junk)
      = none ∧
    export_fault (data_save ex_db ex_world_no_file ex_loader ex_tables ex_symbols ex_junk)
      = some Fault.null_file ∧
    flame_ret (flame_save ex_db ex_world_no_file ex_loader ex_tables ex_symbols ex_junk)
      = some (-1) := by
  decide

end RendererAndHandles

section DetachCountTgid

/-- C24 (the code at the states `test()` calls `detach()` in): when the skeleton does not
open, `load()` of the on-CPU driver and of the memory driver returns -1 with a null skeleton
handle, and their `detach()` dereferences it; the off-CPU and I/O drivers test the handle and
release nothing. When the skeleton loads and `perf_event_open` fails, `attach()` of the
on-CPU driver returns -1 with `pefd = -1`, and `detach()` closes the descriptor -1, which was
never opened. -/
theorem C24_detach_null_skeleton_and_unopened_descriptor :
    (on_cpu_loader.load ex_lib_no_open (on_cpu_loader.init (-1) (-1) true true)).1 = -1 ∧
    (on_cpu_loader.load ex_lib_no_open (on_cpu_loader.init (-1) (-1) true true)).2.skel
      = none ∧
    fault_of (on_cpu_loader.detach
      (on_cpu_loader.load ex_lib_no_open (on_cpu_loader.init (-1) (-1) true true)).2)
      = some Fault.null_deref ∧
    (mem_loader.load ex_lib_no_open (mem_loader.init (-1) (-1) true true "libc.so.6")).1
      = -1 ∧
    fault_of (mem_loader.detach
      (mem_loader.load ex_lib_no_open (mem_loader.init (-1) (-1) true true "libc.so.6")).2)
      = some Fault.null_deref ∧
    released_by (off_cpu_loader.detach
      (off_cpu_loader.load ex_lib_no_open (off_cpu_loader.init (-1) (-1) true true)).2)
      = some [] ∧
    released_by (io_loader.detach
      (io_loader.load ex_lib_no_open (io_loader.init (-1) (-1) true true)).2) = some [] ∧
    on_cpu_loader.attach ex_lib_no_perf ex_on_cpu_loaded
      = Except.ok (-1, ex_on_cpu_loaded) ∧
    released_by (on_cpu_loader.detach ex_on_cpu_loaded) = some [Release.close (-1)] :=
  ⟨rfl, rfl, rfl, rfl, rfl, rfl, rfl, rfl, rfl⟩

/-- C25 (the code at counts of 2^31 and more): the count table stores 2^32 + 5 for the key of
process 1 and 2^31 for the key of process 2; `sortD` reports these counts, and `flame_save`,
which reads the count into an `int`, prints `5` and `-2147483648`. -/
theorem C25_flame_count_truncated :
    bpf_map_lookup_elem ex_tables_big.count ⟨1, 5, 10⟩ = some (2 ^ 32 + 5) ∧
    bpf_map_lookup_elem ex_tables_big.count ⟨2, 5, 10⟩ = some (2 ^ 31) ∧
    sortD ex_loader.count_fd ex_tables_big.count 0
      = some (some [⟨2, 5, 10, 2147483648⟩, ⟨1, 5, 10, 4294967301⟩]) ∧
    flame_text (flame_save ex_db ex_world ex_loader ex_tables_big ex_symbols ex_junk)
      = some ("a:1;u_root;u_leaf;----------------;k_root;k_leaf; 5\n" ++
          "b:2;u_root;u_leaf;----------------;k_root;k_leaf; -2147483648\n") := by
  decide

/-- C26 (the code at pids that share a tgid): the pid→tgid table holds the pids 1 and 2 under
tgid 1 and the pid 3 under tgid 3; the first pass adds a member named after the tgid for
every pid, so the top-level object of the report has the member names `1`, `1`, `3`: tgid 1
is there twice, both pids nested under the first of the two members and the second one
empty. -/
theorem C26_duplicate_tgid_members :
    ex_tables_three.tgid = [(1, 1), (2, 1), (3, 3)] ∧
    ∃ (st : DataState) (report : Json) (parser : SymbolParser),
      data_passes ex_tables_three ex_junk = Except.ok st ∧
      member_names st.ajson = ["1", "1", "3"] ∧
      st.ajson = Json.obj [
        ("1", Json.obj [
          ("1", Json.obj [("stacks", Json.obj []), ("name", Json.str "a")]),
          ("2", Json.obj [("stacks", Json.obj []), ("name", Json.str "b")])]),
        ("1", Json.obj []),
        ("3", Json.obj [("3", Json.obj [("stacks", Json.obj []), ("name", Json.str "c")])])] ∧
      data_save ex_db ex_world ex_loader ex_tables_three ex_symbols ex_junk
        = Except.ok ⟨0, some report, parser⟩ ∧
      member_names report = ["1", "1", "3"] :=
  ⟨rfl, _, _, _, rfl, rfl, rfl, rfl, rfl⟩

end DetachCountTgid

section MainOptions

/-- C27 (the code at `-m 4` and at `-m -1`): `main` accepts both command lines, stores the
number in `env::mod` without a check and reads `arr[4]`, respectively `arr[-1]`, outside the
table of four drivers. The options `-F` and `-p` next to it clamp their numbers; `-m 0` to
`-m 3` and a command line without `-m` select the on-CPU, off-CPU, memory, I/O and on-CPU
driver. -/
theorem C27_mode_index_out_of_bounds :
    main [Opt.m "4"] true = MainResult.out_of_bounds 4 ∧
    main [Opt.m "-1"] true = MainResult.out_of_bounds (-1) ∧
    main_option Env.init (Opt.F "0") = some { Env.init with freq := 1 } ∧
    main_option Env.init (Opt.p "0") = some { Env.init with pid := -1 } ∧
    main [Opt.m "0"] true = MainResult.run Mode.on_cpu Env.init ∧
    main [Opt.m "1"] true = MainResult.run Mode.off_cpu { Env.init with mod := 1 } ∧
    main [Opt.m "2"] true = MainResult.run Mode.mem { Env.init with mod := 2 } ∧
    main [Opt.m "3"] true = MainResult.run Mode.io { Env.init with mod := 3 } ∧
    main [] true = MainResult.run Mode.on_cpu Env.init := by
  decide

end MainOptions

end StackAnalyzer
